import Mathlib

/-!
Verification of the mittensOS chess engine core (gamestate.cpp / chessai.cpp)
against its natural-language specification.

The C++ core is shallowly embedded: each board cell is the two-character
tag used by the source (`"wp"`, `"bR"`, `"--"`), the 8×8 board is a list of
rows, C++ `int` is `Int`, `QVector` stacks are Lean lists with the most
recent entry first (push = cons, pop = tail, back = head), and the
`double` positional tables are embedded as exact rationals (every table
entry is a decimal in [0, 0.8]; the only operation applied to them is
`int += int + double`, whose result depends only on the integer part of
the sum, which is the same for the IEEE doubles and the exact decimals
since all entries and their double roundings lie in [0,1)).
-/

namespace MittensOS

/-- A board cell: the two characters of the source's `QString` square tag,
colour (`'w'`/`'b'`/`'-'`) then kind (`'K'`,`'Q'`,`'R'`,`'B'`,`'N'`,`'p'` or `'-'`). -/
structure Cell where
  color : Char
  kind : Char
deriving DecidableEq, Repr

/-- The empty square `"--"`. -/
def emptyCell : Cell := ⟨'-', '-'⟩

def wK : Cell := ⟨'w', 'K'⟩
def wQ : Cell := ⟨'w', 'Q'⟩
def wR : Cell := ⟨'w', 'R'⟩
def wB : Cell := ⟨'w', 'B'⟩
def wN : Cell := ⟨'w', 'N'⟩
def wp : Cell := ⟨'w', 'p'⟩
def bK : Cell := ⟨'b', 'K'⟩
def bQ : Cell := ⟨'b', 'Q'⟩
def bR : Cell := ⟨'b', 'R'⟩
def bB : Cell := ⟨'b', 'B'⟩
def bN : Cell := ⟨'b', 'N'⟩
def bp : Cell := ⟨'b', 'p'⟩

/-- The 8×8 board, row 0 = rank 8 (black's back rank), as in the source. -/
abbrev Board := List (List Cell)

/-- Read `board[r][c]`.  The source only reads squares it has bounds-checked
to be in `0..7`; out-of-range reads (undefined behaviour in C++) are
totalised to the empty cell. -/
def getSq (b : Board) (r c : Int) : Cell :=
  (b.getD r.toNat []).getD c.toNat emptyCell

/-- Write `board[r][c] = v` (out-of-range writes are no-ops; the source
never performs one on the states the claims quantify over). -/
def setSq (b : Board) (r c : Int) (v : Cell) : Board :=
  b.set r.toNat ((b.getD r.toNat []).set c.toNat v)

/-- `Move` (gamestate.h): endpoints, piece identities, special-move flags
and the `moveID` used by `operator==`. -/
structure Move where
  startRow : Int
  startCol : Int
  endRow : Int
  endCol : Int
  pieceMoved : Cell
  pieceCaptured : Cell
  isPawnPromotion : Bool
  isEnpassantMove : Bool
  isCastleMove : Bool
  isCapture : Bool
  moveID : Int
deriving DecidableEq, Repr

/-- The `Move` default constructor (empty move, `moveID = 0`). -/
def defaultMove : Move :=
  ⟨0, 0, 0, 0, emptyCell, emptyCell, false, false, false, false, 0⟩

/-- The main `Move` constructor (gamestate.cpp, `Move::Move`): reads the
moved and captured pieces from the board at construction time, derives the
promotion flag, overrides the captured piece for en passant, and computes
`moveID = startRow*1000 + startCol*100 + endRow*10 + endCol`. -/
def mkMove (startSq endSq : Int × Int) (board : Board)
    (isEnpassantMove isCastleMove : Bool) : Move :=
  let startRow := startSq.1
  let startCol := startSq.2
  let endRow := endSq.1
  let endCol := endSq.2
  let pieceMoved := getSq board startRow startCol
  let pieceCaptured0 := getSq board endRow endCol
  let isPawnPromotion :=
    (pieceMoved = wp ∧ endRow = 0) ∨ (pieceMoved = bp ∧ endRow = 7)
  let pieceCaptured :=
    if isEnpassantMove then (if pieceMoved = wp then bp else wp) else pieceCaptured0
  let isCapture := pieceCaptured ≠ emptyCell
  { startRow := startRow, startCol := startCol, endRow := endRow, endCol := endCol,
    pieceMoved := pieceMoved, pieceCaptured := pieceCaptured,
    isPawnPromotion := decide isPawnPromotion,
    isEnpassantMove := isEnpassantMove, isCastleMove := isCastleMove,
    isCapture := decide isCapture,
    moveID := startRow * 1000 + startCol * 100 + endRow * 10 + endCol }

/-- `PinInfo` (gamestate.h): a pinned or checking piece's square and the
direction vector from the king. -/
structure PinInfo where
  row : Int
  col : Int
  dirRow : Int
  dirCol : Int
deriving DecidableEq, Repr

/-- `PinsAndChecksInfo` (gamestate.h). -/
structure PinsAndChecksInfo where
  inCheck : Bool
  pins : List PinInfo
  checks : List PinInfo
deriving DecidableEq, Repr

/-- `CastleRights` (gamestate.h): the four castling-right booleans. -/
structure CastleRights where
  wks : Bool
  bks : Bool
  wqs : Bool
  bqs : Bool
deriving DecidableEq, Repr

/-- `GameState` (gamestate.h).  The three history stacks are stored with
the most recent entry first (C++ `push_back`/`back`/`pop_back` become
cons/head/tail). -/
@[ext]
structure GameState where
  board : Board
  whiteToMove : Bool
  moveLog : List Move
  whiteKingLocation : Int × Int
  blackKingLocation : Int × Int
  checkmate : Bool
  stalemate : Bool
  inCheck : Bool
  pins : List PinInfo
  checks : List PinInfo
  enPassantPossible : Int × Int
  enPassantPossibleLog : List (Int × Int)
  castlingRights : CastleRights
  castlingRightsLog : List CastleRights
deriving DecidableEq, Repr

/-- The fresh state built by `GameState::GameState()`: standard starting
position, white to move, empty move log, and one initial snapshot pushed
onto each of the en-passant and castling-rights logs. -/
def GameState.initial : GameState :=
  { board :=
      [[bR, bN, bB, bQ, bK, bB, bN, bR],
       [bp, bp, bp, bp, bp, bp, bp, bp],
       (List.replicate 8 emptyCell),
       (List.replicate 8 emptyCell),
       (List.replicate 8 emptyCell),
       (List.replicate 8 emptyCell),
       [wp, wp, wp, wp, wp, wp, wp, wp],
       [wR, wN, wB, wQ, wK, wB, wN, wR]],
    whiteToMove := true,
    moveLog := [],
    whiteKingLocation := (7, 4),
    blackKingLocation := (0, 4),
    checkmate := false,
    stalemate := false,
    inCheck := false,
    pins := [],
    checks := [],
    enPassantPossible := (-1, -1),
    enPassantPossibleLog := [(-1, -1)],
    castlingRights := ⟨true, true, true, true⟩,
    castlingRightsLog := [⟨true, true, true, true⟩] }

/-- `GameState::updateCastleRights` (gamestate.cpp lines 204–247): the
rook-capture section checks only the capture *column* (0 or 7), not the
row; then an if/else-if chain handles king moves and rook moves from
their home squares. -/
def updateCastleRights (move : Move) (cr0 : CastleRights) : CastleRights :=
  -- If a rook is captured (note: no endRow test in the source)
  let cr1 :=
    if move.pieceCaptured = wR then
      (if move.endCol = 0 then { cr0 with wqs := false }
       else if move.endCol = 7 then { cr0 with wks := false }
       else cr0)
    else if move.pieceCaptured = bR then
      (if move.endCol = 0 then { cr0 with bqs := false }
       else if move.endCol = 7 then { cr0 with bks := false }
       else cr0)
    else cr0
  -- If the king moves / else if a rook moves from its home square
  if move.pieceMoved = wK then { cr1 with wqs := false, wks := false }
  else if move.pieceMoved = bK then { cr1 with bqs := false, bks := false }
  else if move.pieceMoved = wR then
    (if move.startRow = 7 then
       (if move.startCol = 0 then { cr1 with wqs := false }
        else if move.startCol = 7 then { cr1 with wks := false }
        else cr1)
     else cr1)
  else if move.pieceMoved = bR then
    (if move.startRow = 0 then
       (if move.startCol = 0 then { cr1 with bqs := false }
        else if move.startCol = 7 then { cr1 with bks := false }
        else cr1)
     else cr1)
  else cr1

/-- `GameState::makeMove` (gamestate.cpp lines 84–136), with the board
writes in source order: clear start, write end, king-location update,
promotion overwrite, en-passant clear, en-passant-target recompute,
castle rook relocation, then the two log pushes and the castling-rights
update. -/
def GameState.makeMove (gs : GameState) (move : Move) : GameState :=
  let b1 := setSq gs.board move.startRow move.startCol emptyCell
  let b2 := setSq b1 move.endRow move.endCol move.pieceMoved
  let wkl := if move.pieceMoved = wK then (move.endRow, move.endCol)
             else gs.whiteKingLocation
  let bkl := if move.pieceMoved = bK then (move.endRow, move.endCol)
             else gs.blackKingLocation
  let b3 := if move.isPawnPromotion then
              setSq b2 move.endRow move.endCol ⟨move.pieceMoved.color, 'Q'⟩
            else b2
  let b4 := if move.isEnpassantMove then
              setSq b3 move.startRow move.endCol emptyCell
            else b3
  let enp := if move.pieceMoved.kind = 'p' ∧ (move.startRow - move.endRow).natAbs = 2 then
               ((move.startRow + move.endRow) / 2, move.startCol)
             else (-1, -1)
  let b5 := if move.isCastleMove then
              (if move.endCol - move.startCol = 2 then
                 -- King side castle
                 setSq (setSq b4 move.endRow (move.endCol - 1)
                          (getSq b4 move.endRow (move.endCol + 1)))
                   move.endRow (move.endCol + 1) emptyCell
               else
                 -- Queen side castle
                 setSq (setSq b4 move.endRow (move.endCol + 1)
                          (getSq b4 move.endRow (move.endCol - 2)))
                   move.endRow (move.endCol - 2) emptyCell)
            else b4
  let cr := updateCastleRights move gs.castlingRights
  { gs with
    board := b5,
    whiteToMove := !gs.whiteToMove,
    moveLog := move :: gs.moveLog,
    whiteKingLocation := wkl,
    blackKingLocation := bkl,
    enPassantPossible := enp,
    enPassantPossibleLog := enp :: gs.enPassantPossibleLog,
    castlingRights := cr,
    castlingRightsLog := cr :: gs.castlingRightsLog }

/-- `GameState::undoMove` (gamestate.cpp lines 144–194): a no-op on an
empty move log; otherwise pops the last move, restores the endpoints from
its stored piece identities, reverses the special-move effects, pops the
two snapshot logs restoring their new tops as current, and clears the
checkmate/stalemate flags.  (`back()` after the pop is undefined on an
empty log in C++; the source guarantees the logs are never emptied because
one snapshot is pushed at construction — the embedding totalises with the
constructor's initial values.) -/
def GameState.undoMove (gs : GameState) : GameState :=
  match gs.moveLog with
  | [] => gs
  | move :: rest =>
    let b1 := setSq gs.board move.startRow move.startCol move.pieceMoved
    let b2 := setSq b1 move.endRow move.endCol move.pieceCaptured
    let wkl := if move.pieceMoved = wK then (move.startRow, move.startCol)
               else gs.whiteKingLocation
    let bkl := if move.pieceMoved = bK then (move.startRow, move.startCol)
               else gs.blackKingLocation
    let b3 := if move.isEnpassantMove then
                setSq (setSq b2 move.endRow move.endCol emptyCell)
                  move.startRow move.endCol move.pieceCaptured
              else b2
    let enpLog := gs.enPassantPossibleLog.tail
    let crLog := gs.castlingRightsLog.tail
    let b4 := if move.isCastleMove then
                (if move.endCol - move.startCol = 2 then
                   -- King side castle
                   setSq (setSq b3 move.endRow (move.endCol + 1)
                            (getSq b3 move.endRow (move.endCol - 1)))
                     move.endRow (move.endCol - 1) emptyCell
                 else
                   -- Queen side castle
                   setSq (setSq b3 move.endRow (move.endCol - 2)
                            (getSq b3 move.endRow (move.endCol + 1)))
                     move.endRow (move.endCol + 1) emptyCell)
              else b3
    { gs with
      board := b4,
      whiteToMove := !gs.whiteToMove,
      moveLog := rest,
      whiteKingLocation := wkl,
      blackKingLocation := bkl,
      enPassantPossible := enpLog.headD (-1, -1),
      enPassantPossibleLog := enpLog,
      castlingRights := crLog.headD ⟨true, true, true, true⟩,
      castlingRightsLog := crLog,
      checkmate := false,
      stalemate := false }

/-! ### Pin/check detection (gamestate.cpp lines 447–558) -/

/-- The eight ray directions, rook directions first (indices 0–3), then
bishop directions (indices 4–7). -/
def directions8 : List (Int × Int) :=
  [(-1, 0), (0, -1), (1, 0), (0, 1), (-1, -1), (-1, 1), (1, -1), (1, 1)]

/-- The eight knight offsets. -/
def knightDirs : List (Int × Int) :=
  [(-2, -1), (-2, 1), (-1, -2), (-1, 2), (1, -2), (1, 2), (2, -1), (2, 1)]

/-- Whether an enemy piece of kind `pieceType`, met at distance `i` along
direction index `j`, can attack the king (the if/else-if chain of
gamestate.cpp lines 493–517). -/
def canCheckType (j i : Nat) (enemyColor pieceType : Char) : Bool :=
  if j ≤ 3 ∧ pieceType = 'R' then true
  else if 4 ≤ j ∧ pieceType = 'B' then true
  else if i = 1 ∧ pieceType = 'p' then
    decide ((enemyColor = 'w' ∧ 6 ≤ j ∧ j ≤ 7) ∨ (enemyColor = 'b' ∧ 4 ≤ j ∧ j ≤ 5))
  else if pieceType = 'Q' then true
  else if i = 1 ∧ pieceType = 'K' then true
  else false

/-- One ray of the pin/check scan (the `for i` loop of
`checkForPinsAndChecks`): walks outward from the king with the current
pin candidate, and returns `(pin found, check found)` (at most one is
`some`).  `i` is the current distance, `fuel` the remaining iterations
(the source iterates `i = 1..7`). -/
def scanDirGo (board : Board) (teamColor enemyColor : Char)
    (startRow startCol : Int) (j : Nat) (d : Int × Int) :
    Nat → Nat → Option (Int × Int) → Option PinInfo × Option PinInfo
  | _, 0, _ => (none, none)
  | i, fuel + 1, possiblePin =>
    let endRow := startRow + d.1 * (i : Int)
    let endCol := startCol + d.2 * (i : Int)
    if 0 ≤ endRow ∧ endRow ≤ 7 ∧ 0 ≤ endCol ∧ endCol ≤ 7 then
      let endPiece := getSq board endRow endCol
      if endPiece.color = teamColor ∧ endPiece.kind ≠ 'K' then
        match possiblePin with
        | none =>
          scanDirGo board teamColor enemyColor startRow startCol j d
            (i + 1) fuel (some (endRow, endCol))
        | some _ => (none, none)  -- second allied piece: no pin or check
      else if endPiece.color = enemyColor then
        (if canCheckType j i enemyColor endPiece.kind then
          match possiblePin with
          | none => (none, some ⟨endRow, endCol, d.1, d.2⟩)        -- check
          | some pc => (some ⟨pc.1, pc.2, d.1, d.2⟩, none)         -- pin
        else (none, none))  -- enemy piece that gives no check
      else
        -- empty square (or the allied king itself): keep scanning
        scanDirGo board teamColor enemyColor startRow startCol j d
          (i + 1) fuel possiblePin
    else (none, none)  -- off board

/-- `GameState::checkForPinsAndChecks`: the eight-ray scan followed by the
knight-offset scan. -/
def checkForPinsAndChecks (board : Board) (whiteToMove : Bool)
    (wkl bkl : Int × Int) : PinsAndChecksInfo :=
  let enemyColor := if whiteToMove then 'b' else 'w'
  let teamColor := if whiteToMove then 'w' else 'b'
  let startRow := if whiteToMove then wkl.1 else bkl.1
  let startCol := if whiteToMove then wkl.2 else bkl.2
  let rays := (List.range 8).foldl
    (fun (acc : Bool × List PinInfo × List PinInfo) j =>
      let d := directions8.getD j (0, 0)
      match scanDirGo board teamColor enemyColor startRow startCol j d 1 7 none with
      | (some pin, _) => (acc.1, acc.2.1 ++ [pin], acc.2.2)
      | (none, some chk) => (true, acc.2.1, acc.2.2 ++ [chk])
      | (none, none) => acc)
    (false, [], [])
  let final := knightDirs.foldl
    (fun (acc : Bool × List PinInfo × List PinInfo) m =>
      let endRow := startRow + m.1
      let endCol := startCol + m.2
      if 0 ≤ endRow ∧ endRow ≤ 7 ∧ 0 ≤ endCol ∧ endCol ≤ 7 then
        let endPiece := getSq board endRow endCol
        if endPiece.color = enemyColor ∧ endPiece.kind = 'N' then
          (true, acc.2.1, acc.2.2 ++ [⟨endRow, endCol, m.1, m.2⟩])
        else acc
      else acc)
    rays
  ⟨final.1, final.2.1, final.2.2⟩

/-! ### Per-piece move generation (gamestate.cpp lines 570–1033)

The generators mutate three `GameState` members: they consume entries of
`pins`, and `getKingMoves` rewrites the cached king location (it restores
it to its own argument square, which coincides with the old value exactly
when the cache was consistent with the board).  These threaded members
are grouped in `GenCtx`. -/

/-- The generator-visible mutable state: the pin list being consumed and
the two cached king locations. -/
structure GenCtx where
  pins : List PinInfo
  wkl : Int × Int
  bkl : Int × Int
deriving DecidableEq, Repr

/-- The backwards pin scan performed at the top of each generator
(`for i = pins.size()-1; i >= 0; i--` with a `break` on the first hit):
returns the *last* entry whose square matches, and the list with that
entry removed. -/
def removeLastMatch : List PinInfo → Int → Int → Option PinInfo × List PinInfo
  | [], _, _ => (none, [])
  | p :: rest, r, c =>
    match removeLastMatch rest r c with
    | (some q, rest') => (some q, p :: rest')
    | (none, rest') =>
      if p.row = r ∧ p.col = c then (some p, rest) else (none, p :: rest')

/-- The integer columns `a, a+1, …, b-1` (clipped to the board `0..7`;
the source's loops only touch on-board columns on the states the claims
quantify over). -/
def colsAsc (a b : Int) : List Int :=
  ((List.range 8).map (fun n => (n : Int))).filter (fun i => a ≤ i ∧ i < b)

/-- The integer columns `a, a-1, …, b+1` (descending, clipped to `0..7`). -/
def colsDesc (a b : Int) : List Int :=
  (((List.range 8).map (fun n => (n : Int))).filter (fun i => b < i ∧ i ≤ a)).reverse

/-- The "check outside of pawn" scan of the en-passant special case:
walks the given columns in order and classifies the first occupied square
(enemy rook/queen ⇒ attacking, anything else ⇒ blocking). -/
def outsideScan (board : Board) (enemyColor : Char) (row : Int) :
    List Int → Bool × Bool
  | [] => (false, false)
  | c :: rest =>
    let square := getSq board row c
    if square.color = enemyColor ∧ (square.kind = 'R' ∨ square.kind = 'Q') then
      (true, false)
    else if square ≠ emptyCell then (false, true)
    else outsideScan board enemyColor row rest

/-- The "check between king and pawn" scan: true iff any of the given
columns is occupied. -/
def betweenScan (board : Board) (row : Int) (cols : List Int) : Bool :=
  cols.any (fun i => getSq board row i ≠ emptyCell)

/-- The horizontal-pin test guarding an en-passant capture
(gamestate.cpp lines 612–658 and 674–718): returns
`(attackingPiece, blockingPiece)`.  `capturedCol` is the column of the
pawn that would be captured en passant. -/
def epPinScan (board : Board) (enemyColor : Char) (kingPos : Int × Int)
    (row col capturedCol : Int) : Bool × Bool :=
  if kingPos.1 = row then
    if kingPos.2 < col then  -- king is left of the pawn
      if capturedCol = col - 1 then
        let blocking := betweenScan board row (colsAsc (kingPos.2 + 1) (col - 1))
        let outside := outsideScan board enemyColor row (colsAsc (col + 1) 8)
        (outside.1, blocking ∨ outside.2)
      else
        let blocking := betweenScan board row (colsAsc (kingPos.2 + 1) col)
        let outside := outsideScan board enemyColor row (colsAsc (col + 2) 8)
        (outside.1, blocking ∨ outside.2)
    else  -- king is right of the pawn
      if capturedCol = col - 1 then
        let blocking := betweenScan board row (colsDesc (kingPos.2 - 1) col)
        let outside := outsideScan board enemyColor row (colsDesc (col - 2) (-1))
        (outside.1, blocking ∨ outside.2)
      else
        let blocking := betweenScan board row (colsDesc (kingPos.2 - 1) (col + 1))
        let outside := outsideScan board enemyColor row (colsDesc (col - 1) (-1))
        (outside.1, blocking ∨ outside.2)
  else (false, false)

/-- `GameState::getPawnMoves` (gamestate.cpp lines 570–727). -/
def getPawnMoves (board : Board) (whiteToMove : Bool) (enp : Int × Int)
    (ctx : GenCtx) (row col : Int) : List Move × GenCtx :=
  let scan := removeLastMatch ctx.pins row col
  let piecePinned := scan.1.isSome
  let pinDirection : Int × Int :=
    match scan.1 with
    | some p => (p.dirRow, p.dirCol)
    | none => (0, 0)
  let ctx := { ctx with pins := scan.2 }
  let moveAmount : Int := if whiteToMove then -1 else 1
  let startRow : Int := if whiteToMove then 6 else 1
  let enemyColor : Char := if whiteToMove then 'b' else 'w'
  let kingPos := if whiteToMove then ctx.wkl else ctx.bkl
  if 0 ≤ row + moveAmount ∧ row + moveAmount ≤ 7 then
    let fwd :=
      if getSq board (row + moveAmount) col = emptyCell then
        if ¬piecePinned ∨ pinDirection = (moveAmount, 0) then
          mkMove (row, col) (row + moveAmount, col) board false false ::
            (if row = startRow ∧ getSq board (row + 2 * moveAmount) col = emptyCell then
              [mkMove (row, col) (row + 2 * moveAmount, col) board false false]
            else [])
        else []
      else []
    let leftCap :=
      if col - 1 ≥ 0 then
        if ¬piecePinned ∨ pinDirection = (moveAmount, -1) then
          (if (getSq board (row + moveAmount) (col - 1)).color = enemyColor then
            [mkMove (row, col) (row + moveAmount, col - 1) board false false]
          else []) ++
          (if enp = (row + moveAmount, col - 1) then
            let s := epPinScan board enemyColor kingPos row col (col - 1)
            if ¬s.1 ∨ s.2 then
              [mkMove (row, col) (row + moveAmount, col - 1) board true false]
            else []
          else [])
        else []
      else []
    let rightCap :=
      if col + 1 ≤ 7 then
        if ¬piecePinned ∨ pinDirection = (moveAmount, 1) then
          (if (getSq board (row + moveAmount) (col + 1)).color = enemyColor then
            [mkMove (row, col) (row + moveAmount, col + 1) board false false]
          else []) ++
          (if enp = (row + moveAmount, col + 1) then
            let s := epPinScan board enemyColor kingPos row col (col + 1)
            if ¬s.1 ∨ s.2 then
              [mkMove (row, col) (row + moveAmount, col + 1) board true false]
            else []
          else [])
        else []
      else []
    (fwd ++ leftCap ++ rightCap, ctx)
  else ([], ctx)

/-- The four rook directions. -/
def rookDirs : List (Int × Int) := [(-1, 0), (0, -1), (1, 0), (0, 1)]

/-- The four bishop directions. -/
def bishopDirs : List (Int × Int) := [(-1, -1), (-1, 1), (1, -1), (1, 1)]

/-- One sliding ray of the rook/bishop generators (the inner `for i`
loop): walk until blocked; a pin whose axis disagrees with the direction
suppresses every square of the ray without stopping the loop. -/
def slideRay (board : Board) (enemyColor : Char) (row col : Int)
    (piecePinned : Bool) (pinDirection d : Int × Int) :
    Nat → Nat → List Move
  | _, 0 => []
  | i, fuel + 1 =>
    let endRow := row + d.1 * (i : Int)
    let endCol := col + d.2 * (i : Int)
    if 0 ≤ endRow ∧ endRow ≤ 7 ∧ 0 ≤ endCol ∧ endCol ≤ 7 then
      if ¬piecePinned ∨ pinDirection = d ∨ pinDirection = (-d.1, -d.2) then
        let endPiece := getSq board endRow endCol
        if endPiece = emptyCell then
          mkMove (row, col) (endRow, endCol) board false false ::
            slideRay board enemyColor row col piecePinned pinDirection d (i + 1) fuel
        else if endPiece.color = enemyColor then
          [mkMove (row, col) (endRow, endCol) board false false]
        else []
      else
        slideRay board enemyColor row col piecePinned pinDirection d (i + 1) fuel
    else []

/-- `GameState::getRookMoves` (gamestate.cpp lines 739–787): the found
pin entry is removed from the list only when the piece is not a queen. -/
def getRookMoves (board : Board) (whiteToMove : Bool)
    (ctx : GenCtx) (row col : Int) : List Move × GenCtx :=
  let scan := removeLastMatch ctx.pins row col
  let piecePinned := scan.1.isSome
  let pinDirection : Int × Int :=
    match scan.1 with
    | some p => (p.dirRow, p.dirCol)
    | none => (0, 0)
  let ctx := if (getSq board row col).kind ≠ 'Q' then { ctx with pins := scan.2 } else ctx
  let enemyColor : Char := if whiteToMove then 'b' else 'w'
  let moves := rookDirs.foldl
    (fun acc d => acc ++ slideRay board enemyColor row col piecePinned pinDirection d 1 7)
    []
  (moves, ctx)

/-- `GameState::getBishopMoves` (gamestate.cpp lines 799–844). -/
def getBishopMoves (board : Board) (whiteToMove : Bool)
    (ctx : GenCtx) (row col : Int) : List Move × GenCtx :=
  let scan := removeLastMatch ctx.pins row col
  let piecePinned := scan.1.isSome
  let pinDirection : Int × Int :=
    match scan.1 with
    | some p => (p.dirRow, p.dirCol)
    | none => (0, 0)
  let ctx := { ctx with pins := scan.2 }
  let enemyColor : Char := if whiteToMove then 'b' else 'w'
  let moves := bishopDirs.foldl
    (fun acc d => acc ++ slideRay board enemyColor row col piecePinned pinDirection d 1 7)
    []
  (moves, ctx)

/-- `GameState::getKnightMoves` (gamestate.cpp lines 856–890): a pinned
knight generates nothing. -/
def getKnightMoves (board : Board) (whiteToMove : Bool)
    (ctx : GenCtx) (row col : Int) : List Move × GenCtx :=
  let scan := removeLastMatch ctx.pins row col
  let piecePinned := scan.1.isSome
  let ctx := { ctx with pins := scan.2 }
  let teamColor : Char := if whiteToMove then 'w' else 'b'
  let moves := knightDirs.foldl
    (fun acc m =>
      let endRow := row + m.1
      let endCol := col + m.2
      if 0 ≤ endRow ∧ endRow ≤ 7 ∧ 0 ≤ endCol ∧ endCol ≤ 7 then
        if ¬piecePinned then
          if (getSq board endRow endCol).color ≠ teamColor then
            acc ++ [mkMove (row, col) (endRow, endCol) board false false]
          else acc
        else acc
      else acc)
    []
  (moves, ctx)

/-- `GameState::getQueenMoves`: bishop moves first, then rook moves
(the bishop part removes the queen's pin entry before the rook part
runs, exactly as in the source). -/
def getQueenMoves (board : Board) (whiteToMove : Bool)
    (ctx : GenCtx) (row col : Int) : List Move × GenCtx :=
  let r1 := getBishopMoves board whiteToMove ctx row col
  let r2 := getRookMoves board whiteToMove r1.2 row col
  (r1.1 ++ r2.1, r2.2)

/-- The eight king offsets. -/
def kingDirs : List (Int × Int) :=
  [(-1, -1), (-1, 0), (-1, 1), (0, -1), (0, 1), (1, -1), (1, 0), (1, 1)]

/-- `GameState::getKingMoves` (gamestate.cpp lines 917–960): for each
candidate square, temporarily writes the candidate into the moving side's
cached king location, re-runs the pin/check scan, keeps the move iff not
in check, and then restores the cached location *to the argument square*
`(row, col)` (which is the old value exactly when the cache was
consistent). -/
def getKingMoves (board : Board) (whiteToMove : Bool)
    (ctx : GenCtx) (row col : Int) : List Move × GenCtx :=
  let teamColor : Char := if whiteToMove then 'w' else 'b'
  kingDirs.foldl
    (fun (acc : List Move × GenCtx) m =>
      let endRow := row + m.1
      let endCol := col + m.2
      if 0 ≤ endRow ∧ endRow ≤ 7 ∧ 0 ≤ endCol ∧ endCol ≤ 7 then
        let endPiece := getSq board endRow endCol
        if endPiece.color ≠ teamColor then
          let wklT := if whiteToMove then (endRow, endCol) else acc.2.wkl
          let bklT := if whiteToMove then acc.2.bkl else (endRow, endCol)
          let info := checkForPinsAndChecks board whiteToMove wklT bklT
          let moves' :=
            if ¬info.inCheck then
              acc.1 ++ [mkMove (row, col) (endRow, endCol) board false false]
            else acc.1
          let ctx' :=
            if whiteToMove then { acc.2 with wkl := (row, col) }
            else { acc.2 with bkl := (row, col) }
          (moves', ctx')
        else acc
      else acc)
    ([], ctx)

/-- The per-square dispatch of `getAllPossibleMoves` (the
`moveFunctions` map: only the six known piece kinds have a generator). -/
def genSquare (board : Board) (whiteToMove : Bool) (enp : Int × Int)
    (acc : List Move × GenCtx) (row col : Int) : List Move × GenCtx :=
  let cell := getSq board row col
  if (cell.color = 'w' ∧ whiteToMove) ∨ (cell.color = 'b' ∧ ¬whiteToMove) then
    match cell.kind with
    | 'p' => let r := getPawnMoves board whiteToMove enp acc.2 row col
             (acc.1 ++ r.1, r.2)
    | 'R' => let r := getRookMoves board whiteToMove acc.2 row col
             (acc.1 ++ r.1, r.2)
    | 'N' => let r := getKnightMoves board whiteToMove acc.2 row col
             (acc.1 ++ r.1, r.2)
    | 'B' => let r := getBishopMoves board whiteToMove acc.2 row col
             (acc.1 ++ r.1, r.2)
    | 'Q' => let r := getQueenMoves board whiteToMove acc.2 row col
             (acc.1 ++ r.1, r.2)
    | 'K' => let r := getKingMoves board whiteToMove acc.2 row col
             (acc.1 ++ r.1, r.2)
    | _ => acc
  else acc

/-- `GameState::getAllPossibleMoves` (gamestate.cpp lines 421–437):
row-major scan of the board generating pseudo-legal moves for the side to
move. -/
def getAllPossibleMoves (board : Board) (whiteToMove : Bool)
    (enp : Int × Int) (ctx : GenCtx) : List Move × GenCtx :=
  (List.range 8).foldl
    (fun acc r =>
      (List.range 8).foldl
        (fun acc c => genSquare board whiteToMove enp acc (Int.ofNat r) (Int.ofNat c))
        acc)
    ([], ctx)

/-- `GameState::squareUnderAttack` (gamestate.cpp lines 397–411): flip
the turn, generate all opponent pseudo-legal moves, and test whether any
of them ends on the square. -/
def squareUnderAttack (board : Board) (whiteToMove : Bool) (enp : Int × Int)
    (ctx : GenCtx) (row col : Int) : Bool × GenCtx :=
  let r := getAllPossibleMoves board (!whiteToMove) enp ctx
  (r.1.any (fun m => m.endRow = row ∧ m.endCol = col), r.2)

/-- `GameState::getKingsideCastleMoves` (gamestate.cpp lines 998–1010);
the two attack tests short-circuit as in the C++ `&&`. -/
def getKingsideCastleMoves (board : Board) (whiteToMove : Bool)
    (enp : Int × Int) (ctx : GenCtx) (row col : Int) : List Move × GenCtx :=
  if col + 2 > 7 then ([], ctx)
  else if getSq board row (col + 1) = emptyCell ∧ getSq board row (col + 2) = emptyCell then
    let a1 := squareUnderAttack board whiteToMove enp ctx row (col + 1)
    if ¬a1.1 then
      let a2 := squareUnderAttack board whiteToMove enp a1.2 row (col + 2)
      if ¬a2.1 then
        ([mkMove (row, col) (row, col + 2) board false true], a2.2)
      else ([], a2.2)
    else ([], a1.2)
  else ([], ctx)

/-- `GameState::getQueensideCastleMoves` (gamestate.cpp lines 1021–1033). -/
def getQueensideCastleMoves (board : Board) (whiteToMove : Bool)
    (enp : Int × Int) (ctx : GenCtx) (row col : Int) : List Move × GenCtx :=
  if col - 2 < 0 ∨ col - 3 < 0 then ([], ctx)
  else if getSq board row (col - 1) = emptyCell ∧ getSq board row (col - 2) = emptyCell ∧
          getSq board row (col - 3) = emptyCell then
    let a1 := squareUnderAttack board whiteToMove enp ctx row (col - 1)
    if ¬a1.1 then
      let a2 := squareUnderAttack board whiteToMove enp a1.2 row (col - 2)
      if ¬a2.1 then
        ([mkMove (row, col) (row, col - 2) board false true], a2.2)
      else ([], a2.2)
    else ([], a1.2)
  else ([], ctx)

/-- `GameState::getCastleMoves` (gamestate.cpp lines 972–987): returns
without generating anything when the king's square is under attack. -/
def getCastleMoves (board : Board) (whiteToMove : Bool) (enp : Int × Int)
    (cr : CastleRights) (ctx : GenCtx) (row col : Int) : List Move × GenCtx :=
  let att := squareUnderAttack board whiteToMove enp ctx row col
  if att.1 then ([], att.2)
  else
    let ks := if (whiteToMove ∧ cr.wks) ∨ (¬whiteToMove ∧ cr.bks) then
                getKingsideCastleMoves board whiteToMove enp att.2 row col
              else ([], att.2)
    let qs := if (whiteToMove ∧ cr.wqs) ∨ (¬whiteToMove ∧ cr.bqs) then
                getQueensideCastleMoves board whiteToMove enp ks.2 row col
              else ([], ks.2)
    (ks.1 ++ qs.1, qs.2)

/-- The block/capture squares against a single sliding check (the
`for i = 1..7` loop of `getValidMoves`, gamestate.cpp lines 298–305):
every square along the check ray up to and including the checker. -/
def raySquares (kingRow kingCol dirRow dirCol checkRow checkCol : Int) :
    Nat → Nat → List (Int × Int)
  | _, 0 => []
  | i, fuel + 1 =>
    let sq := (kingRow + dirRow * (i : Int), kingCol + dirCol * (i : Int))
    sq :: (if sq.1 = checkRow ∧ sq.2 = checkCol then []
           else raySquares kingRow kingCol dirRow dirCol checkRow checkCol (i + 1) fuel)

/-- `GameState::getValidMoves` (gamestate.cpp lines 257–375): computes
pins/checks, generates and filters the legal move list, always invokes
castling generation (even in check), sets the checkmate/stalemate flags,
and restores the saved castling rights.  Returns the move list together
with the updated state (the mutated members are the derived fields and
the threaded `GenCtx` members). -/
def GameState.getValidMoves (gs : GameState) : List Move × GameState :=
  let tempCastleRights := gs.castlingRights
  let info := checkForPinsAndChecks gs.board gs.whiteToMove
    gs.whiteKingLocation gs.blackKingLocation
  let ctx0 : GenCtx := ⟨info.pins, gs.whiteKingLocation, gs.blackKingLocation⟩
  let kingRow := if gs.whiteToMove then gs.whiteKingLocation.1 else gs.blackKingLocation.1
  let kingCol := if gs.whiteToMove then gs.whiteKingLocation.2 else gs.blackKingLocation.2
  let gen : List Move × GenCtx :=
    if info.inCheck then
      let base : List Move × GenCtx :=
        if info.checks.length = 1 then
          let all := getAllPossibleMoves gs.board gs.whiteToMove gs.enPassantPossible ctx0
          let check := info.checks.headD ⟨0, 0, 0, 0⟩
          let pieceChecking := getSq gs.board check.row check.col
          let validSquares :=
            if pieceChecking.kind = 'N' then [(check.row, check.col)]
            else raySquares kingRow kingCol check.dirRow check.dirCol check.row check.col 1 7
          (all.1.filter (fun m =>
            m.pieceMoved.kind = 'K' ∨
            validSquares.any (fun sq => m.endRow = sq.1 ∧ m.endCol = sq.2)), all.2)
        else
          getKingMoves gs.board gs.whiteToMove ctx0 kingRow kingCol
      -- castling generation is still invoked while in check
      let castle :=
        if gs.whiteToMove then
          getCastleMoves gs.board gs.whiteToMove gs.enPassantPossible gs.castlingRights
            base.2 base.2.wkl.1 base.2.wkl.2
        else
          getCastleMoves gs.board gs.whiteToMove gs.enPassantPossible gs.castlingRights
            base.2 base.2.bkl.1 base.2.bkl.2
      (base.1 ++ castle.1, castle.2)
    else
      let all := getAllPossibleMoves gs.board gs.whiteToMove gs.enPassantPossible ctx0
      let castle :=
        if gs.whiteToMove then
          getCastleMoves gs.board gs.whiteToMove gs.enPassantPossible gs.castlingRights
            all.2 all.2.wkl.1 all.2.wkl.2
        else
          getCastleMoves gs.board gs.whiteToMove gs.enPassantPossible gs.castlingRights
            all.2 all.2.bkl.1 all.2.bkl.2
      (all.1 ++ castle.1, castle.2)
  (gen.1,
   { gs with
     inCheck := info.inCheck,
     pins := gen.2.pins,
     checks := info.checks,
     whiteKingLocation := gen.2.wkl,
     blackKingLocation := gen.2.bkl,
     checkmate := gen.1.isEmpty && info.inCheck,
     stalemate := gen.1.isEmpty && !info.inCheck,
     castlingRights := tempCastleRights })

/-! ### The AI (chessai.cpp) -/

/-- `ChessAI::CHECKMATE`. -/
def CHECKMATE : Int := 1000

/-- `ChessAI::STALEMATE`. -/
def STALEMATE : Int := 0

/-- `ChessAI::DEPTH`. -/
def DEPTH : Nat := 3

/-- `ChessAI::pieceScore` (a `QMap`; missing keys default-construct 0). -/
def pieceScore (k : Char) : Int :=
  if k = 'K' then 0
  else if k = 'Q' then 9
  else if k = 'R' then 5
  else if k = 'B' then 3
  else if k = 'N' then 3
  else if k = 'p' then 1
  else 0

/-!
Every positional table entry of chessai.cpp is a decimal multiple of
`0.05`, so the tables are embedded exactly as integer *twentieths*
(`0.65` becomes `13`, `0.25` becomes `5`, …).  The only arithmetic the
source performs on them is `int_accumulator += int + double` (and `-=`),
whose result is the truncation towards zero of
`accumulator ± (material + entry/20)`; since every entry and its IEEE
double rounding lie in `[0, 1)`, that integer result is identical for
the doubles and the exact twentieths, and is computed here as
`trunc20 (20*accumulator ± (20*material + entry))`.
-/

/-- Knight position table (chessai.cpp lines 39–48), in twentieths. -/
def knightScores : List (List Int) :=
  [[0, 2, 4, 4, 4, 4, 2, 0],
   [2, 6, 10, 10, 10, 10, 6, 2],
   [4, 10, 12, 13, 13, 12, 10, 4],
   [4, 11, 13, 14, 14, 13, 11, 4],
   [4, 10, 13, 14, 14, 13, 10, 4],
   [4, 11, 12, 13, 13, 12, 11, 4],
   [2, 6, 10, 11, 11, 10, 6, 2],
   [0, 2, 4, 4, 4, 4, 2, 0]]

/-- Bishop position table (chessai.cpp lines 51–60), in twentieths. -/
def bishopScores : List (List Int) :=
  [[0, 4, 4, 4, 4, 4, 4, 0],
   [4, 8, 8, 8, 8, 8, 8, 4],
   [4, 8, 10, 12, 12, 10, 8, 4],
   [4, 10, 10, 12, 12, 10, 10, 4],
   [4, 8, 12, 12, 12, 12, 8, 4],
   [4, 12, 12, 12, 12, 12, 12, 4],
   [4, 10, 8, 8, 8, 8, 10, 4],
   [0, 4, 4, 4, 4, 4, 4, 0]]

/-- Rook position table (chessai.cpp lines 63–72), in twentieths. -/
def rookScores : List (List Int) :=
  [[5, 5, 5, 5, 5, 5, 5, 5],
   [10, 15, 15, 15, 15, 15, 15, 10],
   [0, 5, 5, 5, 5, 5, 5, 0],
   [0, 5, 5, 5, 5, 5, 5, 0],
   [0, 5, 5, 5, 5, 5, 5, 0],
   [0, 5, 5, 5, 5, 5, 5, 0],
   [0, 5, 5, 5, 5, 5, 5, 0],
   [5, 5, 5, 10, 10, 5, 5, 5]]

/-- Queen position table (chessai.cpp lines 75–84), in twentieths. -/
def queenScores : List (List Int) :=
  [[0, 4, 4, 6, 6, 4, 4, 0],
   [4, 8, 8, 8, 8, 8, 8, 4],
   [4, 8, 10, 10, 10, 10, 8, 4],
   [6, 8, 10, 10, 10, 10, 8, 6],
   [8, 8, 10, 10, 10, 10, 8, 6],
   [4, 10, 10, 10, 10, 10, 8, 4],
   [4, 8, 10, 8, 8, 8, 8, 4],
   [0, 4, 4, 6, 6, 4, 4, 0]]

/-- Pawn position table (chessai.cpp lines 87–96), in twentieths. -/
def pawnScores : List (List Int) :=
  [[16, 16, 16, 16, 16, 16, 16, 16],
   [14, 14, 14, 14, 14, 14, 14, 14],
   [6, 6, 8, 10, 10, 8, 6, 6],
   [5, 5, 6, 9, 9, 6, 5, 5],
   [4, 4, 4, 8, 8, 4, 4, 4],
   [5, 3, 2, 4, 4, 2, 3, 5],
   [5, 6, 6, 0, 0, 6, 6, 5],
   [4, 4, 4, 4, 4, 4, 4, 4]]

/-- `ChessAI::piecePositionScores`: black tables are the row-reversed
white tables; unknown keys (including kings) default-construct the empty
table. -/
def piecePositionScores (piece : Cell) : List (List Int) :=
  if piece = wN then knightScores
  else if piece = bN then knightScores.reverse
  else if piece = wB then bishopScores
  else if piece = bB then bishopScores.reverse
  else if piece = wQ then queenScores
  else if piece = bQ then queenScores.reverse
  else if piece = wR then rookScores
  else if piece = bR then rookScores.reverse
  else if piece = wp then pawnScores
  else if piece = bp then pawnScores.reverse
  else []

/-- `piecePositionScores[piece][row][col]` in twentieths, totalised to 0
off-table. -/
def posScore (piece : Cell) (r c : Int) : Int :=
  ((piecePositionScores piece).getD r.toNat []).getD c.toNat 0

/-- Truncation towards zero of `x / 20`: the effect of the C++
`double`→`int` conversion performed by `score += …` / `score -= …` in
`ChessAI::scoreBoard`, with all quantities scaled by 20. -/
def trunc20 (x : Int) : Int :=
  if x < 0 then -((((-x).toNat / 20 : Nat) : Int))
  else (((x.toNat / 20 : Nat) : Int))

/-- One square of the `ChessAI::scoreBoard` accumulation: the `int`
accumulator absorbs `pieceScore[kind] + piecePositionScore` with the
fractional part truncated towards zero at every step. -/
def scoreStep (board : Board) (score : Int) (r c : Int) : Int :=
  let piece := getSq board r c
  if piece ≠ emptyCell then
    let piecePositionScore : Int := if piece.kind ≠ 'K' then posScore piece r c else 0
    if piece.color = 'w' then
      trunc20 (20 * score + (20 * pieceScore piece.kind + piecePositionScore))
    else
      trunc20 (20 * score - (20 * pieceScore piece.kind + piecePositionScore))
  else score

/-- `ChessAI::scoreBoard` (chessai.cpp lines 268–305). -/
def scoreBoard (gs : GameState) : Int :=
  if gs.checkmate then (if gs.whiteToMove then -CHECKMATE else CHECKMATE)
  else if gs.stalemate then STALEMATE
  else
    (List.range 8).foldl
      (fun score r =>
        (List.range 8).foldl
          (fun score c => scoreStep gs.board score (Int.ofNat r) (Int.ofNat c)) score)
      0

/-- The move loop of `ChessAI::findMoveNegaMaxAlphaBeta` at a non-root
depth (where `depth == DEPTH` is false, so `nextMove` is never written):
make, recurse with negated window, undo, track the maximum, raise alpha,
and cut off when `alpha >= beta`.  The recursion on the child position is
supplied as `rec`. -/
def abLoopF (rec : GameState → List Move → Int → Int → Int → Int × GameState) :
    GameState → List Move → Int → Int → Int → Int → Int × GameState
  | gs, [], _alpha, _beta, _t, maxScore => (maxScore, gs)
  | gs, m :: rest, alpha, beta, t, maxScore =>
    let gs1 := gs.makeMove m
    let r := gs1.getValidMoves
    let child := rec r.2 r.1 (-beta) (-alpha) (-t)
    let score := -child.1
    let gs4 := child.2.undoMove
    let maxScore' := if score > maxScore then score else maxScore
    let alpha' := if maxScore' > alpha then maxScore' else alpha
    if alpha' ≥ beta then (maxScore', gs4)
    else abLoopF rec gs4 rest alpha' beta t maxScore'

/-- `ChessAI::findMoveNegaMaxAlphaBeta` below the root (chessai.cpp
lines 211–255), returning the score together with the threaded game
state. -/
def negaABGo : Nat → GameState → List Move → Int → Int → Int → Int × GameState
  | 0, gs, _moves, _alpha, _beta, t => (t * scoreBoard gs, gs)
  | d + 1, gs, moves, alpha, beta, t =>
    abLoopF (negaABGo d) gs moves alpha beta t (-CHECKMATE)

/-- The same move loop with the alpha-beta cutoff removed: the spec's
full-width reference recursion ("the same negamax recursion with the
alpha-beta cutoff removed"). -/
def plainLoopF (rec : GameState → List Move → Int → Int × GameState) :
    GameState → List Move → Int → Int → Int × GameState
  | gs, [], _t, maxScore => (maxScore, gs)
  | gs, m :: rest, t, maxScore =>
    let gs1 := gs.makeMove m
    let r := gs1.getValidMoves
    let child := rec r.2 r.1 (-t)
    let score := -child.1
    let gs4 := child.2.undoMove
    let maxScore' := if score > maxScore then score else maxScore
    plainLoopF rec gs4 rest t maxScore'

/-- The unpruned full-width negamax of the same depth over the same move
list (the comparison object of the pruning-correctness property). -/
def negaPlain : Nat → GameState → List Move → Int → Int × GameState
  | 0, gs, _moves, t => (t * scoreBoard gs, gs)
  | d + 1, gs, moves, t => plainLoopF (negaPlain d) gs moves t (-CHECKMATE)

/-- The root invocation of `findMoveNegaMaxAlphaBeta` (`depth == DEPTH`),
which additionally records in `nextMove` the move achieving each new
maximum; recursive calls run at depth `DEPTH - 1` and below and never
touch `nextMove`. -/
def rootLoop : GameState → List Move → Int → Int → Int → Int → Move →
    Int × Move × GameState
  | gs, [], _alpha, _beta, _t, maxScore, next => (maxScore, next, gs)
  | gs, m :: rest, alpha, beta, t, maxScore, next =>
    let gs1 := gs.makeMove m
    let r := gs1.getValidMoves
    let child := negaABGo (DEPTH - 1) r.2 r.1 (-beta) (-alpha) (-t)
    let score := -child.1
    let gs4 := child.2.undoMove
    let maxScore' := if score > maxScore then score else maxScore
    let next' := if score > maxScore then m else next
    let alpha' := if maxScore' > alpha then maxScore' else alpha
    if alpha' ≥ beta then (maxScore', next', gs4)
    else rootLoop gs4 rest alpha' beta t maxScore' next'

/-- `ChessAI::isValidMove`: membership through `Move::operator==`,
which compares `moveID` only. -/
def isValidMove (move : Move) (validMoves : List Move) : Bool :=
  validMoves.any (fun v => move.moveID = v.moveID)

/-- `ChessAI::findRandomMove` (chessai.cpp lines 316–325): a dummy move
for an empty list, otherwise a uniformly chosen element
(`QRandomGenerator::bounded(size)` is modelled by an arbitrary natural
reduced mod the length). -/
def findRandomMove (validMoves : List Move) (randomIndex : Nat) : Move :=
  if validMoves.isEmpty then defaultMove
  else validMoves.getD (randomIndex % validMoves.length) defaultMove

/-- `std::swap(shuffled[i], shuffled[j])`, guarded by `i != j` as in the
source. -/
def swapAt (l : List Move) (i j : Nat) : List Move :=
  if i = j then l
  else (l.set i (l.getD j defaultMove)).set j (l.getD i defaultMove)

/-- The Fisher–Yates shuffle of `findBestMove` (chessai.cpp lines
151–156): for `i = size-1 … 1`, swap index `i` with a random
`j ∈ [0, i]` (`bounded(i+1)` modelled as `rand i % (i+1)`). -/
def shuffleGo (rand : Nat → Nat) : List Move → Nat → List Move
  | l, 0 => l
  | l, i + 1 => shuffleGo rand (swapAt l (i + 1) (rand (i + 1) % (i + 2))) i

/-- `ChessAI::findBestMove` (chessai.cpp lines 140–174): empty input
returns the dummy move; otherwise shuffle, run the root alpha-beta
search, and fall back to a random legal move when the recorded move is
the sentinel (`moveID == 0`) or fails the `isValidMove` consistency
check. -/
def findBestMove (gs : GameState) (validMoves : List Move)
    (shuffleRand : Nat → Nat) (fallbackIndex : Nat) : Move :=
  if validMoves.isEmpty then defaultMove
  else
    let shuffledMoves := shuffleGo shuffleRand validMoves (validMoves.length - 1)
    let r := rootLoop gs shuffledMoves (-CHECKMATE) CHECKMATE
      (if gs.whiteToMove then 1 else -1) (-CHECKMATE) defaultMove
    let nextMove := r.2.1
    if nextMove.moveID = 0 ∨ ¬isValidMove nextMove validMoves then
      findRandomMove validMoves fallbackIndex
    else nextMove

/-! ### Move text (gamestate.cpp lines 1082–1160) -/

/-- `Move::colsToFiles` (missing keys default-construct `""`). -/
def colsToFiles (c : Int) : String :=
  if c = 0 then "a" else if c = 1 then "b" else if c = 2 then "c"
  else if c = 3 then "d" else if c = 4 then "e" else if c = 5 then "f"
  else if c = 6 then "g" else if c = 7 then "h" else ""

/-- `Move::rowsToRanks`. -/
def rowsToRanks (r : Int) : String :=
  if r = 7 then "1" else if r = 6 then "2" else if r = 5 then "3"
  else if r = 4 then "4" else if r = 3 then "5" else if r = 2 then "6"
  else if r = 1 then "7" else if r = 0 then "8" else ""

/-- `Move::getRankFile`: file letter then rank digit. -/
def getRankFile (r c : Int) : String := colsToFiles c ++ rowsToRanks r

/-- `Move::getChessNotation` (gamestate.cpp lines 1082–1116).  Note the
castle branch tests `endCol == 1` (never true of a generated castle move,
whose end columns are 2 and 6), so every generated castle renders as
`"O-O"`.  `QString(getRankFile(startRow, startCol)[0])` is the file
letter of the start square. -/
def Move.getChessNotation (m : Move) : String :=
  if m.isPawnPromotion then getRankFile m.endRow m.endCol ++ "Q"
  else if m.isCastleMove then
    (if m.endCol = 1 then "O-O-O" else "O-O")
  else if m.isEnpassantMove then
    String.singleton m.pieceMoved.kind ++ "x" ++ getRankFile m.endRow m.endCol ++ " e.p."
  else if m.pieceCaptured ≠ emptyCell then
    (if m.pieceMoved.kind = 'p' then
      colsToFiles m.startCol ++ "x" ++ getRankFile m.endRow m.endCol
    else
      String.singleton m.pieceMoved.kind ++ "x" ++ getRankFile m.endRow m.endCol)
  else
    (if m.pieceMoved.kind = 'p' then getRankFile m.endRow m.endCol
    else String.singleton m.pieceMoved.kind ++ getRankFile m.endRow m.endCol)

/-- `Move::toString` (gamestate.cpp lines 1136–1160), the form consumed
by the presentation layer: castles by end column (6 ⇒ kingside), pawn
captures as file+`"x"`+destination (en passant included, no `" e.p."`
suffix), pawn pushes as the destination (plus `"Q"` on promotion), piece
moves as letter (+`"x"` on capture) + destination. -/
def Move.toString (m : Move) : String :=
  if m.isCastleMove then (if m.endCol = 6 then "O-O" else "O-O-O")
  else
    let endSquare := getRankFile m.endRow m.endCol
    if m.pieceMoved.kind = 'p' then
      (if m.isCapture then colsToFiles m.startCol ++ "x" ++ endSquare
      else (if m.isPawnPromotion then endSquare ++ "Q" else endSquare))
    else
      (String.singleton m.pieceMoved.kind ++ (if m.isCapture then "x" else "")) ++ endSquare

/-! ### Auxiliary notions used by the theorems -/

/-- An all-empty board (used to build the concrete positions of several
counterexamples). -/
def emptyBoard : Board := List.replicate 8 (List.replicate 8 emptyCell)

/-- A well-shaped board: 8 rows of 8 cells (true of every board the C++
ever constructs). -/
def BoardOK (b : Board) : Prop :=
  b.length = 8 ∧ ∀ row ∈ b, row.length = 8

/-- A user-level operation on a `GameState`: apply a move or undo one. -/
inductive GOp where
  | make (m : Move) : GOp
  | undo : GOp
deriving DecidableEq, Repr

/-- Run a sequence of operations from a state. -/
def runOps : GameState → List GOp → GameState
  | gs, [] => gs
  | gs, GOp.make m :: rest => runOps (gs.makeMove m) rest
  | gs, GOp.undo :: rest => runOps gs.undoMove rest

/-- The number of applied, not-yet-undone moves after a sequence of
operations starting from `n` applied moves (an undo at zero is a no-op,
matching `undoMove` on an empty log). -/
def netCount : Nat → List GOp → Nat
  | n, [] => n
  | n, GOp.make _ :: rest => netCount (n + 1) rest
  | n, GOp.undo :: rest => netCount (n - 1) rest

/-- The exact spec-level sum scaled by 20: over all occupied squares,
`20·material + positional-twentieths`, added for White and subtracted
for Black (no truncation anywhere). -/
def scoreBoardSpecTw (gs : GameState) : Int :=
  (List.range 8).foldl
    (fun s r =>
      (List.range 8).foldl
        (fun (s : Int) c =>
          let piece := getSq gs.board (Int.ofNat r) (Int.ofNat c)
          if piece ≠ emptyCell then
            let pos : Int := if piece.kind ≠ 'K' then posScore piece (Int.ofNat r) (Int.ofNat c) else 0
            if piece.color = 'w' then s + (20 * pieceScore piece.kind + pos)
            else s - (20 * pieceScore piece.kind + pos)
          else s)
        s)
    0

/-- The evaluation the spec describes: the *exact* (rational) sum over
all occupied squares of material value plus positional table value
(king excluded from positional scoring), White added and Black
subtracted, with the same checkmate/stalemate special cases. -/
def scoreBoardSpec (gs : GameState) : ℚ :=
  if gs.checkmate then
    (if gs.whiteToMove then -((CHECKMATE : Int) : ℚ) else ((CHECKMATE : Int) : ℚ))
  else if gs.stalemate then ((STALEMATE : Int) : ℚ)
  else (scoreBoardSpecTw gs : ℚ) / 20

/-- The 64 squares in the row-major order `scoreBoard` visits them. -/
def allSquares : List (Int × Int) :=
  (List.range 8).flatMap (fun r => (List.range 8).map (fun c => (Int.ofNat r, Int.ofNat c)))

/-- The move-text mapping of the spec, amended at its single point of
disagreement with `Move::toString`: an en-passant capture is rendered
exactly like an ordinary pawn capture (no `" e.p."` suffix). -/
def specMoveText (m : Move) : String :=
  if m.isCastleMove then (if m.endCol - m.startCol = 2 then "O-O" else "O-O-O")
  else if m.pieceMoved.kind = 'p' then
    (if m.isCapture then colsToFiles m.startCol ++ "x" ++ getRankFile m.endRow m.endCol
    else (if m.isPawnPromotion then getRankFile m.endRow m.endCol ++ "Q"
          else getRankFile m.endRow m.endCol))
  else
    (String.singleton m.pieceMoved.kind ++ (if m.isCapture then "x" else "")) ++
      getRankFile m.endRow m.endCol

/-- The facts about a move and the position it is applied to that hold
for every legal move (`getValidMoves` output) from every reachable
position, and that `undoMove` relies on to invert `makeMove`:
in-board coordinates, distinct endpoints, piece identities read from the
board (with the en-passant layout for en-passant captures), king-location
cache consistency for king moves, and the generated castle shape with its
empty rook-transit square. -/
def MoveOK (gs : GameState) (m : Move) : Prop :=
  (0 ≤ m.startRow ∧ m.startRow ≤ 7 ∧ 0 ≤ m.startCol ∧ m.startCol ≤ 7 ∧
   0 ≤ m.endRow ∧ m.endRow ≤ 7 ∧ 0 ≤ m.endCol ∧ m.endCol ≤ 7) ∧
  ¬(m.startRow = m.endRow ∧ m.startCol = m.endCol) ∧
  getSq gs.board m.startRow m.startCol = m.pieceMoved ∧
  (m.isEnpassantMove = false → getSq gs.board m.endRow m.endCol = m.pieceCaptured) ∧
  (m.isEnpassantMove = true →
    getSq gs.board m.endRow m.endCol = emptyCell ∧
    getSq gs.board m.startRow m.endCol = m.pieceCaptured ∧
    m.startRow ≠ m.endRow ∧ m.startCol ≠ m.endCol) ∧
  (m.pieceMoved = wK → gs.whiteKingLocation = (m.startRow, m.startCol)) ∧
  (m.pieceMoved = bK → gs.blackKingLocation = (m.startRow, m.startCol)) ∧
  (m.isCastleMove = true →
    m.startRow = m.endRow ∧ m.isEnpassantMove = false ∧
    ((m.endCol - m.startCol = 2 ∧ m.endCol + 1 ≤ 7 ∧
      getSq gs.board m.endRow (m.endCol - 1) = emptyCell) ∨
     (m.endCol - m.startCol = -2 ∧ 0 ≤ m.endCol - 2 ∧
      getSq gs.board m.endRow (m.endCol + 1) = emptyCell)))

/-- The state invariants `undoMove` relies on, all established by the
constructor and preserved by `makeMove`/`undoMove`: a well-shaped board
and the current castling-rights / en-passant values sitting on top of
their snapshot logs. -/
def StateInv (gs : GameState) : Prop :=
  BoardOK gs.board ∧
  gs.castlingRightsLog.head? = some gs.castlingRights ∧
  gs.enPassantPossibleLog.head? = some gs.enPassantPossible

/-- `MoveOK` for each move of a sequence, at the state it is applied to. -/
def SeqOK : GameState → List Move → Prop
  | _, [] => True
  | gs, m :: ms => MoveOK gs m ∧ SeqOK (gs.makeMove m) ms

instance (b : Board) : Decidable (BoardOK b) := by
  unfold BoardOK; infer_instance

instance (gs : GameState) (m : Move) : Decidable (MoveOK gs m) := by
  unfold MoveOK; infer_instance

instance (gs : GameState) : Decidable (StateInv gs) := by
  unfold StateInv; infer_instance

instance instDecidableSeqOK : (gs : GameState) → (ms : List Move) → Decidable (SeqOK gs ms)
  | _, [] => Decidable.isTrue trivial
  | gs, m :: ms =>
    @instDecidableAnd _ _ _ (instDecidableSeqOK (gs.makeMove m) ms)

/-- Apply a list of moves in order. -/
def makeMoves (gs : GameState) (ms : List Move) : GameState :=
  ms.foldl GameState.makeMove gs

/-- Apply `undoMove` `n` times. -/
def undoTimes : GameState → Nat → GameState
  | gs, 0 => gs
  | gs, n + 1 => (undoTimes gs n).undoMove

/-! ### Shared lemmas -/

theorem getD_set_eq {α : Type} (l : List α) (n : Nat) (v d : α) (h : n < l.length) :
    (l.set n v).getD n d = v := by
  simp [List.getD_eq_getElem?_getD, List.getElem?_set_self, h]

theorem getD_set_ne {α : Type} (l : List α) {n m : Nat} (v d : α) (h : n ≠ m) :
    (l.set n v).getD m d = l.getD m d := by
  simp [List.getD_eq_getElem?_getD, List.getElem?_set_ne h]

theorem set_getD_self {α : Type} (l : List α) (n : Nat) (d : α) (h : n < l.length) :
    l.set n (l.getD n d) = l := by
  refine List.ext_getElem (by simp) ?_
  intro i h1 h2
  by_cases hi : n = i
  · subst hi
    have e : l.getD n d = l[n] := by
      simp [List.getD_eq_getElem?_getD, List.getElem?_eq_getElem h]
    simp [e, List.getElem_set_self, List.getElem?_eq_getElem h]
  · simp [List.getElem_set_ne hi]

theorem row_length_of_BoardOK {b : Board} (hb : BoardOK b) {n : Nat} (hn : n < 8) :
    (b.getD n []).length = 8 := by
  have hb1 := hb.1
  have hlen : n < b.length := by omega
  have : b.getD n [] = b[n] := by
    simp [List.getD_eq_getElem?_getD, List.getElem?_eq_getElem hlen]
  rw [this]
  exact hb.2 _ (List.getElem_mem hlen)

theorem getSq_setSq_self {b : Board} (hb : BoardOK b) {r c : Int}
    (hr : 0 ≤ r ∧ r ≤ 7) (hc : 0 ≤ c ∧ c ≤ 7) (v : Cell) :
    getSq (setSq b r c v) r c = v := by
  unfold getSq setSq
  have hb1 := hb.1
  have hr8 : r.toNat < b.length := by omega
  rw [getD_set_eq _ _ _ _ hr8]
  have hrow : (b.getD r.toNat []).length = 8 := row_length_of_BoardOK hb (by omega)
  refine getD_set_eq _ _ _ _ ?_
  rw [hrow]; omega

theorem getSq_setSq_ne {b : Board} {r c r' c' : Int}
    (h : ¬(r = r' ∧ c = c')) (hr : 0 ≤ r ∧ r ≤ 7) (hc : 0 ≤ c ∧ c ≤ 7)
    (hr' : 0 ≤ r' ∧ r' ≤ 7) (hc' : 0 ≤ c' ∧ c' ≤ 7) (v : Cell) :
    getSq (setSq b r c v) r' c' = getSq b r' c' := by
  unfold getSq setSq
  by_cases hrr : r = r'
  · subst hrr
    have hcc : c ≠ c' := fun hcc => h ⟨rfl, hcc⟩
    by_cases hlen : r.toNat < b.length
    · rw [getD_set_eq _ _ _ _ hlen]
      exact getD_set_ne _ _ _ (by omega)
    · rw [List.set_eq_of_length_le (by omega)]
  · rw [getD_set_ne _ _ _ (by omega)]

theorem setSq_getSq_self {b : Board} (hb : BoardOK b) {r c : Int}
    (hr : 0 ≤ r ∧ r ≤ 7) (hc : 0 ≤ c ∧ c ≤ 7) :
    setSq b r c (getSq b r c) = b := by
  unfold getSq setSq
  have hb1 := hb.1
  have hrow : (b.getD r.toNat []).length = 8 := row_length_of_BoardOK hb (by omega)
  rw [set_getD_self _ _ _ (by rw [hrow]; omega)]
  exact set_getD_self _ _ _ (by omega)

theorem BoardOK_setSq {b : Board} (hb : BoardOK b) {r c : Int}
    (hr : 0 ≤ r ∧ r ≤ 7) (hc : 0 ≤ c ∧ c ≤ 7) (v : Cell) :
    BoardOK (setSq b r c v) := by
  constructor
  · simpa [setSq] using hb.1
  · intro row hrow
    rcases List.mem_or_eq_of_mem_set hrow with hmem | hEq
    · exact hb.2 _ hmem
    · subst hEq
      rw [List.length_set]
      exact row_length_of_BoardOK hb (by omega)

theorem setSq_setSq_same {b : Board} (hb : BoardOK b) {r c : Int}
    (hr : 0 ≤ r ∧ r ≤ 7) (hc : 0 ≤ c ∧ c ≤ 7) (v w : Cell) :
    setSq (setSq b r c v) r c w = setSq b r c w := by
  unfold setSq
  have hb1 := hb.1
  rw [getD_set_eq _ _ _ _ (by omega), List.set_set, List.set_set]

theorem setSq_comm {b : Board} (hb : BoardOK b) {r c r' c' : Int}
    (h : ¬(r = r' ∧ c = c'))
    (hr : 0 ≤ r ∧ r ≤ 7) (hc : 0 ≤ c ∧ c ≤ 7)
    (hr' : 0 ≤ r' ∧ r' ≤ 7) (hc' : 0 ≤ c' ∧ c' ≤ 7) (v w : Cell) :
    setSq (setSq b r c v) r' c' w = setSq (setSq b r' c' w) r c v := by
  unfold setSq
  have hb1 := hb.1
  by_cases hrr : r = r'
  · subst hrr
    have hcc : c.toNat ≠ c'.toNat := by
      have : c ≠ c' := fun hcc => h ⟨rfl, hcc⟩
      omega
    rw [getD_set_eq _ _ _ _ (by omega), getD_set_eq _ _ _ _ (by omega),
      List.set_set, List.set_set, List.set_comm _ _ _ hcc]
  · have hnn : r.toNat ≠ r'.toNat := by omega
    rw [getD_set_ne _ _ _ hnn, getD_set_ne _ _ _ (Ne.symm hnn), List.set_comm _ _ _ hnn]

theorem board_ext {a b : Board} (ha : BoardOK a) (hbk : BoardOK b)
    (h : ∀ r c : Int, 0 ≤ r → r ≤ 7 → 0 ≤ c → c ≤ 7 → getSq a r c = getSq b r c) :
    a = b := by
  have ha1 := ha.1
  have hb1 := hbk.1
  refine List.ext_getElem (by omega) ?_
  intro i h1 h2
  have hi8 : i < 8 := by omega
  refine List.ext_getElem ?_ ?_
  · have e1 : a.getD i [] = a[i] := by
      simp [List.getD_eq_getElem?_getD, List.getElem?_eq_getElem h1]
    have e2 : b.getD i [] = b[i] := by
      simp [List.getD_eq_getElem?_getD, List.getElem?_eq_getElem h2]
    have l1 := row_length_of_BoardOK ha hi8
    have l2 := row_length_of_BoardOK hbk hi8
    rw [← e1, ← e2]
    omega
  · intro j hj1 hj2
    have e1 : a.getD i [] = a[i] := by
      simp [List.getD_eq_getElem?_getD, List.getElem?_eq_getElem h1]
    have hra : (a.getD i []).length = 8 := row_length_of_BoardOK ha hi8
    have hj8 : j < 8 := by rw [← e1] at hj1; omega
    have hg := h (i : Int) (j : Int) (by omega) (by omega) (by omega) (by omega)
    unfold getSq at hg
    have e2 : b.getD i [] = b[i] := by
      simp [List.getD_eq_getElem?_getD, List.getElem?_eq_getElem h2]
    have hrb : (b.getD i []).length = 8 := row_length_of_BoardOK hbk hi8
    have tn : ((i : Int)).toNat = i := rfl
    have tj : ((j : Int)).toNat = j := rfl
    rw [tn, tj] at hg
    have ga : (a.getD i []).getD j emptyCell = a[i][j] := by
      rw [e1]
      have : j < a[i].length := by rw [← e1]; omega
      simp [List.getD_eq_getElem?_getD, List.getElem?_eq_getElem this]
    have gb : (b.getD i []).getD j emptyCell = b[i][j] := by
      rw [e2]
      have : j < b[i].length := by rw [← e2]; omega
      simp [List.getD_eq_getElem?_getD, List.getElem?_eq_getElem this]
    rw [ga, gb] at hg
    exact hg

theorem runOps_logs_invariant (ops : List GOp) : ∀ gs : GameState,
    gs.castlingRightsLog.length = gs.moveLog.length + 1 →
    gs.enPassantPossibleLog.length = gs.moveLog.length + 1 →
    (runOps gs ops).castlingRightsLog.length = (runOps gs ops).moveLog.length + 1 ∧
    (runOps gs ops).enPassantPossibleLog.length = (runOps gs ops).moveLog.length + 1 ∧
    (runOps gs ops).moveLog.length = netCount gs.moveLog.length ops := by
  induction ops with
  | nil => exact fun gs h1 h2 => ⟨h1, h2, rfl⟩
  | cons op rest ih =>
    intro gs h1 h2
    cases op with
    | make m =>
      have e1 : (gs.makeMove m).castlingRightsLog.length = (gs.makeMove m).moveLog.length + 1 := by
        simp [GameState.makeMove, h1]
      have e2 : (gs.makeMove m).enPassantPossibleLog.length = (gs.makeMove m).moveLog.length + 1 := by
        simp [GameState.makeMove, h2]
      have e3 : (gs.makeMove m).moveLog.length = gs.moveLog.length + 1 := by
        simp [GameState.makeMove]
      have h := ih (gs.makeMove m) e1 e2
      exact ⟨h.1, h.2.1, by simpa [runOps, netCount, e3] using h.2.2⟩
    | undo =>
      cases hml : gs.moveLog with
      | nil =>
        have hstay : gs.undoMove = gs := by simp [GameState.undoMove, hml]
        have h := ih gs h1 h2
        refine ⟨by simpa [runOps, hstay] using h.1, by simpa [runOps, hstay] using h.2.1, ?_⟩
        have hz : gs.moveLog.length = 0 := by simp [hml]
        simpa [runOps, hstay, netCount, hz] using h.2.2
      | cons m' rest' =>
        have e1 : gs.undoMove.castlingRightsLog.length = gs.undoMove.moveLog.length + 1 := by
          simp only [GameState.undoMove, hml]
          have : gs.castlingRightsLog.length = rest'.length + 2 := by
            simpa [hml] using h1
          simp [List.length_tail, this]
        have e2 : gs.undoMove.enPassantPossibleLog.length = gs.undoMove.moveLog.length + 1 := by
          simp only [GameState.undoMove, hml]
          have : gs.enPassantPossibleLog.length = rest'.length + 2 := by
            simpa [hml] using h2
          simp [List.length_tail, this]
        have e3 : gs.undoMove.moveLog.length = rest'.length := by
          simp [GameState.undoMove, hml]
        have h := ih gs.undoMove e1 e2
        refine ⟨h.1, h.2.1, ?_⟩
        show (runOps gs.undoMove rest).moveLog.length = netCount ((m' :: rest').length - 1) rest
        have hn : (m' :: rest').length - 1 = rest'.length := by simp
        rw [hn, ← e3]
        exact h.2.2

theorem foldl_flatMap_eq {α β γ : Type} (l : List α) (g : α → List β)
    (f : γ → β → γ) : ∀ init : γ,
    (l.flatMap g).foldl f init = l.foldl (fun acc a => (g a).foldl f acc) init := by
  induction l with
  | nil => intro init; rfl
  | cons a rest ih =>
    intro init
    simp only [List.flatMap_cons, List.foldl_append, List.foldl_cons]
    exact ih _

theorem setSq_of_getSq {b : Board} (hb : BoardOK b) {r c : Int}
    (hr : 0 ≤ r ∧ r ≤ 7) (hc : 0 ≤ c ∧ c ≤ 7) {v : Cell}
    (h : getSq b r c = v) : setSq b r c v = b := by
  rw [← h]; exact setSq_getSq_self hb hr hc

theorem roundtrip_board_basic (gs : GameState) (m : Move)
    (hb : BoardOK gs.board)
    (hsr : 0 ≤ m.startRow ∧ m.startRow ≤ 7) (hsc : 0 ≤ m.startCol ∧ m.startCol ≤ 7)
    (her : 0 ≤ m.endRow ∧ m.endRow ≤ 7) (hec : 0 ≤ m.endCol ∧ m.endCol ≤ 7)
    (hne : ¬(m.startRow = m.endRow ∧ m.startCol = m.endCol))
    (hstart : getSq gs.board m.startRow m.startCol = m.pieceMoved)
    (hcapt : getSq gs.board m.endRow m.endCol = m.pieceCaptured)
    (hep : m.isEnpassantMove = false) (hcas : m.isCastleMove = false) :
    (gs.makeMove m).undoMove.board = gs.board := by
  have hA : BoardOK (setSq gs.board m.startRow m.startCol emptyCell) :=
    BoardOK_setSq hb hsr hsc _
  have hSmov : setSq gs.board m.startRow m.startCol m.pieceMoved = gs.board := by
    rw [← hstart]; exact setSq_getSq_self hb hsr hsc
  have hEcapt : setSq gs.board m.endRow m.endCol m.pieceCaptured = gs.board := by
    rw [← hcapt]; exact setSq_getSq_self hb her hec
  have hES : ¬(m.endRow = m.startRow ∧ m.endCol = m.startCol) :=
    fun h => hne ⟨h.1.symm, h.2.symm⟩
  simp only [GameState.makeMove, GameState.undoMove, hep, hcas, Bool.false_eq_true, if_false]
  have hcollapse :
      (if m.isPawnPromotion = true then
        setSq (setSq (setSq gs.board m.startRow m.startCol emptyCell)
          m.endRow m.endCol m.pieceMoved) m.endRow m.endCol ⟨m.pieceMoved.color, 'Q'⟩
      else
        setSq (setSq gs.board m.startRow m.startCol emptyCell)
          m.endRow m.endCol m.pieceMoved) =
      setSq (setSq gs.board m.startRow m.startCol emptyCell) m.endRow m.endCol
        (if m.isPawnPromotion = true then ⟨m.pieceMoved.color, 'Q'⟩ else m.pieceMoved) := by
    split
    · exact setSq_setSq_same hA her hec _ _
    · rfl
  rw [hcollapse,
    setSq_comm hA hES her hec hsr hsc,
    setSq_setSq_same hb hsr hsc, hSmov,
    setSq_setSq_same hb her hec, hEcapt]

theorem roundtrip_board_ep (gs : GameState) (m : Move)
    (hb : BoardOK gs.board)
    (hsr : 0 ≤ m.startRow ∧ m.startRow ≤ 7) (hsc : 0 ≤ m.startCol ∧ m.startCol ≤ 7)
    (her : 0 ≤ m.endRow ∧ m.endRow ≤ 7) (hec : 0 ≤ m.endCol ∧ m.endCol ≤ 7)
    (hstart : getSq gs.board m.startRow m.startCol = m.pieceMoved)
    (hEempty : getSq gs.board m.endRow m.endCol = emptyCell)
    (hEPcapt : getSq gs.board m.startRow m.endCol = m.pieceCaptured)
    (hrne : m.startRow ≠ m.endRow) (hcne : m.startCol ≠ m.endCol)
    (hep : m.isEnpassantMove = true) (hcas : m.isCastleMove = false) :
    (gs.makeMove m).undoMove.board = gs.board := by
  have hA : BoardOK (setSq gs.board m.startRow m.startCol emptyCell) :=
    BoardOK_setSq hb hsr hsc _
  have hSmov : setSq gs.board m.startRow m.startCol m.pieceMoved = gs.board :=
    setSq_of_getSq hb hsr hsc hstart
  have hES : ¬(m.endRow = m.startRow ∧ m.endCol = m.startCol) :=
    fun h => hrne h.1.symm
  simp only [GameState.makeMove, GameState.undoMove, hep, hcas, Bool.false_eq_true, if_false,
    if_true]
  have hcollapse :
      (if m.isPawnPromotion = true then
        setSq (setSq (setSq gs.board m.startRow m.startCol emptyCell)
          m.endRow m.endCol m.pieceMoved) m.endRow m.endCol ⟨m.pieceMoved.color, 'Q'⟩
      else
        setSq (setSq gs.board m.startRow m.startCol emptyCell)
          m.endRow m.endCol m.pieceMoved) =
      setSq (setSq gs.board m.startRow m.startCol emptyCell) m.endRow m.endCol
        (if m.isPawnPromotion = true then ⟨m.pieceMoved.color, 'Q'⟩ else m.pieceMoved) := by
    split
    · exact setSq_setSq_same hA her hec _ _
    · rfl
  have hX : BoardOK (setSq (setSq gs.board m.startRow m.startCol emptyCell) m.endRow m.endCol
      (if m.isPawnPromotion = true then ⟨m.pieceMoved.color, 'Q'⟩ else m.pieceMoved)) :=
    BoardOK_setSq hA her hec _
  have hY : BoardOK (setSq gs.board m.endRow m.endCol
      (if m.isPawnPromotion = true then ⟨m.pieceMoved.color, 'Q'⟩ else m.pieceMoved)) :=
    BoardOK_setSq hb her hec _
  have hBc : BoardOK (setSq gs.board m.endRow m.endCol m.pieceCaptured) :=
    BoardOK_setSq hb her hec _
  rw [hcollapse,
    -- push the undo's start-square write inside, then cancel it against the make's clear
    setSq_comm hX (fun h => hcne h.2.symm) hsr hec hsr hsc,
    setSq_comm hA hES her hec hsr hsc,
    setSq_setSq_same hb hsr hsc, hSmov,
    -- push the undo's end-square capture write inside, collapsing the make's end write
    setSq_comm hY (fun h => hrne h.1) hsr hec her hec,
    setSq_setSq_same hb her hec,
    -- push the undo's end-square clear inside, collapsing the capture write
    setSq_comm hBc (fun h => hrne h.1) hsr hec her hec,
    setSq_setSq_same hb her hec,
    setSq_of_getSq hb her hec hEempty,
    -- the two en-passant-square writes collapse and cancel
    setSq_setSq_same hb hsr hec,
    setSq_of_getSq hb hsr hec hEPcapt]

theorem roundtrip_board_castle (gs : GameState) (m : Move)
    (hb : BoardOK gs.board)
    (hsr : 0 ≤ m.startRow ∧ m.startRow ≤ 7) (hsc : 0 ≤ m.startCol ∧ m.startCol ≤ 7)
    (her : 0 ≤ m.endRow ∧ m.endRow ≤ 7) (hec : 0 ≤ m.endCol ∧ m.endCol ≤ 7)
    (hstart : getSq gs.board m.startRow m.startCol = m.pieceMoved)
    (hcapt : getSq gs.board m.endRow m.endCol = m.pieceCaptured)
    (hrow : m.startRow = m.endRow)
    (hshape :
      (m.endCol - m.startCol = 2 ∧ m.endCol + 1 ≤ 7 ∧
        getSq gs.board m.endRow (m.endCol - 1) = emptyCell) ∨
      (m.endCol - m.startCol = -2 ∧ 0 ≤ m.endCol - 2 ∧
        getSq gs.board m.endRow (m.endCol + 1) = emptyCell))
    (hep : m.isEnpassantMove = false) (hcas : m.isCastleMove = true) :
    (gs.makeMove m).undoMove.board = gs.board := by
  have hA : BoardOK (setSq gs.board m.startRow m.startCol emptyCell) :=
    BoardOK_setSq hb hsr hsc _
  have hSmov : setSq gs.board m.startRow m.startCol m.pieceMoved = gs.board :=
    setSq_of_getSq hb hsr hsc hstart
  have hcollapse :
      (if m.isPawnPromotion = true then
        setSq (setSq (setSq gs.board m.startRow m.startCol emptyCell)
          m.endRow m.endCol m.pieceMoved) m.endRow m.endCol ⟨m.pieceMoved.color, 'Q'⟩
      else
        setSq (setSq gs.board m.startRow m.startCol emptyCell)
          m.endRow m.endCol m.pieceMoved) =
      setSq (setSq gs.board m.startRow m.startCol emptyCell) m.endRow m.endCol
        (if m.isPawnPromotion = true then ⟨m.pieceMoved.color, 'Q'⟩ else m.pieceMoved) := by
    split
    · exact setSq_setSq_same hA her hec _ _
    · rfl
  rcases hshape with ⟨h2, hlt, hempty⟩ | ⟨hm2, hge, hempty⟩
  · -- kingside: rook from (endRow, endCol+1) to (endRow, endCol-1)
    have hks : m.endCol - m.startCol = 2 := h2
    have hRS : 0 ≤ m.endCol + 1 ∧ m.endCol + 1 ≤ 7 := by omega
    have hRD : 0 ≤ m.endCol - 1 ∧ m.endCol - 1 ≤ 7 := by omega
    simp only [GameState.makeMove, GameState.undoMove, hep, hcas, Bool.false_eq_true, if_false,
      if_true, hks, if_pos]
    rw [hcollapse]
    rw [getSq_setSq_ne (fun h => by omega) her hec her hRS,
      getSq_setSq_ne (fun h => by omega) hsr hsc her hRS]
    have hV : BoardOK (setSq (setSq gs.board m.startRow m.startCol emptyCell) m.endRow m.endCol
        (if m.isPawnPromotion = true then ⟨m.pieceMoved.color, 'Q'⟩ else m.pieceMoved)) :=
      BoardOK_setSq hA her hec _
    have hW : BoardOK (setSq (setSq (setSq gs.board m.startRow m.startCol emptyCell)
        m.endRow m.endCol
        (if m.isPawnPromotion = true then ⟨m.pieceMoved.color, 'Q'⟩ else m.pieceMoved))
        m.endRow (m.endCol - 1) (getSq gs.board m.endRow (m.endCol + 1))) :=
      BoardOK_setSq hV her hRD _
    rw [setSq_comm hW (fun h => by omega) her hRS hsr hsc,
      setSq_comm hV (fun h => by omega) her hRD hsr hsc,
      setSq_comm hA (fun h => by omega) her hec hsr hsc,
      setSq_setSq_same hb hsr hsc, hSmov]
    have hT : BoardOK (setSq gs.board m.endRow m.endCol
        (if m.isPawnPromotion = true then ⟨m.pieceMoved.color, 'Q'⟩ else m.pieceMoved)) :=
      BoardOK_setSq hb her hec _
    have hU : BoardOK (setSq (setSq gs.board m.endRow m.endCol
        (if m.isPawnPromotion = true then ⟨m.pieceMoved.color, 'Q'⟩ else m.pieceMoved))
        m.endRow (m.endCol - 1) (getSq gs.board m.endRow (m.endCol + 1))) :=
      BoardOK_setSq hT her hRD _
    rw [setSq_comm hU (fun h => by omega) her hRS her hec,
      setSq_comm hT (fun h => by omega) her hRD her hec,
      setSq_setSq_same hb her hec,
      setSq_of_getSq hb her hec hcapt]
    have hRDB : BoardOK (setSq gs.board m.endRow (m.endCol - 1)
        (getSq gs.board m.endRow (m.endCol + 1))) :=
      BoardOK_setSq hb her hRD _
    rw [getSq_setSq_ne (fun h => by omega) her hRS her hRD,
      getSq_setSq_self hb her hRD,
      setSq_setSq_same hRDB her hRS,
      setSq_of_getSq hRDB her hRS
        (by rw [getSq_setSq_ne (fun h => by omega) her hRD her hRS]),
      setSq_setSq_same hb her hRD,
      setSq_of_getSq hb her hRD hempty]
  · -- queenside: rook from (endRow, endCol-2) to (endRow, endCol+1)
    have hks : ¬(m.endCol - m.startCol = 2) := by omega
    have hRS : 0 ≤ m.endCol - 2 ∧ m.endCol - 2 ≤ 7 := by omega
    have hRD : 0 ≤ m.endCol + 1 ∧ m.endCol + 1 ≤ 7 := by omega
    simp only [GameState.makeMove, GameState.undoMove, hep, hcas, Bool.false_eq_true, if_false,
      if_true, hks, if_neg]
    rw [hcollapse]
    rw [getSq_setSq_ne (fun h => by omega) her hec her hRS,
      getSq_setSq_ne (fun h => by omega) hsr hsc her hRS]
    have hV : BoardOK (setSq (setSq gs.board m.startRow m.startCol emptyCell) m.endRow m.endCol
        (if m.isPawnPromotion = true then ⟨m.pieceMoved.color, 'Q'⟩ else m.pieceMoved)) :=
      BoardOK_setSq hA her hec _
    have hW : BoardOK (setSq (setSq (setSq gs.board m.startRow m.startCol emptyCell)
        m.endRow m.endCol
        (if m.isPawnPromotion = true then ⟨m.pieceMoved.color, 'Q'⟩ else m.pieceMoved))
        m.endRow (m.endCol + 1) (getSq gs.board m.endRow (m.endCol - 2))) :=
      BoardOK_setSq hV her hRD _
    rw [setSq_comm hW (fun h => by omega) her hRS hsr hsc,
      setSq_comm hV (fun h => by omega) her hRD hsr hsc,
      setSq_comm hA (fun h => by omega) her hec hsr hsc,
      setSq_setSq_same hb hsr hsc, hSmov]
    have hT : BoardOK (setSq gs.board m.endRow m.endCol
        (if m.isPawnPromotion = true then ⟨m.pieceMoved.color, 'Q'⟩ else m.pieceMoved)) :=
      BoardOK_setSq hb her hec _
    have hU : BoardOK (setSq (setSq gs.board m.endRow m.endCol
        (if m.isPawnPromotion = true then ⟨m.pieceMoved.color, 'Q'⟩ else m.pieceMoved))
        m.endRow (m.endCol + 1) (getSq gs.board m.endRow (m.endCol - 2))) :=
      BoardOK_setSq hT her hRD _
    rw [setSq_comm hU (fun h => by omega) her hRS her hec,
      setSq_comm hT (fun h => by omega) her hRD her hec,
      setSq_setSq_same hb her hec,
      setSq_of_getSq hb her hec hcapt]
    have hRDB : BoardOK (setSq gs.board m.endRow (m.endCol + 1)
        (getSq gs.board m.endRow (m.endCol - 2))) :=
      BoardOK_setSq hb her hRD _
    rw [getSq_setSq_ne (fun h => by omega) her hRS her hRD,
      getSq_setSq_self hb her hRD,
      setSq_setSq_same hRDB her hRS,
      setSq_of_getSq hRDB her hRS
        (by rw [getSq_setSq_ne (fun h => by omega) her hRD her hRS]),
      setSq_setSq_same hb her hRD,
      setSq_of_getSq hb her hRD hempty]

/-- The round trip: on any state satisfying the reachable-state
invariants, undoing a just-made `MoveOK` move restores the state exactly,
except that the checkmate/stalemate flags are cleared (as `undoMove`
always does). -/
theorem undoMove_makeMove (gs : GameState) (m : Move)
    (hinv : StateInv gs) (hok : MoveOK gs m) :
    (gs.makeMove m).undoMove = { gs with checkmate := false, stalemate := false } := by
  obtain ⟨hbOK, hcrTop, henpTop⟩ := hinv
  obtain ⟨⟨hsr0, hsr7, hsc0, hsc7, her0, her7, hec0, hec7⟩, hne2, hstart, hcaptN, hcaptE,
    hwkc, hbkc, hcast⟩ := hok
  have hboard : (gs.makeMove m).undoMove.board = gs.board := by
    by_cases hep : m.isEnpassantMove = true
    · have hcasF : m.isCastleMove = false := by
        cases hc : m.isCastleMove
        · rfl
        · exact absurd ((hcast hc).2.1) (by simp [hep])
      obtain ⟨hEe, hEPc, hr, hc⟩ := hcaptE hep
      exact roundtrip_board_ep gs m hbOK ⟨hsr0, hsr7⟩ ⟨hsc0, hsc7⟩ ⟨her0, her7⟩ ⟨hec0, hec7⟩
        hstart hEe hEPc hr hc hep hcasF
    · have hepF : m.isEnpassantMove = false := by
        cases h : m.isEnpassantMove
        · rfl
        · exact absurd h hep
      by_cases hcasT : m.isCastleMove = true
      · obtain ⟨hrow, _, hshape⟩ := hcast hcasT
        exact roundtrip_board_castle gs m hbOK ⟨hsr0, hsr7⟩ ⟨hsc0, hsc7⟩ ⟨her0, her7⟩
          ⟨hec0, hec7⟩ hstart (hcaptN hepF) hrow hshape hepF hcasT
      · have hcasF : m.isCastleMove = false := by
          cases h : m.isCastleMove
          · rfl
          · exact absurd h hcasT
        exact roundtrip_board_basic gs m hbOK ⟨hsr0, hsr7⟩ ⟨hsc0, hsc7⟩ ⟨her0, her7⟩
          ⟨hec0, hec7⟩ hne2 hstart (hcaptN hepF) hepF hcasF
  obtain ⟨te, hle⟩ : ∃ t, gs.enPassantPossibleLog = gs.enPassantPossible :: t := by
    cases h : gs.enPassantPossibleLog with
    | nil => rw [h] at henpTop; exact absurd henpTop (by simp)
    | cons a t =>
      rw [h] at henpTop
      simp only [List.head?_cons, Option.some.injEq] at henpTop
      exact ⟨t, by rw [henpTop]⟩
  obtain ⟨tc, hlc⟩ : ∃ t, gs.castlingRightsLog = gs.castlingRights :: t := by
    cases h : gs.castlingRightsLog with
    | nil => rw [h] at hcrTop; exact absurd hcrTop (by simp)
    | cons a t =>
      rw [h] at hcrTop
      simp only [List.head?_cons, Option.some.injEq] at hcrTop
      exact ⟨t, by rw [hcrTop]⟩
  ext : 1
  · exact hboard
  · simp [GameState.makeMove, GameState.undoMove]
  · simp [GameState.makeMove, GameState.undoMove]
  · by_cases hK : m.pieceMoved = wK
    · simp [GameState.makeMove, GameState.undoMove, hK, (hwkc hK).symm]
    · simp [GameState.makeMove, GameState.undoMove, hK]
  · by_cases hK : m.pieceMoved = bK
    · simp [GameState.makeMove, GameState.undoMove, hK, (hbkc hK).symm]
    · simp [GameState.makeMove, GameState.undoMove, hK]
  · simp [GameState.makeMove, GameState.undoMove]
  · simp [GameState.makeMove, GameState.undoMove]
  · simp [GameState.makeMove, GameState.undoMove]
  · simp [GameState.makeMove, GameState.undoMove]
  · simp [GameState.makeMove, GameState.undoMove]
  · simp [GameState.makeMove, GameState.undoMove, hle]
  · simp [GameState.makeMove, GameState.undoMove, hle]
  · simp [GameState.makeMove, GameState.undoMove, hlc]
  · simp [GameState.makeMove, GameState.undoMove, hlc]

/-- Equality of the nine persistent (non-derived) fields: everything
except `checkmate`, `stalemate`, `inCheck`, `pins`, `checks`. -/
def SemEq (g g' : GameState) : Prop :=
  g.board = g'.board ∧ g.whiteToMove = g'.whiteToMove ∧ g.moveLog = g'.moveLog ∧
  g.whiteKingLocation = g'.whiteKingLocation ∧ g.blackKingLocation = g'.blackKingLocation ∧
  g.enPassantPossible = g'.enPassantPossible ∧
  g.enPassantPossibleLog = g'.enPassantPossibleLog ∧
  g.castlingRights = g'.castlingRights ∧ g.castlingRightsLog = g'.castlingRightsLog

instance (g g' : GameState) : Decidable (SemEq g g') := by
  unfold SemEq; infer_instance

theorem SemEq_refl (g : GameState) : SemEq g g :=
  ⟨rfl, rfl, rfl, rfl, rfl, rfl, rfl, rfl, rfl⟩

theorem SemEq_trans {a b c : GameState} (h1 : SemEq a b) (h2 : SemEq b c) : SemEq a c := by
  obtain ⟨e1, e2, e3, e4, e5, e6, e7, e8, e9⟩ := h1
  obtain ⟨f1, f2, f3, f4, f5, f6, f7, f8, f9⟩ := h2
  exact ⟨e1.trans f1, e2.trans f2, e3.trans f3, e4.trans f4, e5.trans f5,
    e6.trans f6, e7.trans f7, e8.trans f8, e9.trans f9⟩

/-- `undoMove` reads only the persistent fields, so it maps `SemEq`
states to `SemEq` states. -/
theorem SemEq_undoMove {g g' : GameState} (h : SemEq g g') :
    SemEq g.undoMove g'.undoMove := by
  obtain ⟨hb, hw, hm, hwk, hbk, he, hel, hc, hcl⟩ := h
  unfold GameState.undoMove
  rw [hb, hw, hm, hwk, hbk, hel, hcl]
  cases g'.moveLog with
  | nil => exact ⟨hb, hw, hm, hwk, hbk, he, hel, hc, hcl⟩
  | cons m rest => exact ⟨rfl, rfl, rfl, rfl, rfl, rfl, rfl, rfl, rfl⟩

/-- `setSq` preserves the board shape unconditionally (an out-of-range
write is a no-op on the list). -/
theorem BoardOK_setSq_any {b : Board} (hb : BoardOK b) (r c : Int) (v : Cell) :
    BoardOK (setSq b r c v) := by
  have hb1 := hb.1
  by_cases hlt : r.toNat < b.length
  · constructor
    · simpa [setSq] using hb1
    · intro row hrow
      rcases List.mem_or_eq_of_mem_set hrow with hmem | hEq
      · exact hb.2 _ hmem
      · subst hEq
        rw [List.length_set]
        exact row_length_of_BoardOK hb (by omega)
  · have hnoop : setSq b r c v = b := by
      unfold setSq
      exact List.set_eq_of_length_le (by omega)
    rw [hnoop]
    exact hb

/-- `makeMove` preserves the reachable-state invariants. -/
theorem StateInv_makeMove (gs : GameState) (m : Move) (hinv : StateInv gs) :
    StateInv (gs.makeMove m) := by
  refine ⟨?_, rfl, rfl⟩
  show BoardOK (gs.makeMove m).board
  simp only [GameState.makeMove]
  split_ifs <;> (repeat apply BoardOK_setSq_any) <;> exact hinv.1

/-- The N-fold round trip on the persistent fields. -/
theorem seq_roundtrip (ms : List Move) : ∀ gs : GameState, StateInv gs → SeqOK gs ms →
    SemEq (undoTimes (makeMoves gs ms) ms.length) gs := by
  induction ms with
  | nil => exact fun gs _ _ => SemEq_refl gs
  | cons m ms ih =>
    intro gs hinv hseq
    obtain ⟨hok, hseq'⟩ := hseq
    have ihh := ih (gs.makeMove m) (StateInv_makeMove gs m hinv) hseq'
    have hstep : undoTimes (makeMoves gs (m :: ms)) (ms.length + 1)
        = (undoTimes (makeMoves (gs.makeMove m) ms) ms.length).undoMove := rfl
    have h2 := SemEq_undoMove ihh
    have h3 : (gs.makeMove m).undoMove = { gs with checkmate := false, stalemate := false } :=
      undoMove_makeMove gs m hinv hok
    have h4 : SemEq ({ gs with checkmate := false, stalemate := false } : GameState) gs :=
      SemEq_refl _
    show SemEq (undoTimes (makeMoves gs (m :: ms)) (m :: ms).length) gs
    rw [List.length_cons, hstep]
    exact SemEq_trans (h3 ▸ h2) h4

/-! ### Claim C1 -/

/-- C1: applying `makeMove` for each of N legal moves and then calling
`undoMove` N times restores the board, side to move, both king
locations, the castling rights and the en-passant target exactly.
`StateInv` and `SeqOK` are the facts that hold of every reachable
position and every sequence of moves each legal at its point
(board shape, snapshot-log tops, and the per-move legality facts that
`undoMove` inverts). -/
theorem c1_n_fold_roundtrip (gs : GameState) (ms : List Move)
    (hinv : StateInv gs) (hseq : SeqOK gs ms) :
    (undoTimes (makeMoves gs ms) ms.length).board = gs.board ∧
    (undoTimes (makeMoves gs ms) ms.length).whiteToMove = gs.whiteToMove ∧
    (undoTimes (makeMoves gs ms) ms.length).whiteKingLocation = gs.whiteKingLocation ∧
    (undoTimes (makeMoves gs ms) ms.length).blackKingLocation = gs.blackKingLocation ∧
    (undoTimes (makeMoves gs ms) ms.length).castlingRights = gs.castlingRights ∧
    (undoTimes (makeMoves gs ms) ms.length).enPassantPossible = gs.enPassantPossible := by
  have h := seq_roundtrip ms gs hinv hseq
  exact ⟨h.1, h.2.1, h.2.2.2.1, h.2.2.2.2.1, h.2.2.2.2.2.2.2.1, h.2.2.2.2.2.1⟩

/-- The five-ply sequence 1.e4 a6 2.e5 d5 3.exd6 e.p., built move by move
from the boards it is played on. -/
def c1s0 : GameState := GameState.initial
def c1m1 : Move := mkMove (6, 4) (4, 4) c1s0.board false false
def c1s1 : GameState := c1s0.makeMove c1m1
def c1m2 : Move := mkMove (1, 0) (2, 0) c1s1.board false false
def c1s2 : GameState := c1s1.makeMove c1m2
def c1m3 : Move := mkMove (4, 4) (3, 4) c1s2.board false false
def c1s3 : GameState := c1s2.makeMove c1m3
def c1m4 : Move := mkMove (1, 3) (3, 3) c1s3.board false false
def c1s4 : GameState := c1s3.makeMove c1m4
def c1m5 : Move := mkMove (3, 4) (2, 3) c1s4.board true false
def c1Moves : List Move := [c1m1, c1m2, c1m3, c1m4, c1m5]

/-- C1 witness: the concrete five-ply sequence (including a double pawn
push and an en-passant capture) satisfies the hypotheses, and the round
trip restores the claimed fields. -/
theorem c1_witness :
    (undoTimes (makeMoves GameState.initial c1Moves) c1Moves.length).board =
      GameState.initial.board ∧
    (undoTimes (makeMoves GameState.initial c1Moves) c1Moves.length).whiteToMove =
      GameState.initial.whiteToMove ∧
    (undoTimes (makeMoves GameState.initial c1Moves) c1Moves.length).whiteKingLocation =
      GameState.initial.whiteKingLocation ∧
    (undoTimes (makeMoves GameState.initial c1Moves) c1Moves.length).blackKingLocation =
      GameState.initial.blackKingLocation ∧
    (undoTimes (makeMoves GameState.initial c1Moves) c1Moves.length).castlingRights =
      GameState.initial.castlingRights ∧
    (undoTimes (makeMoves GameState.initial c1Moves) c1Moves.length).enPassantPossible =
      GameState.initial.enPassantPossible :=
  c1_n_fold_roundtrip GameState.initial c1Moves (by decide) (by decide)

/-! ### Claim C3 -/

/-- A position with a white rook away from its home corner on the a-file
and a black bishop able to capture it. -/
def c3Board : Board := setSq (setSq emptyBoard 3 0 wR) 1 2 bB

/-- A black-bishop capture of the white rook on square (3,0) — column 0
but *not* the rook's home corner (7,0). -/
def c3Move : Move := mkMove (1, 2) (3, 0) c3Board false false

/-- C3: the code clears a castling right for a rook captured *anywhere*
on column 0 (or 7): `updateCastleRights` tests only `endCol`, never
`endRow`, contradicting the claim (and the rook-move case, which does
test the home row).  Capturing a white rook on (3,0) clears White's
queenside right. -/
theorem c3_code_bug :
    c3Move.pieceCaptured = wR ∧ c3Move.endRow = 3 ∧ c3Move.endCol = 0 ∧
    ¬(c3Move.endRow = 7) ∧
    (updateCastleRights c3Move ⟨true, true, true, true⟩).wqs = false := by
  decide

/-! ### Claim C4 -/

/-- C4 counterexample: at construction the claim's "all three stacks have
equal length" already fails — `moveLog` is empty while both snapshot logs
hold one initial entry. -/
theorem c4_counterexample :
    GameState.initial.moveLog.length = 0 ∧
    GameState.initial.castlingRightsLog.length = 1 ∧
    GameState.initial.enPassantPossibleLog.length = 1 ∧
    ¬(GameState.initial.castlingRightsLog.length = GameState.initial.moveLog.length) := by
  decide

/-- C4 amended: after any sequence of `makeMove`/`undoMove` operations on
a fresh `GameState`, `castlingRightsLog` and `enPassantPossibleLog` each
hold exactly one more entry than `moveLog`, and `moveLog`'s length equals
the number of applied, not-yet-undone moves. -/
theorem c4_amended (ops : List GOp) :
    (runOps GameState.initial ops).castlingRightsLog.length =
      (runOps GameState.initial ops).moveLog.length + 1 ∧
    (runOps GameState.initial ops).enPassantPossibleLog.length =
      (runOps GameState.initial ops).moveLog.length + 1 ∧
    (runOps GameState.initial ops).moveLog.length = netCount 0 ops :=
  runOps_logs_invariant ops GameState.initial rfl rfl

/-! ### Claim C6 -/

/-- C6 counterexample: on the standard initial position (checkmate and
stalemate both false) the claimed exact sum is 0 by symmetry, but
`scoreBoard` returns 10 — each `score += / -=` truncates the fractional
positional contribution towards zero in the `int` accumulator. -/
theorem c6_counterexample :
    ((scoreBoard GameState.initial : ℚ) ≠ scoreBoardSpec GameState.initial) ∧
    scoreBoard GameState.initial = 10 ∧
    scoreBoardSpec GameState.initial = 0 := by
  have h1 : scoreBoard GameState.initial = 10 := by
    set_option maxRecDepth 8000 in decide
  have h2 : scoreBoardSpecTw GameState.initial = 0 := by
    set_option maxRecDepth 8000 in decide
  have hc : GameState.initial.checkmate = false := rfl
  have hs : GameState.initial.stalemate = false := rfl
  have h3 : scoreBoardSpec GameState.initial = 0 := by
    simp [scoreBoardSpec, hc, hs, h2]
  refine ⟨?_, h1, h3⟩
  rw [h1, h3]
  norm_num

/-- C6 amended: `scoreBoard` returns ±`CHECKMATE`/`STALEMATE` exactly as
claimed for the checkmate/stalemate flags, and otherwise the row-major
accumulation over all 64 squares in which each occupied square's
material-plus-positional contribution is added (White) or subtracted
(Black) into an integer accumulator with truncation towards zero at
every step. -/
theorem c6_amended (gs : GameState) :
    scoreBoard gs =
      (if gs.checkmate then (if gs.whiteToMove then -CHECKMATE else CHECKMATE)
       else if gs.stalemate then STALEMATE
       else allSquares.foldl (fun s rc => scoreStep gs.board s rc.1 rc.2) 0) := by
  have L : allSquares.foldl (fun s rc => scoreStep gs.board s rc.1 rc.2) 0 =
      (List.range 8).foldl
        (fun score r =>
          (List.range 8).foldl
          (fun score c => scoreStep gs.board score (Int.ofNat r) (Int.ofNat c)) score)
        0 := by
    simp only [allSquares, foldl_flatMap_eq, List.foldl_map]
  rw [L]
  rfl

/-! ### Claim C9 -/

/-- A white pawn on e5 beside a black pawn on d5 (the position after a
double push ...d7–d5). -/
def c9EpBoard : Board := setSq (setSq emptyBoard 3 4 wp) 3 3 bp

/-- The en-passant capture e5xd6 e.p. -/
def c9EpMove : Move := mkMove (3, 4) (2, 3) c9EpBoard true false

/-- White's queenside castle e1–c1. -/
def c9QueensideCastle : Move := mkMove (7, 4) (7, 2) GameState.initial.board false true

/-- C9 counterexample: no single move-text function satisfies the
claimed mapping.  `toString` (the form the presentation layer consumes)
renders the en-passant capture e5xd6 as `"exd6"`, not the claimed
piece-letter + `"x"` + destination + `" e.p."`; and `getChessNotation`
(which does produce the `" e.p."` form) renders the queenside castle as
`"O-O"`, not `"O-O-O"`, because its queenside test compares `endCol`
with 1 instead of 2. -/
theorem c9_counterexample :
    c9EpMove.isEnpassantMove = true ∧
    Move.toString c9EpMove = "exd6" ∧ ¬(("exd6" : String) = "pxd6 e.p.") ∧
    Move.getChessNotation c9EpMove = "pxd6 e.p." ∧
    c9QueensideCastle.isCastleMove = true ∧
    c9QueensideCastle.endCol - c9QueensideCastle.startCol = -2 ∧
    Move.getChessNotation c9QueensideCastle = "O-O" ∧
    ¬(("O-O" : String) = "O-O-O") := by
  decide

/-- C9 amended: `Move::toString` satisfies the claimed mapping, except
that an en-passant capture is rendered exactly like an ordinary pawn
capture (source-file + `"x"` + destination, no `" e.p."` suffix).  The
hypothesis pins the castle shape produced by the generator from the
king's home column (the only shape reachable with castling rights
intact). -/
theorem c9_amended (m : Move)
    (hc : m.isCastleMove = true → m.startCol = 4 ∧ (m.endCol = 6 ∨ m.endCol = 2)) :
    Move.toString m = specMoveText m := by
  unfold Move.toString specMoveText
  by_cases h : m.isCastleMove = true
  · obtain ⟨h4, h62⟩ := hc h
    rcases h62 with h6 | h2
    · simp [h, h4, h6]
    · simp [h, h4, h2]
  · simp [h]

/-- C9 amended, witness: the kingside castle e1–g1 evaluated concretely. -/
theorem c9_witness :
    Move.toString (mkMove (7, 4) (7, 6) GameState.initial.board false true) =
      specMoveText (mkMove (7, 4) (7, 6) GameState.initial.board false true) :=
  c9_amended _ (by decide)

/-! ### Claim C8 -/

/-- C8: from the standard initial position, `getValidMoves` returns
exactly 20 moves. -/
theorem c8_initial_twenty : (GameState.initial.getValidMoves).1.length = 20 := by
  decide

/-! ### C10: frame effect of `getValidMoves` -/

/-- King-cache coherence: every on-board square holding the given king
piece is the cached location.  `GameState()` establishes it and
`makeMove`/`undoMove` preserve it; `getKingMoves` restores the cache to
its *argument* square, so coherence is exactly what makes the
restoration an identity. -/
def KingCoh (board : Board) (K : Cell) (loc : Int × Int) : Prop :=
  ∀ r : Nat, r < 8 → ∀ c : Nat, c < 8 →
    getSq board (Int.ofNat r) (Int.ofNat c) = K → (Int.ofNat r, Int.ofNat c) = loc

instance (board : Board) (K : Cell) (loc : Int × Int) : Decidable (KingCoh board K loc) := by
  unfold KingCoh; infer_instance

theorem foldl_pres_mem {α β : Type} (P : β → Prop) (f : β → α → β) :
    ∀ (l : List α), (∀ b a, a ∈ l → P b → P (f b a)) → ∀ b, P b → P (l.foldl f b) := by
  intro l
  induction l with
  | nil => intro _ b hb; exact hb
  | cons a t ih =>
      intro h b hb
      exact ih (fun b' a' ha' hb' => h b' a' (List.mem_cons_of_mem a ha') hb')
        (f b a) (h b a (List.mem_cons_self a t) hb)

theorem getPawnMoves_kings (board : Board) (wtm : Bool) (enp : Int × Int)
    (ctx : GenCtx) (row col : Int) :
    (getPawnMoves board wtm enp ctx row col).2.wkl = ctx.wkl ∧
    (getPawnMoves board wtm enp ctx row col).2.bkl = ctx.bkl := by
  simp only [getPawnMoves, apply_ite (fun p : List Move × GenCtx => p.2.wkl),
    apply_ite (fun p : List Move × GenCtx => p.2.bkl), ite_self]
  exact ⟨trivial, trivial⟩

theorem getRookMoves_kings (board : Board) (wtm : Bool)
    (ctx : GenCtx) (row col : Int) :
    (getRookMoves board wtm ctx row col).2.wkl = ctx.wkl ∧
    (getRookMoves board wtm ctx row col).2.bkl = ctx.bkl := by
  simp only [getRookMoves, apply_ite (fun g : GenCtx => g.wkl),
    apply_ite (fun g : GenCtx => g.bkl), ite_self]
  exact ⟨trivial, trivial⟩

theorem getBishopMoves_kings (board : Board) (wtm : Bool)
    (ctx : GenCtx) (row col : Int) :
    (getBishopMoves board wtm ctx row col).2.wkl = ctx.wkl ∧
    (getBishopMoves board wtm ctx row col).2.bkl = ctx.bkl :=
  ⟨rfl, rfl⟩

theorem getKnightMoves_kings (board : Board) (wtm : Bool)
    (ctx : GenCtx) (row col : Int) :
    (getKnightMoves board wtm ctx row col).2.wkl = ctx.wkl ∧
    (getKnightMoves board wtm ctx row col).2.bkl = ctx.bkl :=
  ⟨rfl, rfl⟩

theorem getQueenMoves_kings (board : Board) (wtm : Bool)
    (ctx : GenCtx) (row col : Int) :
    (getQueenMoves board wtm ctx row col).2.wkl = ctx.wkl ∧
    (getQueenMoves board wtm ctx row col).2.bkl = ctx.bkl := by
  have h1 := getBishopMoves_kings board wtm ctx row col
  have h2 := getRookMoves_kings board wtm
    (getBishopMoves board wtm ctx row col).2 row col
  exact ⟨h2.1.trans h1.1, h2.2.trans h1.2⟩

theorem getKingMoves_kings (board : Board) (wtm : Bool)
    (ctx : GenCtx) (row col : Int) :
    ((getKingMoves board wtm ctx row col).2.wkl = ctx.wkl ∨
      (getKingMoves board wtm ctx row col).2.wkl = (row, col)) ∧
    ((getKingMoves board wtm ctx row col).2.bkl = ctx.bkl ∨
      (getKingMoves board wtm ctx row col).2.bkl = (row, col)) ∧
    (wtm = true → (getKingMoves board wtm ctx row col).2.bkl = ctx.bkl) ∧
    (wtm = false → (getKingMoves board wtm ctx row col).2.wkl = ctx.wkl) := by
  unfold getKingMoves
  refine foldl_pres_mem
    (fun acc : List Move × GenCtx =>
      (acc.2.wkl = ctx.wkl ∨ acc.2.wkl = (row, col)) ∧
      (acc.2.bkl = ctx.bkl ∨ acc.2.bkl = (row, col)) ∧
      (wtm = true → acc.2.bkl = ctx.bkl) ∧
      (wtm = false → acc.2.wkl = ctx.wkl)) _ kingDirs ?_ ([], ctx)
    ⟨Or.inl rfl, Or.inl rfl, fun _ => rfl, fun _ => rfl⟩
  intro acc m _ hP
  obtain ⟨hw, hb, hwt, hwf⟩ := hP
  cases wtm with
  | true =>
      dsimp only
      simp only [eq_self_iff_true, if_true]
      split
      · split
        · exact ⟨Or.inr rfl, hb, fun _ => hwt rfl, fun h => nomatch h⟩
        · exact ⟨hw, hb, fun _ => hwt rfl, hwf⟩
      · exact ⟨hw, hb, fun _ => hwt rfl, hwf⟩
  | false =>
      dsimp only
      simp only [eq_self_iff_true, Bool.false_eq_true, if_true, if_false]
      split
      · split
        · exact ⟨hw, Or.inr rfl, fun h => h.elim, fun _ => hwf rfl⟩
        · exact ⟨hw, hb, fun h => h.elim, fun _ => hwf rfl⟩
      · exact ⟨hw, hb, fun h => h.elim, fun _ => hwf rfl⟩


theorem genSquare_kings (board : Board) (wtm : Bool) (enp : Int × Int)
    (W B : Int × Int)
    (hcohW : KingCoh board wK W) (hcohB : KingCoh board bK B)
    (r c : Nat) (hr : r < 8) (hc : c < 8)
    (acc : List Move × GenCtx) (hW : acc.2.wkl = W) (hB : acc.2.bkl = B) :
    (genSquare board wtm enp acc (Int.ofNat r) (Int.ofNat c)).2.wkl = W ∧
    (genSquare board wtm enp acc (Int.ofNat r) (Int.ofNat c)).2.bkl = B := by
  unfold genSquare
  dsimp only
  split
  · rename_i hguard
    split
    · exact ⟨(getPawnMoves_kings board wtm enp acc.2 _ _).1.trans hW,
        (getPawnMoves_kings board wtm enp acc.2 _ _).2.trans hB⟩
    · exact ⟨(getRookMoves_kings board wtm acc.2 _ _).1.trans hW,
        (getRookMoves_kings board wtm acc.2 _ _).2.trans hB⟩
    · exact ⟨(getKnightMoves_kings board wtm acc.2 _ _).1.trans hW,
        (getKnightMoves_kings board wtm acc.2 _ _).2.trans hB⟩
    · exact ⟨(getBishopMoves_kings board wtm acc.2 _ _).1.trans hW,
        (getBishopMoves_kings board wtm acc.2 _ _).2.trans hB⟩
    · exact ⟨(getQueenMoves_kings board wtm acc.2 _ _).1.trans hW,
        (getQueenMoves_kings board wtm acc.2 _ _).2.trans hB⟩
    · rename_i hkind
      have hk := getKingMoves_kings board wtm acc.2 (Int.ofNat r) (Int.ofNat c)
      rcases hguard with ⟨hcol, hwt⟩ | ⟨hcol, hwt⟩
      · have hcell : getSq board (Int.ofNat r) (Int.ofNat c) = wK := by
          cases hg : getSq board (Int.ofNat r) (Int.ofNat c) with
          | mk a b =>
              rw [hg] at hcol hkind
              dsimp only at hcol hkind
              rw [hcol, hkind]
              rfl
        have hWc : ((Int.ofNat r : Int), (Int.ofNat c : Int)) = W := hcohW r hr c hc hcell
        refine ⟨?_, (hk.2.2.1 hwt).trans hB⟩
        rcases hk.1 with h | h
        · exact h.trans hW
        · exact h.trans hWc
      · have hcell : getSq board (Int.ofNat r) (Int.ofNat c) = bK := by
          cases hg : getSq board (Int.ofNat r) (Int.ofNat c) with
          | mk a b =>
              rw [hg] at hcol hkind
              dsimp only at hcol hkind
              rw [hcol, hkind]
              rfl
        have hBc : ((Int.ofNat r : Int), (Int.ofNat c : Int)) = B := hcohB r hr c hc hcell
        have hwf : wtm = false := by
          cases wtm
          · rfl
          · exact absurd rfl hwt
        refine ⟨(hk.2.2.2 hwf).trans hW, ?_⟩
        rcases hk.2.1 with h | h
        · exact h.trans hB
        · exact h.trans hBc
    · exact ⟨hW, hB⟩
  · exact ⟨hW, hB⟩

theorem getAllPossibleMoves_kings (board : Board) (wtm : Bool) (enp : Int × Int)
    (W B : Int × Int)
    (hcohW : KingCoh board wK W) (hcohB : KingCoh board bK B)
    (ctx : GenCtx) (hW : ctx.wkl = W) (hB : ctx.bkl = B) :
    (getAllPossibleMoves board wtm enp ctx).2.wkl = W ∧
    (getAllPossibleMoves board wtm enp ctx).2.bkl = B := by
  unfold getAllPossibleMoves
  refine foldl_pres_mem
    (fun acc : List Move × GenCtx => acc.2.wkl = W ∧ acc.2.bkl = B) _
    (List.range 8) ?_ ([], ctx) ⟨hW, hB⟩
  intro acc r hrm hP
  refine foldl_pres_mem
    (fun acc : List Move × GenCtx => acc.2.wkl = W ∧ acc.2.bkl = B) _
    (List.range 8) ?_ acc hP
  intro acc2 c hcm hP2
  exact genSquare_kings board wtm enp W B hcohW hcohB r c
    (List.mem_range.mp hrm) (List.mem_range.mp hcm) acc2 hP2.1 hP2.2

theorem squareUnderAttack_kings (board : Board) (wtm : Bool) (enp : Int × Int)
    (W B : Int × Int)
    (hcohW : KingCoh board wK W) (hcohB : KingCoh board bK B)
    (ctx : GenCtx) (hW : ctx.wkl = W) (hB : ctx.bkl = B) (row col : Int) :
    (squareUnderAttack board wtm enp ctx row col).2.wkl = W ∧
    (squareUnderAttack board wtm enp ctx row col).2.bkl = B := by
  unfold squareUnderAttack
  exact getAllPossibleMoves_kings board (!wtm) enp W B hcohW hcohB ctx hW hB

theorem getKingsideCastleMoves_kings (board : Board) (wtm : Bool) (enp : Int × Int)
    (W B : Int × Int)
    (hcohW : KingCoh board wK W) (hcohB : KingCoh board bK B)
    (ctx : GenCtx) (hW : ctx.wkl = W) (hB : ctx.bkl = B) (row col : Int) :
    (getKingsideCastleMoves board wtm enp ctx row col).2.wkl = W ∧
    (getKingsideCastleMoves board wtm enp ctx row col).2.bkl = B := by
  have h1 := squareUnderAttack_kings board wtm enp W B hcohW hcohB ctx hW hB
    row (col + 1)
  have h2 := squareUnderAttack_kings board wtm enp W B hcohW hcohB
    (squareUnderAttack board wtm enp ctx row (col + 1)).2 h1.1 h1.2 row (col + 2)
  unfold getKingsideCastleMoves
  dsimp only
  split
  · exact ⟨hW, hB⟩
  · split
    · split
      · split
        · exact h2
        · exact h2
      · exact h1
    · exact ⟨hW, hB⟩

theorem getQueensideCastleMoves_kings (board : Board) (wtm : Bool) (enp : Int × Int)
    (W B : Int × Int)
    (hcohW : KingCoh board wK W) (hcohB : KingCoh board bK B)
    (ctx : GenCtx) (hW : ctx.wkl = W) (hB : ctx.bkl = B) (row col : Int) :
    (getQueensideCastleMoves board wtm enp ctx row col).2.wkl = W ∧
    (getQueensideCastleMoves board wtm enp ctx row col).2.bkl = B := by
  have h1 := squareUnderAttack_kings board wtm enp W B hcohW hcohB ctx hW hB
    row (col - 1)
  have h2 := squareUnderAttack_kings board wtm enp W B hcohW hcohB
    (squareUnderAttack board wtm enp ctx row (col - 1)).2 h1.1 h1.2 row (col - 2)
  unfold getQueensideCastleMoves
  dsimp only
  split
  · exact ⟨hW, hB⟩
  · split
    · split
      · split
        · exact h2
        · exact h2
      · exact h1
    · exact ⟨hW, hB⟩

theorem getCastleMoves_kings (board : Board) (wtm : Bool) (enp : Int × Int)
    (cr : CastleRights) (W B : Int × Int)
    (hcohW : KingCoh board wK W) (hcohB : KingCoh board bK B)
    (ctx : GenCtx) (hW : ctx.wkl = W) (hB : ctx.bkl = B) (row col : Int) :
    (getCastleMoves board wtm enp cr ctx row col).2.wkl = W ∧
    (getCastleMoves board wtm enp cr ctx row col).2.bkl = B := by
  have hA := squareUnderAttack_kings board wtm enp W B hcohW hcohB ctx hW hB row col
  have hK := getKingsideCastleMoves_kings board wtm enp W B hcohW hcohB
    (squareUnderAttack board wtm enp ctx row col).2 hA.1 hA.2 row col
  unfold getCastleMoves
  dsimp only
  split
  · exact hA
  · split
    · split
      · exact getQueensideCastleMoves_kings board wtm enp W B hcohW hcohB
          (getKingsideCastleMoves board wtm enp
            (squareUnderAttack board wtm enp ctx row col).2 row col).2 hK.1 hK.2 row col
      · exact hK
    · split
      · exact getQueensideCastleMoves_kings board wtm enp W B hcohW hcohB
          (squareUnderAttack board wtm enp ctx row col).2 hA.1 hA.2 row col
      · exact hA

theorem getValidMoves_kings (gs : GameState)
    (hcohW : KingCoh gs.board wK gs.whiteKingLocation)
    (hcohB : KingCoh gs.board bK gs.blackKingLocation) :
    (gs.getValidMoves).2.whiteKingLocation = gs.whiteKingLocation ∧
    (gs.getValidMoves).2.blackKingLocation = gs.blackKingLocation := by
  unfold GameState.getValidMoves
  dsimp only
  cases hwtm : gs.whiteToMove with
  | true =>
      simp only [eq_self_iff_true, if_true]
      have hall := getAllPossibleMoves_kings gs.board true gs.enPassantPossible
        gs.whiteKingLocation gs.blackKingLocation hcohW hcohB
        ⟨(checkForPinsAndChecks gs.board true gs.whiteKingLocation
            gs.blackKingLocation).pins,
          gs.whiteKingLocation, gs.blackKingLocation⟩ rfl rfl
      split
      · split
        · exact getCastleMoves_kings gs.board true gs.enPassantPossible
            gs.castlingRights gs.whiteKingLocation gs.blackKingLocation
            hcohW hcohB _ hall.1 hall.2 _ _
        · have hkm := getKingMoves_kings gs.board true
            ⟨(checkForPinsAndChecks gs.board true gs.whiteKingLocation
                gs.blackKingLocation).pins,
              gs.whiteKingLocation, gs.blackKingLocation⟩
            gs.whiteKingLocation.1 gs.whiteKingLocation.2
          have hW : (getKingMoves gs.board true
              ⟨(checkForPinsAndChecks gs.board true gs.whiteKingLocation
                  gs.blackKingLocation).pins,
                gs.whiteKingLocation, gs.blackKingLocation⟩
              gs.whiteKingLocation.1 gs.whiteKingLocation.2).2.wkl =
              gs.whiteKingLocation :=
            hkm.1.elim (fun h => h) (fun h => h.trans Prod.mk.eta)
          exact getCastleMoves_kings gs.board true gs.enPassantPossible
            gs.castlingRights gs.whiteKingLocation gs.blackKingLocation
            hcohW hcohB _ hW (hkm.2.2.1 rfl) _ _
      · exact getCastleMoves_kings gs.board true gs.enPassantPossible
          gs.castlingRights gs.whiteKingLocation gs.blackKingLocation
          hcohW hcohB _ hall.1 hall.2 _ _
  | false =>
      simp only [eq_self_iff_true, Bool.false_eq_true, if_true, if_false]
      have hall := getAllPossibleMoves_kings gs.board false gs.enPassantPossible
        gs.whiteKingLocation gs.blackKingLocation hcohW hcohB
        ⟨(checkForPinsAndChecks gs.board false gs.whiteKingLocation
            gs.blackKingLocation).pins,
          gs.whiteKingLocation, gs.blackKingLocation⟩ rfl rfl
      split
      · split
        · exact getCastleMoves_kings gs.board false gs.enPassantPossible
            gs.castlingRights gs.whiteKingLocation gs.blackKingLocation
            hcohW hcohB _ hall.1 hall.2 _ _
        · have hkm := getKingMoves_kings gs.board false
            ⟨(checkForPinsAndChecks gs.board false gs.whiteKingLocation
                gs.blackKingLocation).pins,
              gs.whiteKingLocation, gs.blackKingLocation⟩
            gs.blackKingLocation.1 gs.blackKingLocation.2
          have hB : (getKingMoves gs.board false
              ⟨(checkForPinsAndChecks gs.board false gs.whiteKingLocation
                  gs.blackKingLocation).pins,
                gs.whiteKingLocation, gs.blackKingLocation⟩
              gs.blackKingLocation.1 gs.blackKingLocation.2).2.bkl =
              gs.blackKingLocation :=
            hkm.2.1.elim (fun h => h) (fun h => h.trans Prod.mk.eta)
          exact getCastleMoves_kings gs.board false gs.enPassantPossible
            gs.castlingRights gs.whiteKingLocation gs.blackKingLocation
            hcohW hcohB _ (hkm.2.2.2 rfl) hB _ _
      · exact getCastleMoves_kings gs.board false gs.enPassantPossible
          gs.castlingRights gs.whiteKingLocation gs.blackKingLocation
          hcohW hcohB _ hall.1 hall.2 _ _

/-- C10: on any state whose cached king locations are coherent with the
board (as every state produced by the constructor, `makeMove` and
`undoMove` is — `getKingMoves` restores the cache to its argument square,
which is the cached square exactly under coherence), `getValidMoves`
leaves the board, the side to move, both king locations, the castling
rights, the en-passant target and all three history stacks unchanged;
only the derived fields (`inCheck`, `pins`, `checks`, `checkmate`,
`stalemate`) may change. -/
theorem c10_getValidMoves_frame (gs : GameState)
    (hcohW : KingCoh gs.board wK gs.whiteKingLocation)
    (hcohB : KingCoh gs.board bK gs.blackKingLocation) :
    (gs.getValidMoves).2.board = gs.board ∧
    (gs.getValidMoves).2.whiteToMove = gs.whiteToMove ∧
    (gs.getValidMoves).2.whiteKingLocation = gs.whiteKingLocation ∧
    (gs.getValidMoves).2.blackKingLocation = gs.blackKingLocation ∧
    (gs.getValidMoves).2.castlingRights = gs.castlingRights ∧
    (gs.getValidMoves).2.enPassantPossible = gs.enPassantPossible ∧
    (gs.getValidMoves).2.moveLog = gs.moveLog ∧
    (gs.getValidMoves).2.enPassantPossibleLog = gs.enPassantPossibleLog ∧
    (gs.getValidMoves).2.castlingRightsLog = gs.castlingRightsLog :=
  have h := getValidMoves_kings gs hcohW hcohB
  ⟨rfl, rfl, h.1, h.2, rfl, rfl, rfl, rfl, rfl⟩

/-- C10 witness: the coherence hypotheses hold of the initial position,
and the theorem applied there gives the frame property concretely. -/
theorem c10_witness :
    KingCoh GameState.initial.board wK GameState.initial.whiteKingLocation ∧
    KingCoh GameState.initial.board bK GameState.initial.blackKingLocation ∧
    ((GameState.initial.getValidMoves).2.board = GameState.initial.board ∧
     (GameState.initial.getValidMoves).2.whiteToMove = GameState.initial.whiteToMove ∧
     (GameState.initial.getValidMoves).2.whiteKingLocation = GameState.initial.whiteKingLocation ∧
     (GameState.initial.getValidMoves).2.blackKingLocation = GameState.initial.blackKingLocation ∧
     (GameState.initial.getValidMoves).2.castlingRights = GameState.initial.castlingRights ∧
     (GameState.initial.getValidMoves).2.enPassantPossible = GameState.initial.enPassantPossible ∧
     (GameState.initial.getValidMoves).2.moveLog = GameState.initial.moveLog ∧
     (GameState.initial.getValidMoves).2.enPassantPossibleLog = GameState.initial.enPassantPossibleLog ∧
     (GameState.initial.getValidMoves).2.castlingRightsLog = GameState.initial.castlingRightsLog) :=
  ⟨by decide, by decide,
    c10_getValidMoves_frame GameState.initial (by decide) (by decide)⟩

/-! ### C7: `findBestMove` returns an element of its input list -/

theorem getD_mem_of_lt (l : List Move) (n : Nat) (hn : n < l.length) :
    l.getD n defaultMove ∈ l := by
  rw [List.getD_eq_getElem?_getD, List.getElem?_eq_getElem hn]
  simp only [Option.getD_some]
  exact List.getElem_mem hn

theorem swapAt_length (l : List Move) (i j : Nat) :
    (swapAt l i j).length = l.length := by
  unfold swapAt
  split
  · rfl
  · simp only [List.length_set]

theorem swapAt_subset (l : List Move) (i j : Nat) (hi : i < l.length)
    (hj : j < l.length) : ∀ x, x ∈ swapAt l i j → x ∈ l := by
  intro x hx
  unfold swapAt at hx
  split at hx
  · exact hx
  · rcases List.mem_or_eq_of_mem_set hx with hx1 | hx1
    · rcases List.mem_or_eq_of_mem_set hx1 with hx2 | hx2
      · exact hx2
      · rw [hx2]
        exact getD_mem_of_lt l j hj
    · rw [hx1]
      exact getD_mem_of_lt l i hi

theorem shuffleGo_subset (rand : Nat → Nat) :
    ∀ (n : Nat) (l : List Move), n < l.length →
      ∀ x, x ∈ shuffleGo rand l n → x ∈ l := by
  intro n
  induction n with
  | zero => intro l _ x hx; exact hx
  | succ i ih =>
      intro l hn x hx
      unfold shuffleGo at hx
      have hlen : (swapAt l (i + 1) (rand (i + 1) % (i + 2))).length = l.length :=
        swapAt_length l (i + 1) (rand (i + 1) % (i + 2))
      have hx2 := ih (swapAt l (i + 1) (rand (i + 1) % (i + 2)))
        (by rw [hlen]; omega) x hx
      refine swapAt_subset l (i + 1) (rand (i + 1) % (i + 2)) hn ?_ x hx2
      have : rand (i + 1) % (i + 2) < i + 2 := Nat.mod_lt _ (by omega)
      omega

theorem rootLoop_next_mem :
    ∀ (l : List Move) (gs : GameState) (alpha beta t maxScore : Int) (next : Move),
      (rootLoop gs l alpha beta t maxScore next).2.1 ∈ l ∨
      (rootLoop gs l alpha beta t maxScore next).2.1 = next := by
  intro l
  induction l with
  | nil => intro gs alpha beta t maxScore next; exact Or.inr rfl
  | cons m rest ih =>
      intro gs alpha beta t maxScore next
      rw [rootLoop]
      split <;> split <;> split <;>
        first
          | exact Or.inl (List.mem_cons_self m rest)
          | exact Or.inr rfl
          | exact (ih _ _ _ _ _ _).elim
              (fun h => Or.inl (List.mem_cons_of_mem m h))
              (fun h => Or.inl (by rw [h]; exact List.mem_cons_self m rest))
          | exact (ih _ _ _ _ _ _).elim
              (fun h => Or.inl (List.mem_cons_of_mem m h))
              (fun h => Or.inr h)

theorem findRandomMove_mem (validMoves : List Move) (randomIndex : Nat)
    (h : validMoves ≠ []) : findRandomMove validMoves randomIndex ∈ validMoves := by
  unfold findRandomMove
  have hne : validMoves.isEmpty = false := by
    cases validMoves with
    | nil => exact absurd rfl h
    | cons a t => rfl
  rw [hne]
  simp only [Bool.false_eq_true, if_false]
  have hlen : 0 < validMoves.length := by
    cases validMoves with
    | nil => exact absurd rfl h
    | cons a t => simp
  exact getD_mem_of_lt validMoves _ (Nat.mod_lt _ hlen)

/-- C7: for every game state and non-empty legal-move list, `findBestMove`
returns an element of the list: a recorded move with the sentinel
`moveID == 0`, or one failing the `isValidMove` consistency check, is
replaced by a uniformly random element of the list, and an accepted
recorded move came from the (shuffled) list itself. -/
theorem c7_findBestMove_mem (gs : GameState) (validMoves : List Move)
    (shuffleRand : Nat → Nat) (fallbackIndex : Nat) (h : validMoves ≠ []) :
    findBestMove gs validMoves shuffleRand fallbackIndex ∈ validMoves := by
  unfold findBestMove
  have hne : validMoves.isEmpty = false := by
    cases validMoves with
    | nil => exact absurd rfl h
    | cons a t => rfl
  have hlen : 0 < validMoves.length := by
    cases validMoves with
    | nil => exact absurd rfl h
    | cons a t => simp
  rw [hne]
  simp only [Bool.false_eq_true, if_false]
  split
  · split
    · exact findRandomMove_mem validMoves fallbackIndex h
    · rename_i hno
      rcases rootLoop_next_mem
          (shuffleGo shuffleRand validMoves (validMoves.length - 1)) gs
          (-CHECKMATE) CHECKMATE 1 (-CHECKMATE) defaultMove with hm | hm
      · exact shuffleGo_subset shuffleRand (validMoves.length - 1) validMoves
          (by omega) _ hm
      · exact absurd (Or.inl (by rw [hm]; rfl)) hno
  · split
    · exact findRandomMove_mem validMoves fallbackIndex h
    · rename_i hno
      rcases rootLoop_next_mem
          (shuffleGo shuffleRand validMoves (validMoves.length - 1)) gs
          (-CHECKMATE) CHECKMATE (-1) (-CHECKMATE) defaultMove with hm | hm
      · exact shuffleGo_subset shuffleRand (validMoves.length - 1) validMoves
          (by omega) _ hm
      · exact absurd (Or.inl (by rw [hm]; rfl)) hno

/-- C7 witness: a singleton legal-move list at the initial position. -/
theorem c7_witness :
    ([mkMove (6, 4) (4, 4) GameState.initial.board false false] : List Move) ≠ [] ∧
    findBestMove GameState.initial
        [mkMove (6, 4) (4, 4) GameState.initial.board false false]
        (fun _ => 0) 0 ∈
      [mkMove (6, 4) (4, 4) GameState.initial.board false false] :=
  ⟨by decide, c7_findBestMove_mem GameState.initial
    [mkMove (6, 4) (4, 4) GameState.initial.board false false]
    (fun _ => 0) 0 (by decide)⟩

/-! ### C2: pruning never changes the root value -/

/-- The legality hypotheses along the full-width search tree of depth `d`
from a position: the state satisfies the reachable-state invariants, every
move of the node's list is a legal generated move there, `getValidMoves`
only changes derived fields on the child (the C10 frame property, which
holds of every reachable position), and recursively so for every child
node.  This is the shape of every tree the engine actually searches: the
move lists are produced by `getValidMoves` on reachable positions. -/
def RT : Nat → GameState → List Move → Prop
  | 0, _, _ => True
  | d + 1, gs, ms =>
    StateInv gs ∧ ∀ m ∈ ms, MoveOK gs m ∧
      SemEq ((gs.makeMove m).getValidMoves).2 (gs.makeMove m) ∧
      RT d ((gs.makeMove m).getValidMoves).2 ((gs.makeMove m).getValidMoves).1

instance instDecidableRT : (d : Nat) → (gs : GameState) → (ms : List Move) →
    Decidable (RT d gs ms)
  | 0, _, _ => Decidable.isTrue trivial
  | d + 1, gs, ms =>
    @instDecidableAnd _ _ _
      (@List.decidableBAll _ _
        (fun m =>
          @instDecidableAnd _ _ _
            (@instDecidableAnd _ _ _
              (instDecidableRT d ((gs.makeMove m).getValidMoves).2
                ((gs.makeMove m).getValidMoves).1)))
        ms)

/-- The fail-soft alpha-beta contract relative to a window: below alpha
the result is an upper bound on the true value, inside the window it is
exact, at or above beta it is a lower bound. -/
def triProp (g V alpha beta : Int) : Prop :=
  (g ≤ alpha → V ≤ g) ∧ (alpha < g → g < beta → g = V) ∧ (beta ≤ g → g ≤ V)

theorem ite_gt_max (x y : Int) : (if x > y then x else y) = max x y := by
  split <;> omega

theorem pieceScore_bounds (k : Char) : 0 ≤ pieceScore k ∧ pieceScore k ≤ 10 := by
  unfold pieceScore
  split_ifs <;> omega

theorem table_getD_bounds (t : List (List Int))
    (ht : ∀ row ∈ t, ∀ v ∈ row, 0 ≤ v ∧ v ≤ 19) (i j : Nat) :
    0 ≤ (t.getD i []).getD j 0 ∧ (t.getD i []).getD j 0 ≤ 19 := by
  have hrow : t.getD i [] = [] ∨ t.getD i [] ∈ t := by
    rw [List.getD_eq_getElem?_getD]
    cases hg : t[i]? with
    | none => left; rfl
    | some row =>
        right
        simp only [Option.getD_some]
        exact List.getElem?_mem hg
  have hval : (t.getD i []).getD j 0 = 0 ∨ (t.getD i []).getD j 0 ∈ t.getD i [] := by
    rw [List.getD_eq_getElem?_getD]
    cases hg : (t.getD i [])[j]? with
    | none => left; rfl
    | some v =>
        right
        simp only [Option.getD_some]
        exact List.getElem?_mem hg
  rcases hval with hv | hv
  · omega
  · rcases hrow with hr | hr
    · rw [hr] at hv
      exact absurd hv (List.not_mem_nil _)
    · exact ht _ hr _ hv

set_option maxHeartbeats 1000000 in
theorem posScore_bounds (piece : Cell) (r c : Int) :
    0 ≤ posScore piece r c ∧ posScore piece r c ≤ 19 := by
  have hN : ∀ row ∈ knightScores, ∀ v ∈ row, 0 ≤ v ∧ v ≤ 19 := by
    set_option maxHeartbeats 1000000 in decide
  have hB : ∀ row ∈ bishopScores, ∀ v ∈ row, 0 ≤ v ∧ v ≤ 19 := by
    set_option maxHeartbeats 1000000 in decide
  have hQ : ∀ row ∈ queenScores, ∀ v ∈ row, 0 ≤ v ∧ v ≤ 19 := by
    set_option maxHeartbeats 1000000 in decide
  have hR : ∀ row ∈ rookScores, ∀ v ∈ row, 0 ≤ v ∧ v ≤ 19 := by
    set_option maxHeartbeats 1000000 in decide
  have hP : ∀ row ∈ pawnScores, ∀ v ∈ row, 0 ≤ v ∧ v ≤ 19 := by
    set_option maxHeartbeats 1000000 in decide
  unfold posScore piecePositionScores
  split_ifs
  · exact table_getD_bounds _ hN _ _
  · exact table_getD_bounds _ (fun row hrow => hN row (List.mem_reverse.mp hrow)) _ _
  · exact table_getD_bounds _ hB _ _
  · exact table_getD_bounds _ (fun row hrow => hB row (List.mem_reverse.mp hrow)) _ _
  · exact table_getD_bounds _ hQ _ _
  · exact table_getD_bounds _ (fun row hrow => hQ row (List.mem_reverse.mp hrow)) _ _
  · exact table_getD_bounds _ hR _ _
  · exact table_getD_bounds _ (fun row hrow => hR row (List.mem_reverse.mp hrow)) _ _
  · exact table_getD_bounds _ hP _ _
  · exact table_getD_bounds _ (fun row hrow => hP row (List.mem_reverse.mp hrow)) _ _
  · exact table_getD_bounds [] (fun row hrow => absurd hrow (List.not_mem_nil _)) _ _

theorem scoreStep_bound (b : Board) (s : Int) (r c : Int) :
    s - 11 ≤ scoreStep b s r c ∧ scoreStep b s r c ≤ s + 11 := by
  have h1 := pieceScore_bounds (getSq b r c).kind
  have h2 := posScore_bounds (getSq b r c) r c
  simp only [scoreStep]
  split_ifs <;> first | omega | (unfold trunc20; split_ifs <;> omega)

theorem foldl_drift11 (b : Board) (r : Int) :
    ∀ (l : List Nat) (s : Int),
      s - 11 * l.length ≤
        l.foldl (fun score c => scoreStep b score r (Int.ofNat c)) s ∧
      l.foldl (fun score c => scoreStep b score r (Int.ofNat c)) s ≤
        s + 11 * l.length := by
  intro l
  induction l with
  | nil => intro s; simp
  | cons a tl ih =>
      intro s
      have h1 := scoreStep_bound b s r (Int.ofNat a)
      have h2 := ih (scoreStep b s r (Int.ofNat a))
      simp only [List.foldl_cons, List.length_cons]
      omega

theorem foldl_drift88 (b : Board) :
    ∀ (l : List Nat) (s : Int),
      s - 88 * l.length ≤
        l.foldl (fun score r =>
          (List.range 8).foldl
            (fun score c => scoreStep b score (Int.ofNat r) (Int.ofNat c)) score) s ∧
      l.foldl (fun score r =>
          (List.range 8).foldl
            (fun score c => scoreStep b score (Int.ofNat r) (Int.ofNat c)) score) s ≤
        s + 88 * l.length := by
  intro l
  induction l with
  | nil => intro s; simp
  | cons a tl ih =>
      intro s
      have h1 := foldl_drift11 b (Int.ofNat a) (List.range 8) s
      have h2 := ih ((List.range 8).foldl
        (fun score c => scoreStep b score (Int.ofNat a) (Int.ofNat c)) s)
      simp only [List.foldl_cons, List.length_cons, List.length_range] at h1 h2 ⊢
      omega

theorem scoreBoard_bound (gs : GameState) :
    -CHECKMATE ≤ scoreBoard gs ∧ scoreBoard gs ≤ CHECKMATE := by
  unfold scoreBoard CHECKMATE STALEMATE
  have h := foldl_drift88 gs.board (List.range 8) 0
  simp only [List.length_range] at h
  split_ifs <;> omega

theorem SemEq_symm {g g' : GameState} (h : SemEq g g') : SemEq g' g := by
  obtain ⟨e1, e2, e3, e4, e5, e6, e7, e8, e9⟩ := h
  exact ⟨e1.symm, e2.symm, e3.symm, e4.symm, e5.symm, e6.symm, e7.symm,
    e8.symm, e9.symm⟩

/-- `makeMove` reads and writes only the persistent fields, so it is a
congruence for `SemEq`. -/
theorem SemEq_makeMove {g g' : GameState} (h : SemEq g g') (m : Move) :
    SemEq (g.makeMove m) (g'.makeMove m) := by
  obtain ⟨hb, hw, hm, hwk, hbk, he, hel, hc, hcl⟩ := h
  unfold SemEq GameState.makeMove
  simp only [hb, hw, hm, hwk, hbk, he, hel, hc, hcl]
  refine ⟨?_, ?_, ?_, ?_, ?_, ?_, ?_, ?_, ?_⟩ <;> first | rfl | trivial

/-- `getValidMoves` reads only the persistent fields: `SemEq` states get
the same move list, `SemEq` output states, and the same
checkmate/stalemate flags. -/
theorem getValidMoves_congr {g g' : GameState} (h : SemEq g g') :
    (g.getValidMoves).1 = (g'.getValidMoves).1 ∧
    SemEq (g.getValidMoves).2 (g'.getValidMoves).2 ∧
    (g.getValidMoves).2.checkmate = (g'.getValidMoves).2.checkmate ∧
    (g.getValidMoves).2.stalemate = (g'.getValidMoves).2.stalemate := by
  obtain ⟨hb, hw, hm, hwk, hbk, he, hel, hc, hcl⟩ := h
  unfold SemEq GameState.getValidMoves
  simp only [hb, hw, hm, hwk, hbk, he, hel, hc, hcl]
  refine ⟨?_, ⟨?_, ?_, ?_, ?_, ?_, ?_, ?_, ?_, ?_⟩, ?_, ?_⟩ <;>
    first | rfl | trivial

theorem scoreBoard_congr {g g' : GameState} (hcm : g.checkmate = g'.checkmate)
    (hsm : g.stalemate = g'.stalemate) (hw : g.whiteToMove = g'.whiteToMove)
    (hb : g.board = g'.board) : scoreBoard g = scoreBoard g' := by
  unfold scoreBoard
  rw [hcm, hsm, hw, hb]

theorem StateInv_of_SemEq {g g' : GameState} (h : SemEq g g')
    (hI : StateInv g') : StateInv g := by
  obtain ⟨hb, hw, hm, hwk, hbk, he, hel, hc, hcl⟩ := h
  unfold StateInv
  rw [hb, hc, hcl, he, hel]
  exact hI

theorem MoveOK_of_SemEq {g g' : GameState} (h : SemEq g g') (m : Move)
    (hok : MoveOK g' m) : MoveOK g m := by
  obtain ⟨hb, hw, hm, hwk, hbk, he, hel, hc, hcl⟩ := h
  unfold MoveOK
  rw [hb, hwk, hbk]
  exact hok

theorem RT_congr : ∀ (d : Nat) {g g' : GameState} {ms : List Move},
    SemEq g g' → RT d g' ms → RT d g ms := by
  intro d
  induction d with
  | zero => intro g g' ms _ _; trivial
  | succ d ih =>
      intro g g' ms h hRT
      obtain ⟨hI, hms⟩ := hRT
      refine ⟨StateInv_of_SemEq h hI, fun m hm => ?_⟩
      obtain ⟨hok, hsem, hrt⟩ := hms m hm
      have h1 : SemEq (g.makeMove m) (g'.makeMove m) := SemEq_makeMove h m
      have h2 := getValidMoves_congr h1
      refine ⟨MoveOK_of_SemEq h m hok, ?_, ?_⟩
      · exact SemEq_trans h2.2.1 (SemEq_trans hsem (SemEq_symm h1))
      · rw [h2.1]
        exact ih h2.2.1 hrt

theorem abLoop_ge (rec : GameState → List Move → Int → Int → Int → Int × GameState) :
    ∀ (ms : List Move) (gs : GameState) (alpha beta t M : Int),
      M ≤ (abLoopF rec gs ms alpha beta t M).1 := by
  intro ms
  induction ms with
  | nil => intro gs alpha beta t M; exact le_rfl
  | cons m rest ih =>
      intro gs alpha beta t M
      simp only [abLoopF, ite_gt_max]
      split
      · omega
      · exact le_trans (by omega) (ih _ _ _ _ _)

theorem plainLoop_ge (rec : GameState → List Move → Int → Int × GameState) :
    ∀ (ms : List Move) (gs : GameState) (t M : Int),
      M ≤ (plainLoopF rec gs ms t M).1 := by
  intro ms
  induction ms with
  | nil => intro gs t M; exact le_rfl
  | cons m rest ih =>
      intro gs t M
      simp only [plainLoopF, ite_gt_max]
      exact le_trans (by omega) (ih _ _ _)

theorem negaPlain_ge_neg (d : Nat) (gs : GameState) (ms : List Move) (t : Int)
    (ht : t = 1 ∨ t = -1) : -CHECKMATE ≤ (negaPlain d gs ms t).1 := by
  cases d with
  | zero =>
      have h := scoreBoard_bound gs
      simp only [negaPlain]
      rcases ht with rfl | rfl <;> omega
  | succ e => exact plainLoop_ge (negaPlain e) ms gs t (-CHECKMATE)

theorem plainLoop_le (d : Nat) :
    ∀ (ms : List Move) (gs : GameState) (t M : Int),
      (t = 1 ∨ t = -1) → M ≤ CHECKMATE →
      (plainLoopF (negaPlain d) gs ms t M).1 ≤ CHECKMATE := by
  intro ms
  induction ms with
  | nil => intro gs t M _ hM; exact hM
  | cons m rest ih =>
      intro gs t M ht hM
      simp only [plainLoopF, ite_gt_max]
      refine ih _ _ _ ht ?_
      have hc := negaPlain_ge_neg d ((gs.makeMove m).getValidMoves).2
        ((gs.makeMove m).getValidMoves).1 (-t) (by omega)
      omega

theorem negaPlain_le (d : Nat) (gs : GameState) (ms : List Move) (t : Int)
    (ht : t = 1 ∨ t = -1) : (negaPlain d gs ms t).1 ≤ CHECKMATE := by
  cases d with
  | zero =>
      have h := scoreBoard_bound gs
      simp only [negaPlain]
      rcases ht with rfl | rfl <;> omega
  | succ e =>
      refine plainLoop_le e ms gs t (-CHECKMATE) ht ?_
      unfold CHECKMATE
      omega

/-- The state returned by the pruned search is `SemEq` to the state it
was given: every `makeMove` is undone by the matching `undoMove`. -/
theorem negaABGo_state : ∀ (d : Nat) (gs0 gsa : GameState) (ms : List Move)
    (alpha beta t : Int), SemEq gsa gs0 → RT d gs0 ms →
    SemEq (negaABGo d gsa ms alpha beta t).2 gs0 := by
  intro d
  induction d with
  | zero => intro gs0 gsa ms alpha beta t hsa _; exact hsa
  | succ d ihd =>
      intro gs0 gsa ms alpha beta t hsa hRT
      obtain ⟨hInv, hms⟩ := hRT
      show SemEq (abLoopF (negaABGo d) gsa ms alpha beta t (-CHECKMATE)).2 gs0
      suffices loop : ∀ (l : List Move), (∀ m ∈ l, MoveOK gs0 m ∧
          SemEq ((gs0.makeMove m).getValidMoves).2 (gs0.makeMove m) ∧
          RT d ((gs0.makeMove m).getValidMoves).2 ((gs0.makeMove m).getValidMoves).1) →
          ∀ (gsa : GameState) (alpha beta t M : Int), SemEq gsa gs0 →
          SemEq (abLoopF (negaABGo d) gsa l alpha beta t M).2 gs0 by
        exact loop ms hms gsa alpha beta t (-CHECKMATE) hsa
      intro l
      induction l with
      | nil => intro _ gsa' alpha' beta' t' M hsa'; exact hsa'
      | cons m rest ihl =>
          intro hl gsa' alpha' beta' t' M hsa'
          obtain ⟨hok, hsem, hrt⟩ := hl m (List.mem_cons_self m rest)
          have h1 : SemEq (gsa'.makeMove m) (gs0.makeMove m) := SemEq_makeMove hsa' m
          have h2 := getValidMoves_congr h1
          have hRTa : RT d ((gsa'.makeMove m).getValidMoves).2
              ((gsa'.makeMove m).getValidMoves).1 := by
            rw [h2.1]
            exact RT_congr d h2.2.1 hrt
          have hchild := ihd ((gsa'.makeMove m).getValidMoves).2
            ((gsa'.makeMove m).getValidMoves).2 ((gsa'.makeMove m).getValidMoves).1
            (-beta') (-alpha') (-t') (SemEq_refl _) hRTa
          have h3 := SemEq_trans hchild
            (SemEq_trans h2.2.1 (SemEq_trans hsem (SemEq_symm h1)))
          have h4 := SemEq_undoMove h3
          have h5 : (gsa'.makeMove m).undoMove =
              { gsa' with checkmate := false, stalemate := false } :=
            undoMove_makeMove gsa' m (StateInv_of_SemEq hsa' hInv)
              (MoveOK_of_SemEq hsa' m hok)
          rw [h5] at h4
          have hflags : SemEq
              ({ gsa' with checkmate := false, stalemate := false } : GameState) gsa' :=
            ⟨rfl, rfl, rfl, rfl, rfl, rfl, rfl, rfl, rfl⟩
          have hgs4 := SemEq_trans h4 (SemEq_trans hflags hsa')
          simp only [abLoopF, ite_gt_max]
          split
          · exact hgs4
          · exact ihl (fun m' hm' => hl m' (List.mem_cons_of_mem m hm')) _ _ _ _ _ hgs4

/-- The state returned by the full-width search is `SemEq` to the state
it was given. -/
theorem negaPlain_state : ∀ (d : Nat) (gs0 gsp : GameState) (ms : List Move)
    (t : Int), SemEq gsp gs0 → RT d gs0 ms →
    SemEq (negaPlain d gsp ms t).2 gs0 := by
  intro d
  induction d with
  | zero => intro gs0 gsp ms t hsp _; exact hsp
  | succ d ihd =>
      intro gs0 gsp ms t hsp hRT
      obtain ⟨hInv, hms⟩ := hRT
      show SemEq (plainLoopF (negaPlain d) gsp ms t (-CHECKMATE)).2 gs0
      suffices loop : ∀ (l : List Move), (∀ m ∈ l, MoveOK gs0 m ∧
          SemEq ((gs0.makeMove m).getValidMoves).2 (gs0.makeMove m) ∧
          RT d ((gs0.makeMove m).getValidMoves).2 ((gs0.makeMove m).getValidMoves).1) →
          ∀ (gsp : GameState) (t M : Int), SemEq gsp gs0 →
          SemEq (plainLoopF (negaPlain d) gsp l t M).2 gs0 by
        exact loop ms hms gsp t (-CHECKMATE) hsp
      intro l
      induction l with
      | nil => intro _ gsp' t' M hsp'; exact hsp'
      | cons m rest ihl =>
          intro hl gsp' t' M hsp'
          obtain ⟨hok, hsem, hrt⟩ := hl m (List.mem_cons_self m rest)
          have h1 : SemEq (gsp'.makeMove m) (gs0.makeMove m) := SemEq_makeMove hsp' m
          have h2 := getValidMoves_congr h1
          have hRTp : RT d ((gsp'.makeMove m).getValidMoves).2
              ((gsp'.makeMove m).getValidMoves).1 := by
            rw [h2.1]
            exact RT_congr d h2.2.1 hrt
          have hchild := ihd ((gsp'.makeMove m).getValidMoves).2
            ((gsp'.makeMove m).getValidMoves).2 ((gsp'.makeMove m).getValidMoves).1
            (-t') (SemEq_refl _) hRTp
          have h3 := SemEq_trans hchild
            (SemEq_trans h2.2.1 (SemEq_trans hsem (SemEq_symm h1)))
          have h4 := SemEq_undoMove h3
          have h5 : (gsp'.makeMove m).undoMove =
              { gsp' with checkmate := false, stalemate := false } :=
            undoMove_makeMove gsp' m (StateInv_of_SemEq hsp' hInv)
              (MoveOK_of_SemEq hsp' m hok)
          rw [h5] at h4
          have hflags : SemEq
              ({ gsp' with checkmate := false, stalemate := false } : GameState) gsp' :=
            ⟨rfl, rfl, rfl, rfl, rfl, rfl, rfl, rfl, rfl⟩
          have hgs4 := SemEq_trans h4 (SemEq_trans hflags hsp')
          simp only [plainLoopF, ite_gt_max]
          exact ihl (fun m' hm' => hl m' (List.mem_cons_of_mem m hm')) _ _ _ hgs4

/-- Widening the reference alpha of the fail-soft contract: the narrowed
call either kept alpha (fail-low accumulation) or raised it to the
exactly-known running maximum. -/
theorem tri_convert (g V alpha alphaN beta MaN MpN : Int)
    (ht : triProp g V alphaN beta) (hg : MaN ≤ g) (hV : MpN ≤ V)
    (hcase : (alphaN = alpha ∧ MpN ≤ MaN ∧ MaN ≤ alpha) ∨
             (alphaN = MaN ∧ MaN = MpN ∧ alpha < alphaN)) :
    triProp g V alpha beta := by
  obtain ⟨t1, t2, t3⟩ := ht
  rcases hcase with ⟨he, h1, h2⟩ | ⟨he, h1, h2⟩
  · subst he
    exact ⟨t1, t2, t3⟩
  · refine ⟨fun hga => absurd hga (by omega), fun hag hgb => ?_, t3⟩
    by_cases hx : alphaN < g
    · exact t2 hx hgb
    · have hVle : V ≤ g := t1 (by omega)
      omega

/-- The fail-soft alpha-beta contract, relating the pruned and the
full-width search over the same tree of legal moves. -/
theorem negaAB_tri : ∀ (d : Nat) (gs0 : GameState) (ms : List Move)
    (gsa gsp : GameState) (alpha beta t : Int),
    RT d gs0 ms → SemEq gsa gs0 → SemEq gsp gs0 →
    scoreBoard gsa = scoreBoard gsp →
    (t = 1 ∨ t = -1) → -CHECKMATE ≤ alpha → alpha < beta → beta ≤ CHECKMATE →
    triProp (negaABGo d gsa ms alpha beta t).1 (negaPlain d gsp ms t).1
      alpha beta := by
  intro d
  induction d with
  | zero =>
      intro gs0 ms gsa gsp alpha beta t _ _ _ hsb _ _ _ _
      have he : (negaABGo 0 gsa ms alpha beta t).1 = (negaPlain 0 gsp ms t).1 := by
        simp only [negaABGo, negaPlain, hsb]
      exact ⟨fun _ => le_of_eq he.symm, fun _ _ => he, fun _ => le_of_eq he⟩
  | succ d IHd =>
      intro gs0 ms gsa gsp alpha beta t hRT hsa hsp hsb ht halpha hab hbeta
      obtain ⟨hInv, hms⟩ := hRT
      show triProp (abLoopF (negaABGo d) gsa ms alpha beta t (-CHECKMATE)).1
        (plainLoopF (negaPlain d) gsp ms t (-CHECKMATE)).1 alpha beta
      suffices loop : ∀ (l : List Move), (∀ m ∈ l, MoveOK gs0 m ∧
          SemEq ((gs0.makeMove m).getValidMoves).2 (gs0.makeMove m) ∧
          RT d ((gs0.makeMove m).getValidMoves).2
            ((gs0.makeMove m).getValidMoves).1) →
          ∀ (gsa gsp : GameState) (alpha Ma Mp : Int),
            SemEq gsa gs0 → SemEq gsp gs0 →
            -CHECKMATE ≤ alpha → alpha < beta → Ma ≤ alpha → Mp ≤ Ma →
            triProp (abLoopF (negaABGo d) gsa l alpha beta t Ma).1
              (plainLoopF (negaPlain d) gsp l t Mp).1 alpha beta by
        exact loop ms hms gsa gsp alpha (-CHECKMATE) (-CHECKMATE) hsa hsp
          halpha hab halpha le_rfl
      intro l
      induction l with
      | nil =>
          intro _ gsa' gsp' alpha' Ma Mp _ _ _ hab' hMa hMp
          simp only [abLoopF, plainLoopF]
          exact ⟨fun _ => hMp, fun h1 _ => absurd h1 (by omega),
            fun h3 => absurd h3 (by omega)⟩
      | cons m rest ihl =>
          intro hl gsa' gsp' alpha' Ma Mp hsa' hsp' halpha' hab' hMa hMp
          obtain ⟨hok, hsem, hrt⟩ := hl m (List.mem_cons_self m rest)
          have h1a : SemEq (gsa'.makeMove m) (gs0.makeMove m) := SemEq_makeMove hsa' m
          have h1p : SemEq (gsp'.makeMove m) (gs0.makeMove m) := SemEq_makeMove hsp' m
          have h2a := getValidMoves_congr h1a
          have h2p := getValidMoves_congr h1p
          have hlist : ((gsp'.makeMove m).getValidMoves).1 =
              ((gsa'.makeMove m).getValidMoves).1 := h2p.1.trans h2a.1.symm
          have hsemAP : SemEq ((gsp'.makeMove m).getValidMoves).2
              ((gsa'.makeMove m).getValidMoves).2 :=
            SemEq_trans h2p.2.1 (SemEq_symm h2a.2.1)
          have hRTa : RT d ((gsa'.makeMove m).getValidMoves).2
              ((gsa'.makeMove m).getValidMoves).1 := by
            rw [h2a.1]
            exact RT_congr d h2a.2.1 hrt
          have hRTp : RT d ((gsp'.makeMove m).getValidMoves).2
              ((gsa'.makeMove m).getValidMoves).1 := RT_congr d hsemAP hRTa
          have hsbc : scoreBoard ((gsa'.makeMove m).getValidMoves).2 =
              scoreBoard ((gsp'.makeMove m).getValidMoves).2 :=
            scoreBoard_congr (h2a.2.2.1.trans h2p.2.2.1.symm)
              (h2a.2.2.2.trans h2p.2.2.2.symm)
              ((h2a.2.1).2.1.trans ((h2p.2.1).2.1).symm)
              ((h2a.2.1).1.trans ((h2p.2.1).1).symm)
          have ht' : -t = 1 ∨ -t = -1 := by omega
          have childTri := IHd ((gsa'.makeMove m).getValidMoves).2
            ((gsa'.makeMove m).getValidMoves).1
            ((gsa'.makeMove m).getValidMoves).2
            ((gsp'.makeMove m).getValidMoves).2
            (-beta) (-alpha') (-t) hRTa (SemEq_refl _) hsemAP hsbc ht'
            (by omega) (by omega) (by omega)
          have hstA := negaABGo_state d ((gsa'.makeMove m).getValidMoves).2
            ((gsa'.makeMove m).getValidMoves).2 ((gsa'.makeMove m).getValidMoves).1
            (-beta) (-alpha') (-t) (SemEq_refl _) hRTa
          have hstP := negaPlain_state d ((gsp'.makeMove m).getValidMoves).2
            ((gsp'.makeMove m).getValidMoves).2 ((gsa'.makeMove m).getValidMoves).1
            (-t) (SemEq_refl _) hRTp
          have h3a := SemEq_trans hstA
            (SemEq_trans h2a.2.1 (SemEq_trans hsem (SemEq_symm h1a)))
          have h3p := SemEq_trans hstP
            (SemEq_trans h2p.2.1 (SemEq_trans hsem (SemEq_symm h1p)))
          have h4a := SemEq_undoMove h3a
          have h4p := SemEq_undoMove h3p
          have h5a : (gsa'.makeMove m).undoMove =
              { gsa' with checkmate := false, stalemate := false } :=
            undoMove_makeMove gsa' m (StateInv_of_SemEq hsa' hInv)
              (MoveOK_of_SemEq hsa' m hok)
          have h5p : (gsp'.makeMove m).undoMove =
              { gsp' with checkmate := false, stalemate := false } :=
            undoMove_makeMove gsp' m (StateInv_of_SemEq hsp' hInv)
              (MoveOK_of_SemEq hsp' m hok)
          rw [h5a] at h4a
          rw [h5p] at h4p
          have hfla : SemEq
              ({ gsa' with checkmate := false, stalemate := false } : GameState) gsa' :=
            ⟨rfl, rfl, rfl, rfl, rfl, rfl, rfl, rfl, rfl⟩
          have hflp : SemEq
              ({ gsp' with checkmate := false, stalemate := false } : GameState) gsp' :=
            ⟨rfl, rfl, rfl, rfl, rfl, rfl, rfl, rfl, rfl⟩
          have hgs4a := SemEq_trans h4a (SemEq_trans hfla hsa')
          have hgs4p := SemEq_trans h4p (SemEq_trans hflp hsp')
          have hrest := fun m' hm' => hl m' (List.mem_cons_of_mem m hm')
          simp only [abLoopF, plainLoopF, ite_gt_max]
          rw [hlist]
          split
          · rename_i hcut
            dsimp only
            have hlow := childTri.1 (by omega)
            have hVge := plainLoop_ge (negaPlain d) rest
              ((negaPlain d ((gsp'.makeMove m).getValidMoves).2
                ((gsa'.makeMove m).getValidMoves).1 (-t)).2.undoMove) t
              (max (-(negaPlain d ((gsp'.makeMove m).getValidMoves).2
                ((gsa'.makeMove m).getValidMoves).1 (-t)).1) Mp)
            exact ⟨fun hgle => absurd hgle (by omega),
              fun _ hgb => absurd hgb (by omega), fun _ => by omega⟩
          · rename_i hncut
            have hsPsA : -(negaPlain d ((gsp'.makeMove m).getValidMoves).2
                ((gsa'.makeMove m).getValidMoves).1 (-t)).1 ≤
                -(negaABGo d ((gsa'.makeMove m).getValidMoves).2
                ((gsa'.makeMove m).getValidMoves).1 (-beta) (-alpha') (-t)).1 := by
              rcases le_or_lt
                  (-(negaABGo d ((gsa'.makeMove m).getValidMoves).2
                    ((gsa'.makeMove m).getValidMoves).1 (-beta) (-alpha') (-t)).1)
                  alpha' with hle | hlt
              · have := childTri.2.2 (by omega)
                omega
              · have := childTri.2.1 (by omega) (by omega)
                omega
            refine tri_convert _ _ _ _ _ _ _
              (ihl hrest _ _ _ _ _ hgs4a hgs4p (by omega) (by omega)
                (by omega) (by omega))
              (abLoop_ge _ _ _ _ _ _ _) (plainLoop_ge _ _ _ _ _) ?_
            rcases le_or_lt
                (-(negaABGo d ((gsa'.makeMove m).getValidMoves).2
                  ((gsa'.makeMove m).getValidMoves).1 (-beta) (-alpha') (-t)).1)
                alpha' with hle | hlt
            · left
              refine ⟨by omega, by omega, by omega⟩
            · have hsPeq := childTri.2.1 (by omega) (by omega)
              right
              refine ⟨by omega, by omega, by omega⟩

/-- C2: for every position, every legal move list and every fixed search
depth, the pruned negamax (`findMoveNegaMaxAlphaBeta`) called with the
initial window `(-CHECKMATE, CHECKMATE)` returns the same score as the
identical recursion with the alpha-beta cutoff removed, over the same
move list; `RT` states that the move lists along the tree are the legal
moves of the positions being searched (which holds of every tree the
engine builds), and `t` is the ±1 turn multiplier. -/
theorem c2_pruning_equivalence (d : Nat) (gs : GameState) (ms : List Move)
    (t : Int) (hRT : RT d gs ms) (ht : t = 1 ∨ t = -1) :
    (negaABGo d gs ms (-CHECKMATE) CHECKMATE t).1 = (negaPlain d gs ms t).1 := by
  have htri := negaAB_tri d gs ms gs gs (-CHECKMATE) CHECKMATE t hRT
    (SemEq_refl gs) (SemEq_refl gs) rfl ht le_rfl
    (by unfold CHECKMATE; omega) le_rfl
  obtain ⟨t1, t2, t3⟩ := htri
  have hga : -CHECKMATE ≤ (negaABGo d gs ms (-CHECKMATE) CHECKMATE t).1 := by
    cases d with
    | zero =>
        have h := scoreBoard_bound gs
        simp only [negaABGo]
        rcases ht with rfl | rfl <;> omega
    | succ e => exact abLoop_ge (negaABGo e) ms gs (-CHECKMATE) CHECKMATE t (-CHECKMATE)
  have hVge := negaPlain_ge_neg d gs ms t ht
  have hVle := negaPlain_le d gs ms t ht
  by_cases h1 : (negaABGo d gs ms (-CHECKMATE) CHECKMATE t).1 ≤ -CHECKMATE
  · have hv := t1 h1
    omega
  · by_cases h2 : CHECKMATE ≤ (negaABGo d gs ms (-CHECKMATE) CHECKMATE t).1
    · have hv := t3 h2
      omega
    · exact t2 (by omega) (by omega)

/-- C2 witness: depth 1 from the initial position over the singleton
move list containing e2–e4, with the White turn multiplier. -/
theorem c2_witness :
    (RT 1 GameState.initial
        [mkMove (6, 4) (4, 4) GameState.initial.board false false] ∧
      ((1 : Int) = 1 ∨ (1 : Int) = -1)) ∧
    (negaABGo 1 GameState.initial
        [mkMove (6, 4) (4, 4) GameState.initial.board false false]
        (-CHECKMATE) CHECKMATE 1).1 =
      (negaPlain 1 GameState.initial
        [mkMove (6, 4) (4, 4) GameState.initial.board false false] 1).1 :=
  ⟨⟨by decide, Or.inl rfl⟩,
    c2_pruning_equivalence 1 GameState.initial
      [mkMove (6, 4) (4, 4) GameState.initial.board false false] 1
      (by decide) (Or.inl rfl)⟩

/-! ### C5: no castle moves are returned while in check -/

/-- Every move of the list carries `isCastleMove = false`. -/
def AllNC (l : List Move) : Prop := ∀ x ∈ l, x.isCastleMove = false

theorem AllNC_nil : AllNC [] := fun x hx => absurd hx (List.not_mem_nil x)

theorem AllNC_append {l1 l2 : List Move} (h1 : AllNC l1) (h2 : AllNC l2) :
    AllNC (l1 ++ l2) := by
  intro x hx
  rcases List.mem_append.mp hx with h | h
  · exact h1 x h
  · exact h2 x h

theorem AllNC_cons {x : Move} {l : List Move} (hx : x.isCastleMove = false)
    (h : AllNC l) : AllNC (x :: l) := by
  intro y hy
  rcases List.mem_cons.mp hy with rfl | hy
  · exact hx
  · exact h y hy

theorem AllNC_ite (c : Prop) [Decidable c] {l1 l2 : List Move} (h1 : AllNC l1)
    (h2 : AllNC l2) : AllNC (if c then l1 else l2) := by
  split
  · exact h1
  · exact h2

theorem AllNC_slideRay (board : Board) (ec : Char) (row col : Int)
    (pp : Bool) (pd e : Int × Int) :
    ∀ (fuel i : Nat), AllNC (slideRay board ec row col pp pd e i fuel) := by
  intro fuel
  induction fuel with
  | zero => intro i; exact AllNC_nil
  | succ f ih =>
      intro i
      rw [slideRay]
      refine AllNC_ite _ (AllNC_ite _ ?_ (ih (i + 1))) AllNC_nil
      refine AllNC_ite _ (AllNC_cons rfl (ih (i + 1))) ?_
      exact AllNC_ite _ (AllNC_cons rfl AllNC_nil) AllNC_nil

theorem mkMove_isCastleMove (a b : Int × Int) (board : Board) (ep cm : Bool) :
    (mkMove a b board ep cm).isCastleMove = cm := rfl

theorem AllNC_getPawnMoves (board : Board) (wtm : Bool) (enp : Int × Int)
    (ctx : GenCtx) (row col : Int) :
    AllNC (getPawnMoves board wtm enp ctx row col).1 := by
  simp only [getPawnMoves, apply_ite (fun p : List Move × GenCtx => p.1)]
  repeat' first
    | exact AllNC_nil
    | exact mkMove_isCastleMove _ _ _ _ _
    | apply AllNC_ite
    | apply AllNC_cons
    | apply AllNC_append

theorem AllNC_slide_fold (board : Board) (ec : Char) (row col : Int)
    (pp : Bool) (pd : Int × Int) (dirs : List (Int × Int)) :
    ∀ init : List Move, AllNC init →
      AllNC (dirs.foldl
        (fun acc d => acc ++ slideRay board ec row col pp pd d 1 7) init) := by
  induction dirs with
  | nil => intro init h; exact h
  | cons d rest ih =>
      intro init h
      exact ih _ (AllNC_append h (AllNC_slideRay board ec row col pp pd d 7 1))

theorem AllNC_getRookMoves (board : Board) (wtm : Bool) (ctx : GenCtx)
    (row col : Int) : AllNC (getRookMoves board wtm ctx row col).1 := by
  simp only [getRookMoves]
  exact AllNC_slide_fold _ _ _ _ _ _ rookDirs [] AllNC_nil

theorem AllNC_getBishopMoves (board : Board) (wtm : Bool) (ctx : GenCtx)
    (row col : Int) : AllNC (getBishopMoves board wtm ctx row col).1 := by
  simp only [getBishopMoves]
  exact AllNC_slide_fold _ _ _ _ _ _ bishopDirs [] AllNC_nil

theorem AllNC_foldl {α : Type} (f : List Move → α → List Move)
    (h : ∀ acc a, AllNC acc → AllNC (f acc a)) :
    ∀ (l : List α) (init : List Move), AllNC init → AllNC (l.foldl f init) := by
  intro l
  induction l with
  | nil => intro init hi; exact hi
  | cons a rest ih => intro init hi; exact ih _ (h init a hi)

theorem AllNC_getKnightMoves (board : Board) (wtm : Bool) (ctx : GenCtx)
    (row col : Int) : AllNC (getKnightMoves board wtm ctx row col).1 := by
  simp only [getKnightMoves]
  refine AllNC_foldl _ ?_ knightDirs [] AllNC_nil
  intro acc a hacc
  repeat' first
    | exact hacc
    | exact AllNC_nil
    | exact mkMove_isCastleMove _ _ _ _ _
    | apply AllNC_ite
    | apply AllNC_cons
    | apply AllNC_append

theorem AllNC_getQueenMoves (board : Board) (wtm : Bool) (ctx : GenCtx)
    (row col : Int) : AllNC (getQueenMoves board wtm ctx row col).1 :=
  AllNC_append (AllNC_getBishopMoves board wtm ctx row col)
    (AllNC_getRookMoves board wtm _ row col)

theorem AllNC_getKingMoves (board : Board) (wtm : Bool) (ctx : GenCtx)
    (row col : Int) : AllNC (getKingMoves board wtm ctx row col).1 := by
  unfold getKingMoves
  refine foldl_pres_mem (fun acc : List Move × GenCtx => AllNC acc.1) _
    kingDirs ?_ ([], ctx) AllNC_nil
  intro acc m _ hP
  dsimp only
  simp only [apply_ite (fun p : List Move × GenCtx => p.1)]
  repeat' first
    | exact hP
    | exact AllNC_nil
    | exact mkMove_isCastleMove _ _ _ _ _
    | apply AllNC_ite
    | apply AllNC_cons
    | apply AllNC_append

theorem AllNC_genSquare (board : Board) (wtm : Bool) (enp : Int × Int)
    (acc : List Move × GenCtx) (h : AllNC acc.1) (r c : Int) :
    AllNC (genSquare board wtm enp acc r c).1 := by
  unfold genSquare
  dsimp only
  split
  · split
    · exact AllNC_append h (AllNC_getPawnMoves board wtm enp acc.2 r c)
    · exact AllNC_append h (AllNC_getRookMoves board wtm acc.2 r c)
    · exact AllNC_append h (AllNC_getKnightMoves board wtm acc.2 r c)
    · exact AllNC_append h (AllNC_getBishopMoves board wtm acc.2 r c)
    · exact AllNC_append h (AllNC_getQueenMoves board wtm acc.2 r c)
    · exact AllNC_append h (AllNC_getKingMoves board wtm acc.2 r c)
    · exact h
  · exact h

theorem AllNC_getAllPossibleMoves (board : Board) (wtm : Bool)
    (enp : Int × Int) (ctx : GenCtx) :
    AllNC (getAllPossibleMoves board wtm enp ctx).1 := by
  unfold getAllPossibleMoves
  refine foldl_pres_mem (fun acc : List Move × GenCtx => AllNC acc.1) _
    (List.range 8) ?_ ([], ctx) AllNC_nil
  intro acc r _ hP
  refine foldl_pres_mem (fun acc : List Move × GenCtx => AllNC acc.1) _
    (List.range 8) ?_ acc hP
  intro acc2 c _ hP2
  exact AllNC_genSquare board wtm enp acc2 hP2 _ _

theorem removeLastMatch_subset : ∀ (l : List PinInfo) (r c : Int),
    ∀ p ∈ (removeLastMatch l r c).2, p ∈ l := by
  intro l
  induction l with
  | nil => intro r c p hp; exact absurd hp (List.not_mem_nil p)
  | cons p0 rest ih =>
      intro r c p hp
      rw [removeLastMatch] at hp
      rcases hrec : removeLastMatch rest r c with ⟨o, rest'⟩
      rw [hrec] at hp
      cases o with
      | some q =>
          dsimp only at hp
          rcases List.mem_cons.mp hp with rfl | hp'
          · exact List.mem_cons_self _ _
          · refine List.mem_cons_of_mem _ (ih r c p ?_)
            rw [hrec]
            exact hp'
      | none =>
          dsimp only at hp
          by_cases hc : p0.row = r ∧ p0.col = c
          · rw [if_pos hc] at hp
            dsimp only at hp
            exact List.mem_cons_of_mem _ hp
          · rw [if_neg hc] at hp
            dsimp only at hp
            rcases List.mem_cons.mp hp with rfl | hp'
            · exact List.mem_cons_self _ _
            · refine List.mem_cons_of_mem _ (ih r c p ?_)
              rw [hrec]
              exact hp'

theorem removeLastMatch_none : ∀ (l : List PinInfo) (r c : Int),
    (∀ p ∈ l, ¬(p.row = r ∧ p.col = c)) → (removeLastMatch l r c).1 = none := by
  intro l
  induction l with
  | nil => intro r c _; rfl
  | cons p0 rest ih =>
      intro r c h
      rw [removeLastMatch]
      rcases hrec : removeLastMatch rest r c with ⟨o, rest'⟩
      have ho : o = none := by
        have := ih r c (fun p hp => h p (List.mem_cons_of_mem p0 hp))
        rw [hrec] at this
        exact this
      subst ho
      dsimp only
      rw [if_neg (h p0 (List.mem_cons_self p0 rest))]

theorem getPawnMoves_pins (board : Board) (wtm : Bool) (enp : Int × Int)
    (ctx : GenCtx) (row col : Int) :
    ∀ p ∈ (getPawnMoves board wtm enp ctx row col).2.pins, p ∈ ctx.pins := by
  intro p hp
  simp only [getPawnMoves, apply_ite (fun g : List Move × GenCtx => g.2.pins),
    ite_self] at hp
  exact removeLastMatch_subset ctx.pins row col p hp

theorem getRookMoves_pins (board : Board) (wtm : Bool)
    (ctx : GenCtx) (row col : Int) :
    ∀ p ∈ (getRookMoves board wtm ctx row col).2.pins, p ∈ ctx.pins := by
  intro p hp
  simp only [getRookMoves, apply_ite GenCtx.pins] at hp
  split at hp
  · exact removeLastMatch_subset ctx.pins row col p hp
  · exact hp

theorem getBishopMoves_pins (board : Board) (wtm : Bool)
    (ctx : GenCtx) (row col : Int) :
    ∀ p ∈ (getBishopMoves board wtm ctx row col).2.pins, p ∈ ctx.pins := by
  intro p hp
  exact removeLastMatch_subset ctx.pins row col p hp

theorem getKnightMoves_pins (board : Board) (wtm : Bool)
    (ctx : GenCtx) (row col : Int) :
    ∀ p ∈ (getKnightMoves board wtm ctx row col).2.pins, p ∈ ctx.pins := by
  intro p hp
  exact removeLastMatch_subset ctx.pins row col p hp

theorem getQueenMoves_pins (board : Board) (wtm : Bool)
    (ctx : GenCtx) (row col : Int) :
    ∀ p ∈ (getQueenMoves board wtm ctx row col).2.pins, p ∈ ctx.pins := by
  intro p hp
  exact getBishopMoves_pins board wtm ctx row col p
    (getRookMoves_pins board wtm (getBishopMoves board wtm ctx row col).2 row col p hp)

theorem getKingMoves_pins (board : Board) (wtm : Bool)
    (ctx : GenCtx) (row col : Int) :
    (getKingMoves board wtm ctx row col).2.pins = ctx.pins := by
  unfold getKingMoves
  refine foldl_pres_mem (fun acc : List Move × GenCtx => acc.2.pins = ctx.pins) _
    kingDirs ?_ ([], ctx) rfl
  intro acc m _ hP
  dsimp only
  repeat' split
  all_goals exact hP

theorem genSquare_pins (board : Board) (wtm : Bool) (enp : Int × Int)
    (acc : List Move × GenCtx) (r c : Int) :
    ∀ p ∈ (genSquare board wtm enp acc r c).2.pins, p ∈ acc.2.pins := by
  intro p hp
  unfold genSquare at hp
  dsimp only at hp
  split at hp
  · split at hp
    · exact getPawnMoves_pins board wtm enp acc.2 r c p hp
    · exact getRookMoves_pins board wtm acc.2 r c p hp
    · exact getKnightMoves_pins board wtm acc.2 r c p hp
    · exact getBishopMoves_pins board wtm acc.2 r c p hp
    · exact getQueenMoves_pins board wtm acc.2 r c p hp
    · rw [getKingMoves_pins board wtm acc.2 r c] at hp
      exact hp
    · exact hp
  · exact hp

theorem getAllPossibleMoves_pins (board : Board) (wtm : Bool)
    (enp : Int × Int) (ctx : GenCtx) :
    ∀ p ∈ (getAllPossibleMoves board wtm enp ctx).2.pins, p ∈ ctx.pins := by
  unfold getAllPossibleMoves
  refine foldl_pres_mem
    (fun acc : List Move × GenCtx => ∀ p ∈ acc.2.pins, p ∈ ctx.pins) _
    (List.range 8) ?_ ([], ctx) (fun p hp => hp)
  intro acc r _ hP
  refine foldl_pres_mem
    (fun acc : List Move × GenCtx => ∀ p ∈ acc.2.pins, p ∈ ctx.pins) _
    (List.range 8) ?_ acc hP
  intro acc2 c _ hP2 p hp
  exact hP2 p (genSquare_pins board wtm enp acc2 _ _ p hp)

theorem scanDirGo_pin_team (board : Board) (tc ec : Char) (sr sc : Int)
    (j : Nat) (d : Int × Int) :
    ∀ (fuel i : Nat) (pp : Option (Int × Int)) (pin : PinInfo),
      (∀ q, pp = some q → (getSq board q.1 q.2).color = tc) →
      (scanDirGo board tc ec sr sc j d i fuel pp).1 = some pin →
      (getSq board pin.row pin.col).color = tc := by
  intro fuel
  induction fuel with
  | zero => intro i pp pin _ h; exact absurd h (by simp [scanDirGo])
  | succ f ih =>
      intro i pp pin hpp h
      rw [scanDirGo.eq_def] at h
      dsimp only at h
      split at h
      · rename_i hbnd
        split at h
        · rename_i hteam
          split at h
          · refine ih (i + 1) _ pin (fun q' hq' => ?_) h
            injection hq' with hq''
            rw [← hq'']
            exact hteam.1
          · exact absurd h (by simp)
        · split at h
          · split at h
            · split at h
              · exact absurd h (by simp)
              · dsimp only at h
                injection h with h'
                rw [← h']
                exact hpp _ rfl
            · exact absurd h (by simp)
          · exact ih (i + 1) _ pin hpp h
      · exact absurd h (by simp)

theorem cfpc_pins_team (board : Board) (wtm : Bool) (wkl bkl : Int × Int) :
    ∀ p ∈ (checkForPinsAndChecks board wtm wkl bkl).pins,
      (getSq board p.row p.col).color = (if wtm then 'w' else 'b') := by
  cases wtm with
  | true =>
      unfold checkForPinsAndChecks
      simp only [eq_self_iff_true, if_true]
      refine foldl_pres_mem
        (fun acc : Bool × List PinInfo × List PinInfo =>
          ∀ p ∈ acc.2.1, (getSq board p.row p.col).color = 'w')
        _ knightDirs ?_ _ ?_
      · intro acc m _ hP
        dsimp only
        split
        · split
          · exact hP
          · exact hP
        · exact hP
      · refine foldl_pres_mem
          (fun acc : Bool × List PinInfo × List PinInfo =>
            ∀ p ∈ acc.2.1, (getSq board p.row p.col).color = 'w')
          _ (List.range 8) ?_ (false, [], []) ?_
        · intro acc j _ hP
          dsimp only
          rcases hscan : scanDirGo board 'w' 'b' wkl.1 wkl.2 j
              (directions8.getD j (0, 0)) 1 7 none with ⟨o, o2⟩
          cases o with
          | some pin =>
              dsimp only
              intro p hp
              rcases List.mem_append.mp hp with h | h
              · exact hP p h
              · have hpin : p = pin := by simpa using h
                subst hpin
                refine scanDirGo_pin_team board 'w' 'b' wkl.1 wkl.2 j
                  (directions8.getD j (0, 0)) 7 1 none p
                  (fun q hq => nomatch hq) ?_
                rw [hscan]
          | none =>
              cases o2 with
              | some chk => exact hP
              | none => exact hP
        · intro p hp
          exact absurd hp (List.not_mem_nil p)
  | false =>
      unfold checkForPinsAndChecks
      simp only [Bool.false_eq_true, if_false]
      refine foldl_pres_mem
        (fun acc : Bool × List PinInfo × List PinInfo =>
          ∀ p ∈ acc.2.1, (getSq board p.row p.col).color = 'b')
        _ knightDirs ?_ _ ?_
      · intro acc m _ hP
        dsimp only
        split
        · split
          · exact hP
          · exact hP
        · exact hP
      · refine foldl_pres_mem
          (fun acc : Bool × List PinInfo × List PinInfo =>
            ∀ p ∈ acc.2.1, (getSq board p.row p.col).color = 'b')
          _ (List.range 8) ?_ (false, [], []) ?_
        · intro acc j _ hP
          dsimp only
          rcases hscan : scanDirGo board 'b' 'w' bkl.1 bkl.2 j
              (directions8.getD j (0, 0)) 1 7 none with ⟨o, o2⟩
          cases o with
          | some pin =>
              dsimp only
              intro p hp
              rcases List.mem_append.mp hp with h | h
              · exact hP p h
              · have hpin : p = pin := by simpa using h
                subst hpin
                refine scanDirGo_pin_team board 'b' 'w' bkl.1 bkl.2 j
                  (directions8.getD j (0, 0)) 7 1 none p
                  (fun q hq => nomatch hq) ?_
                rw [hscan]
          | none =>
              cases o2 with
              | some chk => exact hP
              | none => exact hP
        · intro p hp
          exact absurd hp (List.not_mem_nil p)

theorem scanDirGo_pp_some (board : Board) (tc ec : Char) (sr sc : Int)
    (j : Nat) (d : Int × Int) :
    ∀ (fuel i : Nat) (q : Int × Int) (chk : PinInfo),
      scanDirGo board tc ec sr sc j d i fuel (some q) ≠ (none, some chk) := by
  intro fuel
  induction fuel with
  | zero => intro i q chk h; simp [scanDirGo] at h
  | succ f ih =>
      intro i q chk h
      rw [scanDirGo.eq_def] at h
      dsimp only at h
      split at h
      · split at h
        · exact absurd h (by simp)
        · split at h
          · split at h
            · exact absurd h (by simp)
            · exact absurd h (by simp)
          · exact ih (i + 1) q chk h
      · exact absurd h (by simp)

theorem canCheckType_cases (j k : Nat) (ec kind : Char)
    (h : canCheckType j k ec kind = true) :
    (j ≤ 3 ∧ kind = 'R') ∨ (4 ≤ j ∧ kind = 'B') ∨
    (k = 1 ∧ kind = 'p' ∧
      ((ec = 'w' ∧ 6 ≤ j ∧ j ≤ 7) ∨ (ec = 'b' ∧ 4 ≤ j ∧ j ≤ 5))) ∨
    kind = 'Q' ∨ (k = 1 ∧ kind = 'K') := by
  unfold canCheckType at h
  split_ifs at h with h1 h2 h3 h4 h5
  · exact Or.inl h1
  · exact Or.inr (Or.inl h2)
  · refine Or.inr (Or.inr (Or.inl ⟨h3.1, h3.2, ?_⟩))
    simpa using h
  · exact Or.inr (Or.inr (Or.inr (Or.inl h4)))
  · exact Or.inr (Or.inr (Or.inr (Or.inr h5)))

theorem scanDirGo_check_invert (board : Board) (tc ec : Char) (sr sc : Int)
    (j : Nat) (d : Int × Int) :
    ∀ (fuel i : Nat) (chk : PinInfo),
      scanDirGo board tc ec sr sc j d i fuel none = (none, some chk) →
      ∃ k : Nat, i ≤ k ∧ k < i + fuel ∧
        (0 ≤ sr + d.1 * k ∧ sr + d.1 * k ≤ 7 ∧
          0 ≤ sc + d.2 * k ∧ sc + d.2 * k ≤ 7) ∧
        (getSq board (sr + d.1 * k) (sc + d.2 * k)).color = ec ∧
        canCheckType j k ec (getSq board (sr + d.1 * k) (sc + d.2 * k)).kind = true ∧
        chk = ⟨sr + d.1 * k, sc + d.2 * k, d.1, d.2⟩ ∧
        ∀ l : Nat, i ≤ l → l < k →
          ¬((getSq board (sr + d.1 * l) (sc + d.2 * l)).color = tc ∧
            (getSq board (sr + d.1 * l) (sc + d.2 * l)).kind ≠ 'K') ∧
          ¬(getSq board (sr + d.1 * l) (sc + d.2 * l)).color = ec := by
  intro fuel
  induction fuel with
  | zero => intro i chk h; simp [scanDirGo] at h
  | succ f ih =>
      intro i chk h
      rw [scanDirGo.eq_def] at h
      dsimp only at h
      split at h
      · rename_i hbnd
        split at h
        · exact absurd h (scanDirGo_pp_some board tc ec sr sc j d f (i + 1) _ chk)
        · rename_i hnteam
          split at h
          · rename_i henemy
            split at h
            · rename_i hcheck
              have hchk : chk = ⟨sr + d.1 * i, sc + d.2 * i, d.1, d.2⟩ := by
                have h2 := h
                simp only [Prod.mk.injEq, Option.some.injEq] at h2
                exact h2.2.symm
              exact ⟨i, le_rfl, by omega, hbnd, henemy, hcheck, hchk,
                fun l hl1 hl2 => absurd (lt_of_le_of_lt hl1 hl2) (lt_irrefl _)⟩
            · exact absurd h (by simp)
          · rename_i hnenemy
            obtain ⟨k, hk1, hk2, hbd, hcol, hcc, hch, hint⟩ := ih (i + 1) chk h
            refine ⟨k, by omega, by omega, hbd, hcol, hcc, hch, ?_⟩
            intro l hl1 hl2
            by_cases hli : l = i
            · subst hli
              exact ⟨hnteam, hnenemy⟩
            · exact hint l (by omega) hl2
      · exact absurd h (by simp)

theorem foldl_flag_invert {α β : Type} (f : β → α → β) (flag : β → Bool)
    (P : α → Prop)
    (h : ∀ b a, flag (f b a) = true → flag b = true ∨ P a) :
    ∀ (l : List α) (b : β), flag (l.foldl f b) = true →
      flag b = true ∨ ∃ a ∈ l, P a := by
  intro l
  induction l with
  | nil => intro b hb; exact Or.inl hb
  | cons a rest ih =>
      intro b hb
      rcases ih (f b a) hb with h1 | ⟨a', ha', hPa⟩
      · rcases h b a h1 with h2 | h2
        · exact Or.inl h2
        · exact Or.inr ⟨a, List.mem_cons_self a rest, h2⟩
      · exact Or.inr ⟨a', List.mem_cons_of_mem a ha', hPa⟩

theorem foldl_append_mono {α β : Type} (g : α → List β) :
    ∀ (l : List α) (init : List β) (x : β), x ∈ init →
      x ∈ l.foldl (fun acc a => acc ++ g a) init := by
  intro l
  induction l with
  | nil => intro init x hx; exact hx
  | cons a rest ih =>
      intro init x hx
      exact ih _ x (List.mem_append_left _ hx)

theorem foldl_append_mem {α β : Type} (g : α → List β) :
    ∀ (l : List α) (init : List β) (a : α) (x : β), a ∈ l → x ∈ g a →
      x ∈ l.foldl (fun acc a => acc ++ g a) init := by
  intro l
  induction l with
  | nil => intro init a x ha _; exact absurd ha (List.not_mem_nil a)
  | cons b rest ih =>
      intro init a x ha hx
      rcases List.mem_cons.mp ha with rfl | ha'
      · exact foldl_append_mono g rest _ x (List.mem_append_right init hx)
      · exact ih _ a x ha' hx

theorem foldl_emits {α β : Type} (f : β → α → β) (P Q : β → Prop)
    (hP : ∀ b a, P b → P (f b a))
    (hQ : ∀ b a, Q b → Q (f b a))
    (a : α) (hintro : ∀ b, P b → Q (f b a)) :
    ∀ (l : List α) (b : β), a ∈ l → P b → Q (l.foldl f b) := by
  intro l
  induction l with
  | nil => intro b ha _; exact absurd ha (List.not_mem_nil a)
  | cons a0 rest ih =>
      intro b ha hPb
      rcases List.mem_cons.mp ha with rfl | ha'
      · exact foldl_pres_mem Q f rest (fun b' a' _ hq => hQ b' a' hq) (f b a)
          (hintro b hPb)
      · exact ih (f b a0) ha' (hP b a0 hPb)

theorem slideRay_hits (board : Board) (ec : Char) (row col : Int)
    (pd e : Int × Int) :
    ∀ (fuel i k : Nat), 1 ≤ i → i ≤ k → k < i + fuel →
      (∀ l : Nat, i ≤ l → l < k →
        (0 ≤ row + e.1 * l ∧ row + e.1 * l ≤ 7 ∧
          0 ≤ col + e.2 * l ∧ col + e.2 * l ≤ 7) ∧
        getSq board (row + e.1 * l) (col + e.2 * l) = emptyCell) →
      (0 ≤ row + e.1 * k ∧ row + e.1 * k ≤ 7 ∧
        0 ≤ col + e.2 * k ∧ col + e.2 * k ≤ 7) →
      getSq board (row + e.1 * k) (col + e.2 * k) ≠ emptyCell →
      (getSq board (row + e.1 * k) (col + e.2 * k)).color = ec →
      mkMove (row, col) (row + e.1 * k, col + e.2 * k) board false false ∈
        slideRay board ec row col false pd e i fuel := by
  intro fuel
  induction fuel with
  | zero => intro i k h1 h2 h3 _ _ _ _; exact absurd h3 (by omega)
  | succ f ih =>
      intro i k h1 h2 h3 hmid hbk hne hcol
      rw [slideRay.eq_def]
      dsimp only
      by_cases hik : i = k
      · subst hik
        rw [if_pos hbk, if_pos (Or.inl (by simp)), if_neg hne, if_pos hcol]
        exact List.mem_singleton.mpr rfl
      · have hmi := hmid i le_rfl (by omega)
        rw [if_pos hmi.1, if_pos (Or.inl (by simp)), if_pos hmi.2]
        exact List.mem_cons_of_mem _
          (ih (i + 1) k (by omega) (by omega) (by omega)
            (fun l hl1 hl2 => hmid l (by omega) hl2) hbk hne hcol)

theorem getRookMoves_emits (board : Board) (wtm : Bool) (ctx : GenCtx)
    (row col : Int)
    (hnopin : (removeLastMatch ctx.pins row col).1 = none)
    (x : Move) (e : Int × Int) (he : e ∈ rookDirs)
    (hx : x ∈ slideRay board (if wtm then 'b' else 'w') row col false (0, 0) e 1 7) :
    x ∈ (getRookMoves board wtm ctx row col).1 := by
  simp only [getRookMoves, hnopin, Option.isSome_none]
  exact foldl_append_mem _ rookDirs [] e x he hx

theorem getBishopMoves_emits (board : Board) (wtm : Bool) (ctx : GenCtx)
    (row col : Int)
    (hnopin : (removeLastMatch ctx.pins row col).1 = none)
    (x : Move) (e : Int × Int) (he : e ∈ bishopDirs)
    (hx : x ∈ slideRay board (if wtm then 'b' else 'w') row col false (0, 0) e 1 7) :
    x ∈ (getBishopMoves board wtm ctx row col).1 := by
  simp only [getBishopMoves, hnopin, Option.isSome_none]
  exact foldl_append_mem _ bishopDirs [] e x he hx

theorem getQueenMoves_emits (board : Board) (wtm : Bool) (ctx : GenCtx)
    (row col : Int) (x : Move)
    (h : x ∈ (getBishopMoves board wtm ctx row col).1 ∨
      x ∈ (getRookMoves board wtm (getBishopMoves board wtm ctx row col).2 row col).1) :
    x ∈ (getQueenMoves board wtm ctx row col).1 := by
  unfold getQueenMoves
  dsimp only
  rcases h with h | h
  · exact List.mem_append_left _ h
  · exact List.mem_append_right _ h

theorem getKnightMoves_emits (board : Board) (wtm : Bool) (ctx : GenCtx)
    (row col : Int)
    (hnopin : (removeLastMatch ctx.pins row col).1 = none)
    (m' : Int × Int) (hm : m' ∈ knightDirs)
    (hbnd : 0 ≤ row + m'.1 ∧ row + m'.1 ≤ 7 ∧ 0 ≤ col + m'.2 ∧ col + m'.2 ≤ 7)
    (hcol : ¬(getSq board (row + m'.1) (col + m'.2)).color =
      (if wtm then 'w' else 'b')) :
    mkMove (row, col) (row + m'.1, col + m'.2) board false false ∈
      (getKnightMoves board wtm ctx row col).1 := by
  simp only [getKnightMoves, hnopin, Option.isSome_none]
  refine foldl_emits _ (fun _ => True) (fun acc =>
      mkMove (row, col) (row + m'.1, col + m'.2) board false false ∈ acc)
    (fun _ _ _ => trivial) ?_ m' ?_ knightDirs [] hm trivial
  · intro acc a hq
    dsimp only
    repeat' split
    all_goals first
      | exact List.mem_append_left _ hq
      | exact hq
  · intro acc _
    dsimp only
    rw [if_pos hbnd, if_pos (by simp), if_pos hcol]
    exact List.mem_append_right _ (List.mem_singleton.mpr rfl)

theorem getPawnMoves_emits_capL (board : Board) (wtm : Bool) (enp : Int × Int)
    (ctx : GenCtx) (row col : Int)
    (hnopin : (removeLastMatch ctx.pins row col).1 = none)
    (hbnd : 0 ≤ row + (if wtm then (-1 : Int) else 1) ∧
      row + (if wtm then (-1 : Int) else 1) ≤ 7)
    (hcl : col - 1 ≥ 0)
    (hcol : (getSq board (row + (if wtm then (-1 : Int) else 1)) (col - 1)).color =
      (if wtm then 'b' else 'w')) :
    mkMove (row, col) (row + (if wtm then (-1 : Int) else 1), col - 1)
        board false false ∈
      (getPawnMoves board wtm enp ctx row col).1 := by
  simp only [getPawnMoves, hnopin, Option.isSome_none,
    apply_ite (fun p : List Move × GenCtx => p.1)]
  rw [if_pos hbnd]
  refine List.mem_append_left _ (List.mem_append_right _ ?_)
  rw [if_pos hcl, if_pos (Or.inl (by simp))]
  refine List.mem_append_left _ ?_
  rw [if_pos hcol]
  exact List.mem_singleton.mpr rfl

theorem getPawnMoves_emits_capR (board : Board) (wtm : Bool) (enp : Int × Int)
    (ctx : GenCtx) (row col : Int)
    (hnopin : (removeLastMatch ctx.pins row col).1 = none)
    (hbnd : 0 ≤ row + (if wtm then (-1 : Int) else 1) ∧
      row + (if wtm then (-1 : Int) else 1) ≤ 7)
    (hcr : col + 1 ≤ 7)
    (hcol : (getSq board (row + (if wtm then (-1 : Int) else 1)) (col + 1)).color =
      (if wtm then 'b' else 'w')) :
    mkMove (row, col) (row + (if wtm then (-1 : Int) else 1), col + 1)
        board false false ∈
      (getPawnMoves board wtm enp ctx row col).1 := by
  simp only [getPawnMoves, hnopin, Option.isSome_none,
    apply_ite (fun p : List Move × GenCtx => p.1)]
  rw [if_pos hbnd]
  refine List.mem_append_right _ ?_
  rw [if_pos hcr, if_pos (Or.inl (by simp))]
  refine List.mem_append_left _ ?_
  rw [if_pos hcol]
  exact List.mem_singleton.mpr rfl

theorem genSquare_mono (board : Board) (wtm : Bool) (enp : Int × Int)
    (acc : List Move × GenCtx) (r c : Int) (x : Move)
    (hx : x ∈ acc.1) : x ∈ (genSquare board wtm enp acc r c).1 := by
  unfold genSquare
  dsimp only
  repeat' split
  all_goals first | exact List.mem_append_left _ hx | exact hx

theorem genSquare_emits_p (board : Board) (wtm : Bool) (enp : Int × Int)
    (acc : List Move × GenCtx) (r c : Int) (x : Move)
    (hkind : (getSq board r c).kind = 'p')
    (hguard : ((getSq board r c).color = 'w' ∧ wtm = true) ∨
              ((getSq board r c).color = 'b' ∧ ¬wtm = true))
    (hx : x ∈ (getPawnMoves board wtm enp acc.2 r c).1) :
    x ∈ (genSquare board wtm enp acc r c).1 := by
  unfold genSquare
  dsimp only
  rw [if_pos hguard]
  simp only [hkind]
  exact List.mem_append_right _ hx

theorem genSquare_emits_R (board : Board) (wtm : Bool) (enp : Int × Int)
    (acc : List Move × GenCtx) (r c : Int) (x : Move)
    (hkind : (getSq board r c).kind = 'R')
    (hguard : ((getSq board r c).color = 'w' ∧ wtm = true) ∨
              ((getSq board r c).color = 'b' ∧ ¬wtm = true))
    (hx : x ∈ (getRookMoves board wtm acc.2 r c).1) :
    x ∈ (genSquare board wtm enp acc r c).1 := by
  unfold genSquare
  dsimp only
  rw [if_pos hguard]
  simp only [hkind]
  exact List.mem_append_right _ hx

theorem genSquare_emits_N (board : Board) (wtm : Bool) (enp : Int × Int)
    (acc : List Move × GenCtx) (r c : Int) (x : Move)
    (hkind : (getSq board r c).kind = 'N')
    (hguard : ((getSq board r c).color = 'w' ∧ wtm = true) ∨
              ((getSq board r c).color = 'b' ∧ ¬wtm = true))
    (hx : x ∈ (getKnightMoves board wtm acc.2 r c).1) :
    x ∈ (genSquare board wtm enp acc r c).1 := by
  unfold genSquare
  dsimp only
  rw [if_pos hguard]
  simp only [hkind]
  exact List.mem_append_right _ hx

theorem genSquare_emits_B (board : Board) (wtm : Bool) (enp : Int × Int)
    (acc : List Move × GenCtx) (r c : Int) (x : Move)
    (hkind : (getSq board r c).kind = 'B')
    (hguard : ((getSq board r c).color = 'w' ∧ wtm = true) ∨
              ((getSq board r c).color = 'b' ∧ ¬wtm = true))
    (hx : x ∈ (getBishopMoves board wtm acc.2 r c).1) :
    x ∈ (genSquare board wtm enp acc r c).1 := by
  unfold genSquare
  dsimp only
  rw [if_pos hguard]
  simp only [hkind]
  exact List.mem_append_right _ hx

theorem genSquare_emits_Q (board : Board) (wtm : Bool) (enp : Int × Int)
    (acc : List Move × GenCtx) (r c : Int) (x : Move)
    (hkind : (getSq board r c).kind = 'Q')
    (hguard : ((getSq board r c).color = 'w' ∧ wtm = true) ∨
              ((getSq board r c).color = 'b' ∧ ¬wtm = true))
    (hx : x ∈ (getQueenMoves board wtm acc.2 r c).1) :
    x ∈ (genSquare board wtm enp acc r c).1 := by
  unfold genSquare
  dsimp only
  rw [if_pos hguard]
  simp only [hkind]
  exact List.mem_append_right _ hx

theorem getAllPossibleMoves_emits (board : Board) (wtm : Bool)
    (enp : Int × Int) (ctx : GenCtx) (tcOur : Char)
    (hpins : ∀ p ∈ ctx.pins, (getSq board p.row p.col).color = tcOur)
    (r c : Nat) (hr : r < 8) (hc : c < 8) (x : Move)
    (hemit : ∀ acc : List Move × GenCtx,
      (∀ p ∈ acc.2.pins, (getSq board p.row p.col).color = tcOur) →
      x ∈ (genSquare board wtm enp acc (Int.ofNat r) (Int.ofNat c)).1) :
    x ∈ (getAllPossibleMoves board wtm enp ctx).1 := by
  unfold getAllPossibleMoves
  refine foldl_emits _
    (fun acc : List Move × GenCtx =>
      ∀ p ∈ acc.2.pins, (getSq board p.row p.col).color = tcOur)
    (fun acc : List Move × GenCtx => x ∈ acc.1)
    ?_ ?_ r ?_ (List.range 8) ([], ctx) (List.mem_range.mpr hr) hpins
  · intro b a hPb
    refine foldl_pres_mem
      (fun acc : List Move × GenCtx =>
        ∀ p ∈ acc.2.pins, (getSq board p.row p.col).color = tcOur)
      _ (List.range 8) ?_ b hPb
    intro b' a' _ hPb' p hp
    exact hPb' p (genSquare_pins board wtm enp b' _ _ p hp)
  · intro b a hQb
    refine foldl_pres_mem
      (fun acc : List Move × GenCtx => x ∈ acc.1)
      _ (List.range 8) ?_ b hQb
    intro b' a' _ hQb'
    exact genSquare_mono board wtm enp b' _ _ x hQb'
  · intro b hPb
    refine foldl_emits _
      (fun acc : List Move × GenCtx =>
        ∀ p ∈ acc.2.pins, (getSq board p.row p.col).color = tcOur)
      (fun acc : List Move × GenCtx => x ∈ acc.1)
      ?_ ?_ c ?_ (List.range 8) b (List.mem_range.mpr hc) hPb
    · intro b' a' hPb' p hp
      exact hPb' p (genSquare_pins board wtm enp b' _ _ p hp)
    · intro b' a' hQb'
      exact genSquare_mono board wtm enp b' _ _ x hQb'
    · intro b' hPb'
      exact hemit b' hPb'

/-- Every square holds one of the thirteen legitimate cell values.  Every
state the program constructs satisfies this (the constructor writes only
these values and `makeMove`/`undoMove` move them around). -/
def BoardCells (board : Board) : Prop :=
  ∀ r : Nat, r < 8 → ∀ c : Nat, c < 8 →
    getSq board (Int.ofNat r) (Int.ofNat c) ∈
      [emptyCell, wK, wQ, wR, wB, wN, wp, bK, bQ, bR, bB, bN, bp]

instance (board : Board) : Decidable (BoardCells board) := by
  unfold BoardCells; infer_instance

theorem getSq_toNat (board : Board) (r c : Int) :
    getSq board r c = getSq board (Int.ofNat r.toNat) (Int.ofNat c.toNat) := rfl

theorem BoardCells_get (board : Board) (hcells : BoardCells board) (r c : Int)
    (h : 0 ≤ r ∧ r ≤ 7 ∧ 0 ≤ c ∧ c ≤ 7) :
    getSq board r c ∈ [emptyCell, wK, wQ, wR, wB, wN, wp, bK, bQ, bR, bB, bN, bp] := by
  rw [getSq_toNat board r c]
  exact hcells r.toNat (by omega) c.toNat (by omega)

theorem KingCoh_apply (board : Board) (K : Cell) (loc : Int × Int)
    (hcoh : KingCoh board K loc) (r c : Int)
    (h : 0 ≤ r ∧ r ≤ 7 ∧ 0 ≤ c ∧ c ≤ 7) (hK : getSq board r c = K) :
    r = loc.1 ∧ c = loc.2 := by
  rw [getSq_toNat board r c] at hK
  have h0 := hcoh r.toNat (by omega) c.toNat (by omega) hK
  have hr : Int.ofNat r.toNat = r := Int.toNat_of_nonneg h.1
  have hc : Int.ofNat c.toNat = c := Int.toNat_of_nonneg h.2.2.1
  have h1 := congrArg Prod.fst h0
  have h2 := congrArg Prod.snd h0
  dsimp only at h1 h2
  rw [hr] at h1
  rw [hc] at h2
  exact ⟨h1, h2⟩

theorem getSq_row_oob (board : Board) (r c : Int) (h : board.length ≤ r.toNat) :
    getSq board r c = emptyCell := by
  unfold getSq
  rw [List.getD_eq_getElem?_getD board, List.getElem?_eq_none h, Option.getD_none]
  rfl

theorem getSq_col_oob (board : Board) (r c : Int)
    (h : (board.getD r.toNat []).length ≤ c.toNat) :
    getSq board r c = emptyCell := by
  unfold getSq
  rw [List.getD_eq_getElem?_getD (board.getD r.toNat []),
    List.getElem?_eq_none h, Option.getD_none]

theorem king_loc_bounds (board : Board) (hBO : BoardOK board) (K : Cell)
    (loc : Int × Int) (hcoh : KingCoh board K loc)
    (hk : getSq board loc.1 loc.2 = K) (hKne : K ≠ emptyCell) :
    0 ≤ loc.1 ∧ loc.1 ≤ 7 ∧ 0 ≤ loc.2 ∧ loc.2 ≤ 7 := by
  have hlen := hBO.1
  have ht1 : loc.1.toNat < 8 := by
    by_contra hge
    apply hKne
    rw [← hk]
    exact getSq_row_oob board loc.1 loc.2 (by omega)
  have hrow : (board.getD loc.1.toNat []).length = 8 := by
    apply hBO.2
    rw [List.getD_eq_getElem?_getD, List.getElem?_eq_getElem (by omega)]
    simp only [Option.getD_some]
    exact List.getElem_mem (by omega)
  have ht2 : loc.2.toNat < 8 := by
    by_contra hge
    apply hKne
    rw [← hk]
    exact getSq_col_oob board loc.1 loc.2 (by omega)
  have hK' : getSq board (Int.ofNat loc.1.toNat) (Int.ofNat loc.2.toNat) = K := by
    rw [← getSq_toNat]
    exact hk
  have h0 := hcoh loc.1.toNat ht1 loc.2.toNat ht2 hK'
  have h1 := congrArg Prod.fst h0
  have h2 := congrArg Prod.snd h0
  dsimp only at h1 h2
  have h1' : ((loc.1.toNat : Nat) : Int) = loc.1 := h1
  have h2' : ((loc.2.toNat : Nat) : Int) = loc.2 := h2
  omega

theorem cell_is_empty_w (cell : Cell)
    (hmem : cell ∈ [emptyCell, wK, wQ, wR, wB, wN, wp, bK, bQ, bR, bB, bN, bp])
    (h1 : ¬(cell.color = 'w' ∧ cell.kind ≠ 'K'))
    (h2 : ¬cell.color = 'b')
    (hnotK : cell ≠ wK) :
    cell = emptyCell := by
  fin_cases hmem <;> revert h1 h2 hnotK <;> decide

theorem cell_is_empty_b (cell : Cell)
    (hmem : cell ∈ [emptyCell, wK, wQ, wR, wB, wN, wp, bK, bQ, bR, bB, bN, bp])
    (h1 : ¬(cell.color = 'b' ∧ cell.kind ≠ 'K'))
    (h2 : ¬cell.color = 'w')
    (hnotK : cell ≠ bK) :
    cell = emptyCell := by
  fin_cases hmem <;> revert h1 h2 hnotK <;> decide

theorem cell_bK_of (cell : Cell)
    (hmem : cell ∈ [emptyCell, wK, wQ, wR, wB, wN, wp, bK, bQ, bR, bB, bN, bp])
    (hcol : cell.color = 'b') (hkind : cell.kind = 'K') : cell = bK := by
  fin_cases hmem <;> revert hcol hkind <;> decide

theorem cell_wK_of (cell : Cell)
    (hmem : cell ∈ [emptyCell, wK, wQ, wR, wB, wN, wp, bK, bQ, bR, bB, bN, bp])
    (hcol : cell.color = 'w') (hkind : cell.kind = 'K') : cell = wK := by
  fin_cases hmem <;> revert hcol hkind <;> decide

theorem knightDirs_neg {m : Int × Int} (hm : m ∈ knightDirs) :
    (-m.1, -m.2) ∈ knightDirs := by
  fin_cases hm <;> decide


/-! ### C5: synthesising an attacking move from a reported check

`checkForPinsAndChecks` reports a check by scanning outward from the
king; the lemmas below rebuild, from such a report, a concrete
pseudo-legal move of the opposite side that ends on the king's square,
so that `squareUnderAttack` on the king's square answers `true`. -/

theorem pins_none_at (board : Board) (pins : List PinInfo) (tc : Char)
    (hpins : ∀ p ∈ pins, (getSq board p.row p.col).color = tc)
    (r c : Int) (hcol : ¬(getSq board r c).color = tc) :
    (removeLastMatch pins r c).1 = none := by
  apply removeLastMatch_none
  intro p hp hpc
  apply hcol
  rw [← hpc.1, ← hpc.2]
  exact hpins p hp

theorem mover_guard (cell : Cell) (wtmA : Bool)
    (h : cell.color = (if wtmA then 'w' else 'b')) :
    (cell.color = 'w' ∧ wtmA = true) ∨ (cell.color = 'b' ∧ ¬wtmA = true) := by
  cases wtmA with
  | true => exact Or.inl ⟨by simpa using h, rfl⟩
  | false => exact Or.inr ⟨by simpa using h, by simp⟩

theorem ray_step_bounds (s dd : Int) (k l : Nat) (hdd : -1 ≤ dd ∧ dd ≤ 1)
    (hs : 0 ≤ s ∧ s ≤ 7)
    (ha : 0 ≤ s + dd * (k : Int) ∧ s + dd * (k : Int) ≤ 7)
    (hl : l ≤ k) : 0 ≤ s + dd * (l : Int) ∧ s + dd * (l : Int) ≤ 7 := by
  have h3 : dd = -1 ∨ dd = 0 ∨ dd = 1 := by omega
  rcases h3 with h | h | h <;> subst h <;> omega

theorem dirs8_bounds (j : Nat) (hj : j < 8) :
    -1 ≤ (directions8.getD j (0, 0)).1 ∧ (directions8.getD j (0, 0)).1 ≤ 1 ∧
    -1 ≤ (directions8.getD j (0, 0)).2 ∧ (directions8.getD j (0, 0)).2 ≤ 1 ∧
    ¬((directions8.getD j (0, 0)).1 = 0 ∧ (directions8.getD j (0, 0)).2 = 0) := by
  interval_cases j <;> decide

theorem dirs8_neg_rook (j : Nat) (hj : j ≤ 3) :
    (-(directions8.getD j (0, 0)).1, -(directions8.getD j (0, 0)).2) ∈ rookDirs := by
  interval_cases j <;> decide

theorem dirs8_neg_bishop (j : Nat) (h4 : 4 ≤ j) (hj : j < 8) :
    (-(directions8.getD j (0, 0)).1, -(directions8.getD j (0, 0)).2) ∈ bishopDirs := by
  interval_cases j <;> decide

theorem slideRay_hits_king (board : Board) (ecM : Char) (sr sc : Int)
    (d : Int × Int) (k : Nat) (hk1 : 1 ≤ k) (hk8 : k < 8)
    (hsr : 0 ≤ sr ∧ sr ≤ 7 ∧ 0 ≤ sc ∧ sc ≤ 7)
    (hmidE : ∀ l : Nat, 1 ≤ l → l < k →
      (0 ≤ sr + d.1 * (l : Int) ∧ sr + d.1 * (l : Int) ≤ 7 ∧
        0 ≤ sc + d.2 * (l : Int) ∧ sc + d.2 * (l : Int) ≤ 7) ∧
      getSq board (sr + d.1 * (l : Int)) (sc + d.2 * (l : Int)) = emptyCell)
    (hTne : getSq board sr sc ≠ emptyCell)
    (hTcol : (getSq board sr sc).color = ecM) :
    mkMove (sr + d.1 * (k : Int), sc + d.2 * (k : Int)) (sr, sc) board false false ∈
      slideRay board ecM (sr + d.1 * (k : Int)) (sc + d.2 * (k : Int)) false (0, 0)
        (-d.1, -d.2) 1 7 := by
  have key : ∀ l : Nat, l ≤ k →
      (sr + d.1 * (k : Int) + (-d.1, -d.2).1 * (l : Int) =
        sr + d.1 * ((k - l : Nat) : Int)) ∧
      (sc + d.2 * (k : Int) + (-d.1, -d.2).2 * (l : Int) =
        sc + d.2 * ((k - l : Nat) : Int)) := by
    intro l hl
    have hcast : ((k - l : Nat) : Int) = (k : Int) - (l : Int) := by omega
    constructor <;> (dsimp only; rw [hcast]; ring)
  have hk0 := key k le_rfl
  have hkk : ((k - k : Nat) : Int) = 0 := by omega
  have ht1 : sr + d.1 * (k : Int) + (-d.1, -d.2).1 * (k : Int) = sr := by
    rw [hk0.1, hkk]; ring
  have ht2 : sc + d.2 * (k : Int) + (-d.1, -d.2).2 * (k : Int) = sc := by
    rw [hk0.2, hkk]; ring
  have hmid : ∀ l : Nat, 1 ≤ l → l < k →
      (0 ≤ sr + d.1 * (k : Int) + (-d.1, -d.2).1 * (l : Int) ∧
        sr + d.1 * (k : Int) + (-d.1, -d.2).1 * (l : Int) ≤ 7 ∧
        0 ≤ sc + d.2 * (k : Int) + (-d.1, -d.2).2 * (l : Int) ∧
        sc + d.2 * (k : Int) + (-d.1, -d.2).2 * (l : Int) ≤ 7) ∧
      getSq board (sr + d.1 * (k : Int) + (-d.1, -d.2).1 * (l : Int))
        (sc + d.2 * (k : Int) + (-d.1, -d.2).2 * (l : Int)) = emptyCell := by
    intro l hl1 hl2
    have hkl := key l (by omega)
    rw [hkl.1, hkl.2]
    exact hmidE (k - l) (by omega) (by omega)
  have hbk : 0 ≤ sr + d.1 * (k : Int) + (-d.1, -d.2).1 * (k : Int) ∧
      sr + d.1 * (k : Int) + (-d.1, -d.2).1 * (k : Int) ≤ 7 ∧
      0 ≤ sc + d.2 * (k : Int) + (-d.1, -d.2).2 * (k : Int) ∧
      sc + d.2 * (k : Int) + (-d.1, -d.2).2 * (k : Int) ≤ 7 := by
    rw [ht1, ht2]
    exact ⟨hsr.1, hsr.2.1, hsr.2.2.1, hsr.2.2.2⟩
  have hne : getSq board (sr + d.1 * (k : Int) + (-d.1, -d.2).1 * (k : Int))
      (sc + d.2 * (k : Int) + (-d.1, -d.2).2 * (k : Int)) ≠ emptyCell := by
    rw [ht1, ht2]; exact hTne
  have hcol : (getSq board (sr + d.1 * (k : Int) + (-d.1, -d.2).1 * (k : Int))
      (sc + d.2 * (k : Int) + (-d.1, -d.2).2 * (k : Int))).color = ecM := by
    rw [ht1, ht2]; exact hTcol
  have hfin := slideRay_hits board ecM (sr + d.1 * (k : Int)) (sc + d.2 * (k : Int))
    (0, 0) (-d.1, -d.2) 7 1 k le_rfl hk1 (by omega) hmid hbk hne hcol
  rw [ht1, ht2] at hfin
  exact hfin

theorem square_attack_R (board : Board) (wtmA : Bool) (enp : Int × Int)
    (acc : List Move × GenCtx) (tc : Char)
    (htc : ¬(if wtmA then 'w' else 'b') = tc)
    (hpins : ∀ p ∈ acc.2.pins, (getSq board p.row p.col).color = tc)
    (ar ac : Int)
    (hecol : (getSq board ar ac).color = (if wtmA then 'w' else 'b'))
    (hkindA : (getSq board ar ac).kind = 'R')
    (e : Int × Int) (he : e ∈ rookDirs) (x : Move)
    (hx : x ∈ slideRay board (if wtmA then 'b' else 'w') ar ac false (0, 0) e 1 7) :
    x ∈ (genSquare board wtmA enp acc ar ac).1 := by
  have hnopin : (removeLastMatch acc.2.pins ar ac).1 = none :=
    pins_none_at board acc.2.pins tc hpins ar ac (by rw [hecol]; exact htc)
  exact genSquare_emits_R board wtmA enp acc ar ac x hkindA
    (mover_guard _ wtmA hecol)
    (getRookMoves_emits board wtmA acc.2 ar ac hnopin x e he hx)

theorem square_attack_B (board : Board) (wtmA : Bool) (enp : Int × Int)
    (acc : List Move × GenCtx) (tc : Char)
    (htc : ¬(if wtmA then 'w' else 'b') = tc)
    (hpins : ∀ p ∈ acc.2.pins, (getSq board p.row p.col).color = tc)
    (ar ac : Int)
    (hecol : (getSq board ar ac).color = (if wtmA then 'w' else 'b'))
    (hkindA : (getSq board ar ac).kind = 'B')
    (e : Int × Int) (he : e ∈ bishopDirs) (x : Move)
    (hx : x ∈ slideRay board (if wtmA then 'b' else 'w') ar ac false (0, 0) e 1 7) :
    x ∈ (genSquare board wtmA enp acc ar ac).1 := by
  have hnopin : (removeLastMatch acc.2.pins ar ac).1 = none :=
    pins_none_at board acc.2.pins tc hpins ar ac (by rw [hecol]; exact htc)
  exact genSquare_emits_B board wtmA enp acc ar ac x hkindA
    (mover_guard _ wtmA hecol)
    (getBishopMoves_emits board wtmA acc.2 ar ac hnopin x e he hx)

theorem square_attack_Q (board : Board) (wtmA : Bool) (enp : Int × Int)
    (acc : List Move × GenCtx) (tc : Char)
    (htc : ¬(if wtmA then 'w' else 'b') = tc)
    (hpins : ∀ p ∈ acc.2.pins, (getSq board p.row p.col).color = tc)
    (ar ac : Int)
    (hecol : (getSq board ar ac).color = (if wtmA then 'w' else 'b'))
    (hkindA : (getSq board ar ac).kind = 'Q')
    (e : Int × Int) (he : e ∈ rookDirs ∨ e ∈ bishopDirs) (x : Move)
    (hx : x ∈ slideRay board (if wtmA then 'b' else 'w') ar ac false (0, 0) e 1 7) :
    x ∈ (genSquare board wtmA enp acc ar ac).1 := by
  have hcne : ¬(getSq board ar ac).color = tc := by rw [hecol]; exact htc
  have hnopinB : (removeLastMatch acc.2.pins ar ac).1 = none :=
    pins_none_at board acc.2.pins tc hpins ar ac hcne
  have hnopinR :
      (removeLastMatch (getBishopMoves board wtmA acc.2 ar ac).2.pins ar ac).1 = none :=
    pins_none_at board _ tc
      (fun p hp => hpins p (getBishopMoves_pins board wtmA acc.2 ar ac p hp)) ar ac hcne
  refine genSquare_emits_Q board wtmA enp acc ar ac x hkindA
    (mover_guard _ wtmA hecol)
    (getQueenMoves_emits board wtmA acc.2 ar ac x ?_)
  rcases he with he | he
  · exact Or.inr (getRookMoves_emits board wtmA _ ar ac hnopinR x e he hx)
  · exact Or.inl (getBishopMoves_emits board wtmA acc.2 ar ac hnopinB x e he hx)

theorem square_attack_N (board : Board) (wtmA : Bool) (enp : Int × Int)
    (acc : List Move × GenCtx) (tc : Char)
    (htc : ¬(if wtmA then 'w' else 'b') = tc)
    (hpins : ∀ p ∈ acc.2.pins, (getSq board p.row p.col).color = tc)
    (ar ac : Int)
    (hecol : (getSq board ar ac).color = (if wtmA then 'w' else 'b'))
    (hkindA : (getSq board ar ac).kind = 'N')
    (m' : Int × Int) (hm' : m' ∈ knightDirs)
    (hbnd : 0 ≤ ar + m'.1 ∧ ar + m'.1 ≤ 7 ∧ 0 ≤ ac + m'.2 ∧ ac + m'.2 ≤ 7)
    (hcolT : ¬(getSq board (ar + m'.1) (ac + m'.2)).color = (if wtmA then 'w' else 'b')) :
    mkMove (ar, ac) (ar + m'.1, ac + m'.2) board false false ∈
      (genSquare board wtmA enp acc ar ac).1 := by
  have hnopin : (removeLastMatch acc.2.pins ar ac).1 = none :=
    pins_none_at board acc.2.pins tc hpins ar ac (by rw [hecol]; exact htc)
  exact genSquare_emits_N board wtmA enp acc ar ac _ hkindA
    (mover_guard _ wtmA hecol)
    (getKnightMoves_emits board wtmA acc.2 ar ac hnopin m' hm' hbnd hcolT)

theorem square_attack_pL (board : Board) (wtmA : Bool) (enp : Int × Int)
    (acc : List Move × GenCtx) (tc : Char)
    (htc : ¬(if wtmA then 'w' else 'b') = tc)
    (hpins : ∀ p ∈ acc.2.pins, (getSq board p.row p.col).color = tc)
    (ar ac : Int)
    (hecol : (getSq board ar ac).color = (if wtmA then 'w' else 'b'))
    (hkindA : (getSq board ar ac).kind = 'p')
    (hbnd : 0 ≤ ar + (if wtmA then (-1 : Int) else 1) ∧
      ar + (if wtmA then (-1 : Int) else 1) ≤ 7)
    (hcl : ac - 1 ≥ 0)
    (hcolT : (getSq board (ar + (if wtmA then (-1 : Int) else 1)) (ac - 1)).color =
      (if wtmA then 'b' else 'w')) :
    mkMove (ar, ac) (ar + (if wtmA then (-1 : Int) else 1), ac - 1) board false false ∈
      (genSquare board wtmA enp acc ar ac).1 := by
  have hnopin : (removeLastMatch acc.2.pins ar ac).1 = none :=
    pins_none_at board acc.2.pins tc hpins ar ac (by rw [hecol]; exact htc)
  exact genSquare_emits_p board wtmA enp acc ar ac _ hkindA
    (mover_guard _ wtmA hecol)
    (getPawnMoves_emits_capL board wtmA enp acc.2 ar ac hnopin hbnd hcl hcolT)

theorem square_attack_pR (board : Board) (wtmA : Bool) (enp : Int × Int)
    (acc : List Move × GenCtx) (tc : Char)
    (htc : ¬(if wtmA then 'w' else 'b') = tc)
    (hpins : ∀ p ∈ acc.2.pins, (getSq board p.row p.col).color = tc)
    (ar ac : Int)
    (hecol : (getSq board ar ac).color = (if wtmA then 'w' else 'b'))
    (hkindA : (getSq board ar ac).kind = 'p')
    (hbnd : 0 ≤ ar + (if wtmA then (-1 : Int) else 1) ∧
      ar + (if wtmA then (-1 : Int) else 1) ≤ 7)
    (hcr : ac + 1 ≤ 7)
    (hcolT : (getSq board (ar + (if wtmA then (-1 : Int) else 1)) (ac + 1)).color =
      (if wtmA then 'b' else 'w')) :
    mkMove (ar, ac) (ar + (if wtmA then (-1 : Int) else 1), ac + 1) board false false ∈
      (genSquare board wtmA enp acc ar ac).1 := by
  have hnopin : (removeLastMatch acc.2.pins ar ac).1 = none :=
    pins_none_at board acc.2.pins tc hpins ar ac (by rw [hecol]; exact htc)
  exact genSquare_emits_p board wtmA enp acc ar ac _ hkindA
    (mover_guard _ wtmA hecol)
    (getPawnMoves_emits_capR board wtmA enp acc.2 ar ac hnopin hbnd hcr hcolT)

theorem apm_attack (board : Board) (wtmA : Bool) (enp : Int × Int) (ctx : GenCtx)
    (tc : Char)
    (hpins : ∀ p ∈ ctx.pins, (getSq board p.row p.col).color = tc)
    (ar ac : Int) (hab : 0 ≤ ar ∧ ar ≤ 7 ∧ 0 ≤ ac ∧ ac ≤ 7)
    (x : Move)
    (hemit : ∀ acc : List Move × GenCtx,
      (∀ p ∈ acc.2.pins, (getSq board p.row p.col).color = tc) →
      x ∈ (genSquare board wtmA enp acc ar ac).1) :
    x ∈ (getAllPossibleMoves board wtmA enp ctx).1 := by
  refine getAllPossibleMoves_emits board wtmA enp ctx tc hpins
    ar.toNat ac.toNat (by omega) (by omega) x ?_
  intro acc hacc
  have h1 : Int.ofNat ar.toNat = ar := Int.toNat_of_nonneg hab.1
  have h2 : Int.ofNat ac.toNat = ac := Int.toNat_of_nonneg hab.2.2.1
  rw [h1, h2]
  exact hemit acc hacc

theorem squareUnderAttack_of_mem (board : Board) (wtm : Bool) (enp : Int × Int)
    (ctx : GenCtx) (row col : Int) (x : Move)
    (hx : x ∈ (getAllPossibleMoves board (!wtm) enp ctx).1)
    (h1 : x.endRow = row) (h2 : x.endCol = col) :
    (squareUnderAttack board wtm enp ctx row col).1 = true := by
  unfold squareUnderAttack
  dsimp only
  rw [List.any_eq_true]
  exact ⟨x, hx, by rw [h1, h2]; simp⟩


theorem ray_check_attack (board : Board) (wtmA : Bool) (enp : Int × Int)
    (ctx : GenCtx) (tc ec : Char)
    (htcec : (tc = 'w' ∧ ec = 'b' ∧ wtmA = false) ∨
             (tc = 'b' ∧ ec = 'w' ∧ wtmA = true))
    (hcells : BoardCells board)
    (hpins : ∀ p ∈ ctx.pins, (getSq board p.row p.col).color = tc)
    (sr sc : Int) (hsr : 0 ≤ sr ∧ sr ≤ 7 ∧ 0 ≤ sc ∧ sc ≤ 7)
    (hTne : getSq board sr sc ≠ emptyCell)
    (hTcol : (getSq board sr sc).color = tc)
    (hteamK : ∀ r c : Int, (0 ≤ r ∧ r ≤ 7 ∧ 0 ≤ c ∧ c ≤ 7) →
      ¬(r = sr ∧ c = sc) →
      ¬((getSq board r c).color = tc ∧ (getSq board r c).kind = 'K'))
    (hkingE : ∀ r c : Int, (0 ≤ r ∧ r ≤ 7 ∧ 0 ≤ c ∧ c ≤ 7) →
      r - sr ≤ 1 → sr - r ≤ 1 → c - sc ≤ 1 → sc - c ≤ 1 →
      ¬((getSq board r c).color = ec ∧ (getSq board r c).kind = 'K'))
    (j : Nat) (hj : j < 8) (chk : PinInfo)
    (hscan : scanDirGo board tc ec sr sc j (directions8.getD j (0, 0)) 1 7 none =
      (none, some chk)) :
    ∃ x ∈ (getAllPossibleMoves board wtmA enp ctx).1,
      x.endRow = sr ∧ x.endCol = sc := by
  obtain ⟨k, hk1, hk8, hbd, hcolA, hcc, _, hint⟩ :=
    scanDirGo_check_invert board tc ec sr sc j (directions8.getD j (0, 0)) 7 1 chk hscan
  obtain ⟨hd1, hd2, hd3, hd4, hdnz⟩ := dirs8_bounds j hj
  have hecA : ec = (if wtmA then 'w' else 'b') := by
    rcases htcec with ⟨_, h1, h2⟩ | ⟨_, h1, h2⟩ <;> subst h1 <;> subst h2 <;> rfl
  have htcB : tc = (if wtmA then 'b' else 'w') := by
    rcases htcec with ⟨h1, _, h2⟩ | ⟨h1, _, h2⟩ <;> subst h1 <;> subst h2 <;> rfl
  have hecne : ¬(if wtmA then 'w' else 'b') = tc := by
    rcases htcec with ⟨h1, _, h2⟩ | ⟨h1, _, h2⟩ <;> subst h1 <;> subst h2 <;> decide
  have hmidE : ∀ l : Nat, 1 ≤ l → l < k →
      (0 ≤ sr + (directions8.getD j (0, 0)).1 * (l : Int) ∧
        sr + (directions8.getD j (0, 0)).1 * (l : Int) ≤ 7 ∧
        0 ≤ sc + (directions8.getD j (0, 0)).2 * (l : Int) ∧
        sc + (directions8.getD j (0, 0)).2 * (l : Int) ≤ 7) ∧
      getSq board (sr + (directions8.getD j (0, 0)).1 * (l : Int))
        (sc + (directions8.getD j (0, 0)).2 * (l : Int)) = emptyCell := by
    intro l hl1 hl2
    have hb1 : 0 ≤ sr + (directions8.getD j (0, 0)).1 * (l : Int) ∧
        sr + (directions8.getD j (0, 0)).1 * (l : Int) ≤ 7 :=
      ray_step_bounds sr (directions8.getD j (0, 0)).1 k l ⟨hd1, hd2⟩
        ⟨hsr.1, hsr.2.1⟩ ⟨hbd.1, hbd.2.1⟩ (by omega)
    have hb2 : 0 ≤ sc + (directions8.getD j (0, 0)).2 * (l : Int) ∧
        sc + (directions8.getD j (0, 0)).2 * (l : Int) ≤ 7 :=
      ray_step_bounds sc (directions8.getD j (0, 0)).2 k l ⟨hd3, hd4⟩
        ⟨hsr.2.2.1, hsr.2.2.2⟩ ⟨hbd.2.2.1, hbd.2.2.2⟩ (by omega)
    have hcell := BoardCells_get board hcells
      (sr + (directions8.getD j (0, 0)).1 * (l : Int))
      (sc + (directions8.getD j (0, 0)).2 * (l : Int))
      ⟨hb1.1, hb1.2, hb2.1, hb2.2⟩
    have hIl := hint l hl1 hl2
    have hne : ¬(sr + (directions8.getD j (0, 0)).1 * (l : Int) = sr ∧
        sc + (directions8.getD j (0, 0)).2 * (l : Int) = sc) := by
      intro hcon
      by_cases hz1 : (directions8.getD j (0, 0)).1 = 0
      · have h6 : (directions8.getD j (0, 0)).2 = -1 ∨
            (directions8.getD j (0, 0)).2 = 1 := by
          by_cases hz2 : (directions8.getD j (0, 0)).2 = 0
          · exact absurd ⟨hz1, hz2⟩ hdnz
          · omega
        have hc2 := hcon.2
        rcases h6 with h6 | h6 <;> rw [h6] at hc2 <;> omega
      · have h5 : (directions8.getD j (0, 0)).1 = -1 ∨
            (directions8.getD j (0, 0)).1 = 1 := by omega
        have hc1 := hcon.1
        rcases h5 with h5 | h5 <;> rw [h5] at hc1 <;> omega
    refine ⟨⟨hb1.1, hb1.2, hb2.1, hb2.2⟩, ?_⟩
    have hnotTK := hteamK _ _ ⟨hb1.1, hb1.2, hb2.1, hb2.2⟩ hne
    rcases htcec with ⟨htw, heb, _⟩ | ⟨htb, hew, _⟩
    · subst htw; subst heb
      exact cell_is_empty_w _ hcell hIl.1 hIl.2
        (fun hwk => hnotTK ⟨by rw [hwk]; rfl, by rw [hwk]; rfl⟩)
    · subst htb; subst hew
      exact cell_is_empty_b _ hcell hIl.1 hIl.2
        (fun hbk2 => hnotTK ⟨by rw [hbk2]; rfl, by rw [hbk2]; rfl⟩)
  rcases canCheckType_cases j k ec _ hcc with
    ⟨hj3, hR⟩ | ⟨hj4, hB⟩ | ⟨hkone, hpk, hpe⟩ | hQ | ⟨hkone, hK⟩
  · -- rook checker
    refine ⟨mkMove (sr + (directions8.getD j (0, 0)).1 * (k : Int),
        sc + (directions8.getD j (0, 0)).2 * (k : Int)) (sr, sc) board false false,
      ?_, rfl, rfl⟩
    refine apm_attack board wtmA enp ctx tc hpins _ _ hbd _ ?_
    intro acc hacc
    exact square_attack_R board wtmA enp acc tc hecne hacc _ _
      (hcolA.trans hecA) hR _ (dirs8_neg_rook j hj3) _
      (slideRay_hits_king board (if wtmA then 'b' else 'w') sr sc _ k hk1 (by omega)
        hsr hmidE hTne (hTcol.trans htcB))
  · -- bishop checker
    refine ⟨mkMove (sr + (directions8.getD j (0, 0)).1 * (k : Int),
        sc + (directions8.getD j (0, 0)).2 * (k : Int)) (sr, sc) board false false,
      ?_, rfl, rfl⟩
    refine apm_attack board wtmA enp ctx tc hpins _ _ hbd _ ?_
    intro acc hacc
    exact square_attack_B board wtmA enp acc tc hecne hacc _ _
      (hcolA.trans hecA) hB _ (dirs8_neg_bishop j hj4 hj) _
      (slideRay_hits_king board (if wtmA then 'b' else 'w') sr sc _ k hk1 (by omega)
        hsr hmidE hTne (hTcol.trans htcB))
  · -- pawn checker (distance 1)
    subst hkone
    rcases hpe with ⟨hew, hj6, hj7⟩ | ⟨heb, hj4, hj5⟩
    · -- enemy is White: white pawn checks from below (directions 6 and 7)
      rcases htcec with ⟨htw, heb2, hwA⟩ | ⟨htb, hew2, hwA⟩
      · rw [hew] at heb2; exact absurd heb2 (by decide)
      · subst htb; subst hwA; subst hew
        have hj67 : j = 6 ∨ j = 7 := by omega
        rcases hj67 with hjv | hjv
        · subst hjv
          have hdv : directions8.getD 6 (0, 0) = ((1 : Int), (-1 : Int)) := rfl
          rw [hdv] at hbd hcolA hpk
          have hc1 : sr + ((1 : Int), (-1 : Int)).1 * ((1 : Nat) : Int) = sr + 1 := by
            dsimp only; push_cast; ring
          have hc2 : sc + ((1 : Int), (-1 : Int)).2 * ((1 : Nat) : Int) = sc - 1 := by
            dsimp only; push_cast; ring
          rw [hc1, hc2] at hbd hcolA hpk
          refine ⟨mkMove (sr + 1, sc - 1)
              (sr + 1 + (if (true : Bool) then (-1 : Int) else 1), sc - 1 + 1)
              board false false, ?_,
            by show sr + 1 + (if (true : Bool) then (-1 : Int) else 1) = sr
               simp only [eq_self_iff_true, if_true]; ring,
            by show sc - 1 + 1 = sc; ring⟩
          refine apm_attack board true enp ctx 'b' hpins _ _ hbd _ ?_
          intro acc hacc
          refine square_attack_pR board true enp acc 'b' hecne hacc (sr + 1) (sc - 1)
            (hcolA.trans hecA) hpk ?_ (by omega) ?_
          · simp only [eq_self_iff_true, if_true]
            omega
          · have hg1 : sr + 1 + (if (true : Bool) then (-1 : Int) else 1) = sr := by
              simp only [eq_self_iff_true, if_true]; ring
            have hg2 : sc - 1 + 1 = sc := by ring
            rw [hg1, hg2, hTcol]
            decide
        · subst hjv
          have hdv : directions8.getD 7 (0, 0) = ((1 : Int), (1 : Int)) := rfl
          rw [hdv] at hbd hcolA hpk
          have hc1 : sr + ((1 : Int), (1 : Int)).1 * ((1 : Nat) : Int) = sr + 1 := by
            dsimp only; push_cast; ring
          have hc2 : sc + ((1 : Int), (1 : Int)).2 * ((1 : Nat) : Int) = sc + 1 := by
            dsimp only; push_cast; ring
          rw [hc1, hc2] at hbd hcolA hpk
          refine ⟨mkMove (sr + 1, sc + 1)
              (sr + 1 + (if (true : Bool) then (-1 : Int) else 1), sc + 1 - 1)
              board false false, ?_,
            by show sr + 1 + (if (true : Bool) then (-1 : Int) else 1) = sr
               simp only [eq_self_iff_true, if_true]; ring,
            by show sc + 1 - 1 = sc; ring⟩
          refine apm_attack board true enp ctx 'b' hpins _ _ hbd _ ?_
          intro acc hacc
          refine square_attack_pL board true enp acc 'b' hecne hacc (sr + 1) (sc + 1)
            (hcolA.trans hecA) hpk ?_ (by omega) ?_
          · simp only [eq_self_iff_true, if_true]
            omega
          · have hg1 : sr + 1 + (if (true : Bool) then (-1 : Int) else 1) = sr := by
              simp only [eq_self_iff_true, if_true]; ring
            have hg2 : sc + 1 - 1 = sc := by ring
            rw [hg1, hg2, hTcol]
            decide
    · -- enemy is Black: black pawn checks from above (directions 4 and 5)
      rcases htcec with ⟨htw, heb2, hwA⟩ | ⟨htb, hew2, hwA⟩
      · subst htw; subst hwA; subst heb
        have hj45 : j = 4 ∨ j = 5 := by omega
        rcases hj45 with hjv | hjv
        · subst hjv
          have hdv : directions8.getD 4 (0, 0) = ((-1 : Int), (-1 : Int)) := rfl
          rw [hdv] at hbd hcolA hpk
          have hc1 : sr + ((-1 : Int), (-1 : Int)).1 * ((1 : Nat) : Int) = sr - 1 := by
            dsimp only; push_cast; ring
          have hc2 : sc + ((-1 : Int), (-1 : Int)).2 * ((1 : Nat) : Int) = sc - 1 := by
            dsimp only; push_cast; ring
          rw [hc1, hc2] at hbd hcolA hpk
          refine ⟨mkMove (sr - 1, sc - 1)
              (sr - 1 + (if (false : Bool) then (-1 : Int) else 1), sc - 1 + 1)
              board false false, ?_,
            by show sr - 1 + (if (false : Bool) then (-1 : Int) else 1) = sr
               simp only [Bool.false_eq_true, if_false]; ring,
            by show sc - 1 + 1 = sc; ring⟩
          refine apm_attack board false enp ctx 'w' hpins _ _ hbd _ ?_
          intro acc hacc
          refine square_attack_pR board false enp acc 'w' hecne hacc (sr - 1) (sc - 1)
            (hcolA.trans hecA) hpk ?_ (by omega) ?_
          · simp only [Bool.false_eq_true, if_false]
            omega
          · have hg1 : sr - 1 + (if (false : Bool) then (-1 : Int) else 1) = sr := by
              simp only [Bool.false_eq_true, if_false]; ring
            have hg2 : sc - 1 + 1 = sc := by ring
            rw [hg1, hg2, hTcol]
            decide
        · subst hjv
          have hdv : directions8.getD 5 (0, 0) = ((-1 : Int), (1 : Int)) := rfl
          rw [hdv] at hbd hcolA hpk
          have hc1 : sr + ((-1 : Int), (1 : Int)).1 * ((1 : Nat) : Int) = sr - 1 := by
            dsimp only; push_cast; ring
          have hc2 : sc + ((-1 : Int), (1 : Int)).2 * ((1 : Nat) : Int) = sc + 1 := by
            dsimp only; push_cast; ring
          rw [hc1, hc2] at hbd hcolA hpk
          refine ⟨mkMove (sr - 1, sc + 1)
              (sr - 1 + (if (false : Bool) then (-1 : Int) else 1), sc + 1 - 1)
              board false false, ?_,
            by show sr - 1 + (if (false : Bool) then (-1 : Int) else 1) = sr
               simp only [Bool.false_eq_true, if_false]; ring,
            by show sc + 1 - 1 = sc; ring⟩
          refine apm_attack board false enp ctx 'w' hpins _ _ hbd _ ?_
          intro acc hacc
          refine square_attack_pL board false enp acc 'w' hecne hacc (sr - 1) (sc + 1)
            (hcolA.trans hecA) hpk ?_ (by omega) ?_
          · simp only [Bool.false_eq_true, if_false]
            omega
          · have hg1 : sr - 1 + (if (false : Bool) then (-1 : Int) else 1) = sr := by
              simp only [Bool.false_eq_true, if_false]; ring
            have hg2 : sc + 1 - 1 = sc := by ring
            rw [hg1, hg2, hTcol]
            decide
      · rw [heb] at hew2; exact absurd hew2 (by decide)
  · -- queen checker
    have he : (-(directions8.getD j (0, 0)).1, -(directions8.getD j (0, 0)).2) ∈
        rookDirs ∨
        (-(directions8.getD j (0, 0)).1, -(directions8.getD j (0, 0)).2) ∈
        bishopDirs := by
      by_cases hj3 : j ≤ 3
      · exact Or.inl (dirs8_neg_rook j hj3)
      · exact Or.inr (dirs8_neg_bishop j (by omega) hj)
    refine ⟨mkMove (sr + (directions8.getD j (0, 0)).1 * (k : Int),
        sc + (directions8.getD j (0, 0)).2 * (k : Int)) (sr, sc) board false false,
      ?_, rfl, rfl⟩
    refine apm_attack board wtmA enp ctx tc hpins _ _ hbd _ ?_
    intro acc hacc
    exact square_attack_Q board wtmA enp acc tc hecne hacc _ _
      (hcolA.trans hecA) hQ _ he _
      (slideRay_hits_king board (if wtmA then 'b' else 'w') sr sc _ k hk1 (by omega)
        hsr hmidE hTne (hTcol.trans htcB))
  · -- adjacent enemy king cannot actually occur
    exfalso
    subst hkone
    have hc1 : sr + (directions8.getD j (0, 0)).1 * ((1 : Nat) : Int) =
        sr + (directions8.getD j (0, 0)).1 := by push_cast; ring
    have hc2 : sc + (directions8.getD j (0, 0)).2 * ((1 : Nat) : Int) =
        sc + (directions8.getD j (0, 0)).2 := by push_cast; ring
    rw [hc1, hc2] at hbd hcolA hK
    exact hkingE _ _ hbd (by omega) (by omega) (by omega) (by omega) ⟨hcolA, hK⟩


theorem kingSquare_attacked (board : Board) (wtm : Bool) (enp : Int × Int)
    (ctx : GenCtx) (wkl bkl : Int × Int)
    (hBO : BoardOK board) (hcells : BoardCells board)
    (hcohW : KingCoh board wK wkl) (hcohB : KingCoh board bK bkl)
    (hkW : getSq board wkl.1 wkl.2 = wK) (hkB : getSq board bkl.1 bkl.2 = bK)
    (hadj : ¬(wkl.1 - bkl.1 ≤ 1 ∧ bkl.1 - wkl.1 ≤ 1 ∧
              wkl.2 - bkl.2 ≤ 1 ∧ bkl.2 - wkl.2 ≤ 1))
    (hpins : ∀ p ∈ ctx.pins,
      (getSq board p.row p.col).color = (if wtm then 'w' else 'b'))
    (hchk : (checkForPinsAndChecks board wtm wkl bkl).inCheck = true) :
    (squareUnderAttack board wtm enp ctx (if wtm then wkl.1 else bkl.1)
      (if wtm then wkl.2 else bkl.2)).1 = true := by
  cases wtm with
  | true =>
      simp only [eq_self_iff_true, if_true]
      simp only [eq_self_iff_true, if_true] at hpins
      have hsrb := king_loc_bounds board hBO wK wkl hcohW hkW (by decide)
      have hTne : getSq board wkl.1 wkl.2 ≠ emptyCell := by rw [hkW]; decide
      have hTcol : (getSq board wkl.1 wkl.2).color = 'w' := by rw [hkW]; rfl
      have hteamK : ∀ r c : Int, (0 ≤ r ∧ r ≤ 7 ∧ 0 ≤ c ∧ c ≤ 7) →
          ¬(r = wkl.1 ∧ c = wkl.2) →
          ¬((getSq board r c).color = 'w' ∧ (getSq board r c).kind = 'K') := by
        intro r c hb hne hcon
        have hcell := BoardCells_get board hcells r c hb
        have hwkc : getSq board r c = wK := cell_wK_of _ hcell hcon.1 hcon.2
        exact hne (KingCoh_apply board wK wkl hcohW r c hb hwkc)
      have hkingE : ∀ r c : Int, (0 ≤ r ∧ r ≤ 7 ∧ 0 ≤ c ∧ c ≤ 7) →
          r - wkl.1 ≤ 1 → wkl.1 - r ≤ 1 → c - wkl.2 ≤ 1 → wkl.2 - c ≤ 1 →
          ¬((getSq board r c).color = 'b' ∧ (getSq board r c).kind = 'K') := by
        intro r c hb h1 h2 h3 h4 hcon
        have hcell := BoardCells_get board hcells r c hb
        have hbkc : getSq board r c = bK := cell_bK_of _ hcell hcon.1 hcon.2
        have hloc := KingCoh_apply board bK bkl hcohB r c hb hbkc
        exact hadj (by omega)
      have hkey : (∀ m ∈ knightDirs,
            ¬((0 ≤ wkl.1 + m.1 ∧ wkl.1 + m.1 ≤ 7 ∧
                0 ≤ wkl.2 + m.2 ∧ wkl.2 + m.2 ≤ 7) ∧
              (getSq board (wkl.1 + m.1) (wkl.2 + m.2)).color = 'b' ∧
              (getSq board (wkl.1 + m.1) (wkl.2 + m.2)).kind = 'N')) →
          (∀ j ∈ List.range 8, ∀ chk : PinInfo,
            scanDirGo board 'w' 'b' wkl.1 wkl.2 j (directions8.getD j (0, 0))
              1 7 none ≠ (none, some chk)) →
          (checkForPinsAndChecks board true wkl bkl).inCheck = false := by
        intro hnoN hnoR
        unfold checkForPinsAndChecks
        dsimp only
        simp only [eq_self_iff_true, if_true]
        refine foldl_pres_mem
          (fun acc : Bool × List PinInfo × List PinInfo => acc.1 = false) _
          knightDirs ?_ _ ?_
        · intro b m hm hP
          dsimp only
          split
          · rename_i hbnd
            split
            · rename_i hcn
              exact absurd ⟨hbnd, hcn.1, hcn.2⟩ (hnoN m hm)
            · exact hP
          · exact hP
        · refine foldl_pres_mem
            (fun acc : Bool × List PinInfo × List PinInfo => acc.1 = false) _
            (List.range 8) ?_ (false, [], []) rfl
          intro b jj hjj hP
          dsimp only
          rcases hscan2 : scanDirGo board 'w' 'b' wkl.1 wkl.2 jj
              (directions8.getD jj (0, 0)) 1 7 none with ⟨o, o2⟩
          cases o with
          | some pin => exact hP
          | none =>
              cases o2 with
              | some chk => exact absurd hscan2 (hnoR jj hjj chk)
              | none => exact hP
      by_cases hN : ∃ m ∈ knightDirs,
          (0 ≤ wkl.1 + m.1 ∧ wkl.1 + m.1 ≤ 7 ∧
            0 ≤ wkl.2 + m.2 ∧ wkl.2 + m.2 ≤ 7) ∧
          (getSq board (wkl.1 + m.1) (wkl.2 + m.2)).color = 'b' ∧
          (getSq board (wkl.1 + m.1) (wkl.2 + m.2)).kind = 'N'
      · obtain ⟨m, hm, hbnd2, hcolN, hkindN⟩ := hN
        refine squareUnderAttack_of_mem board true enp ctx wkl.1 wkl.2
          (mkMove (wkl.1 + m.1, wkl.2 + m.2)
            (wkl.1 + m.1 + (-m.1, -m.2).1, wkl.2 + m.2 + (-m.1, -m.2).2)
            board false false)
          ?_
          (by show wkl.1 + m.1 + (-m.1, -m.2).1 = wkl.1; dsimp only; ring)
          (by show wkl.2 + m.2 + (-m.1, -m.2).2 = wkl.2; dsimp only; ring)
        refine apm_attack board false enp ctx 'w' hpins _ _ hbnd2 _ ?_
        intro acc hacc
        refine square_attack_N board false enp acc 'w' (by decide) hacc
          (wkl.1 + m.1) (wkl.2 + m.2) (by rw [hcolN]; decide) hkindN
          (-m.1, -m.2) (knightDirs_neg hm) ?_ ?_
        · dsimp only
          omega
        · have hco1 : wkl.1 + m.1 + (-m.1, -m.2).1 = wkl.1 := by dsimp only; ring
          have hco2 : wkl.2 + m.2 + (-m.1, -m.2).2 = wkl.2 := by dsimp only; ring
          rw [hco1, hco2, hkW]
          decide
      · by_cases hRr : ∃ j ∈ List.range 8, ∃ chk : PinInfo,
            scanDirGo board 'w' 'b' wkl.1 wkl.2 j (directions8.getD j (0, 0))
              1 7 none = (none, some chk)
        · obtain ⟨j, hjm, chk, hscan⟩ := hRr
          obtain ⟨x, hx, he1, he2⟩ := ray_check_attack board false enp ctx 'w' 'b'
            (Or.inl ⟨rfl, rfl, rfl⟩) hcells hpins wkl.1 wkl.2 hsrb hTne hTcol
            hteamK hkingE j (List.mem_range.mp hjm) chk hscan
          exact squareUnderAttack_of_mem board true enp ctx wkl.1 wkl.2 x hx he1 he2
        · exfalso
          rw [hkey (fun m hm hP => hN ⟨m, hm, hP⟩)
            (fun j hj chk heq => hRr ⟨j, hj, chk, heq⟩)] at hchk
          exact absurd hchk (by decide)
  | false =>
      simp only [eq_self_iff_true, Bool.false_eq_true, if_true, if_false]
      simp only [eq_self_iff_true, Bool.false_eq_true, if_true, if_false] at hpins
      have hsrb := king_loc_bounds board hBO bK bkl hcohB hkB (by decide)
      have hTne : getSq board bkl.1 bkl.2 ≠ emptyCell := by rw [hkB]; decide
      have hTcol : (getSq board bkl.1 bkl.2).color = 'b' := by rw [hkB]; rfl
      have hteamK : ∀ r c : Int, (0 ≤ r ∧ r ≤ 7 ∧ 0 ≤ c ∧ c ≤ 7) →
          ¬(r = bkl.1 ∧ c = bkl.2) →
          ¬((getSq board r c).color = 'b' ∧ (getSq board r c).kind = 'K') := by
        intro r c hb hne hcon
        have hcell := BoardCells_get board hcells r c hb
        have hbkc : getSq board r c = bK := cell_bK_of _ hcell hcon.1 hcon.2
        exact hne (KingCoh_apply board bK bkl hcohB r c hb hbkc)
      have hkingE : ∀ r c : Int, (0 ≤ r ∧ r ≤ 7 ∧ 0 ≤ c ∧ c ≤ 7) →
          r - bkl.1 ≤ 1 → bkl.1 - r ≤ 1 → c - bkl.2 ≤ 1 → bkl.2 - c ≤ 1 →
          ¬((getSq board r c).color = 'w' ∧ (getSq board r c).kind = 'K') := by
        intro r c hb h1 h2 h3 h4 hcon
        have hcell := BoardCells_get board hcells r c hb
        have hwkc : getSq board r c = wK := cell_wK_of _ hcell hcon.1 hcon.2
        have hloc := KingCoh_apply board wK wkl hcohW r c hb hwkc
        exact hadj (by omega)
      have hkey : (∀ m ∈ knightDirs,
            ¬((0 ≤ bkl.1 + m.1 ∧ bkl.1 + m.1 ≤ 7 ∧
                0 ≤ bkl.2 + m.2 ∧ bkl.2 + m.2 ≤ 7) ∧
              (getSq board (bkl.1 + m.1) (bkl.2 + m.2)).color = 'w' ∧
              (getSq board (bkl.1 + m.1) (bkl.2 + m.2)).kind = 'N')) →
          (∀ j ∈ List.range 8, ∀ chk : PinInfo,
            scanDirGo board 'b' 'w' bkl.1 bkl.2 j (directions8.getD j (0, 0))
              1 7 none ≠ (none, some chk)) →
          (checkForPinsAndChecks board false wkl bkl).inCheck = false := by
        intro hnoN hnoR
        unfold checkForPinsAndChecks
        dsimp only
        simp only [eq_self_iff_true, Bool.false_eq_true, if_true, if_false]
        refine foldl_pres_mem
          (fun acc : Bool × List PinInfo × List PinInfo => acc.1 = false) _
          knightDirs ?_ _ ?_
        · intro b m hm hP
          dsimp only
          split
          · rename_i hbnd
            split
            · rename_i hcn
              exact absurd ⟨hbnd, hcn.1, hcn.2⟩ (hnoN m hm)
            · exact hP
          · exact hP
        · refine foldl_pres_mem
            (fun acc : Bool × List PinInfo × List PinInfo => acc.1 = false) _
            (List.range 8) ?_ (false, [], []) rfl
          intro b jj hjj hP
          dsimp only
          rcases hscan2 : scanDirGo board 'b' 'w' bkl.1 bkl.2 jj
              (directions8.getD jj (0, 0)) 1 7 none with ⟨o, o2⟩
          cases o with
          | some pin => exact hP
          | none =>
              cases o2 with
              | some chk => exact absurd hscan2 (hnoR jj hjj chk)
              | none => exact hP
      by_cases hN : ∃ m ∈ knightDirs,
          (0 ≤ bkl.1 + m.1 ∧ bkl.1 + m.1 ≤ 7 ∧
            0 ≤ bkl.2 + m.2 ∧ bkl.2 + m.2 ≤ 7) ∧
          (getSq board (bkl.1 + m.1) (bkl.2 + m.2)).color = 'w' ∧
          (getSq board (bkl.1 + m.1) (bkl.2 + m.2)).kind = 'N'
      · obtain ⟨m, hm, hbnd2, hcolN, hkindN⟩ := hN
        refine squareUnderAttack_of_mem board false enp ctx bkl.1 bkl.2
          (mkMove (bkl.1 + m.1, bkl.2 + m.2)
            (bkl.1 + m.1 + (-m.1, -m.2).1, bkl.2 + m.2 + (-m.1, -m.2).2)
            board false false)
          ?_
          (by show bkl.1 + m.1 + (-m.1, -m.2).1 = bkl.1; dsimp only; ring)
          (by show bkl.2 + m.2 + (-m.1, -m.2).2 = bkl.2; dsimp only; ring)
        refine apm_attack board true enp ctx 'b' hpins _ _ hbnd2 _ ?_
        intro acc hacc
        refine square_attack_N board true enp acc 'b' (by decide) hacc
          (bkl.1 + m.1) (bkl.2 + m.2) (by rw [hcolN]; decide) hkindN
          (-m.1, -m.2) (knightDirs_neg hm) ?_ ?_
        · dsimp only
          omega
        · have hco1 : bkl.1 + m.1 + (-m.1, -m.2).1 = bkl.1 := by dsimp only; ring
          have hco2 : bkl.2 + m.2 + (-m.1, -m.2).2 = bkl.2 := by dsimp only; ring
          rw [hco1, hco2, hkB]
          decide
      · by_cases hRr : ∃ j ∈ List.range 8, ∃ chk : PinInfo,
            scanDirGo board 'b' 'w' bkl.1 bkl.2 j (directions8.getD j (0, 0))
              1 7 none = (none, some chk)
        · obtain ⟨j, hjm, chk, hscan⟩ := hRr
          obtain ⟨x, hx, he1, he2⟩ := ray_check_attack board true enp ctx 'b' 'w'
            (Or.inr ⟨rfl, rfl, rfl⟩) hcells hpins bkl.1 bkl.2 hsrb hTne hTcol
            hteamK hkingE j (List.mem_range.mp hjm) chk hscan
          exact squareUnderAttack_of_mem board false enp ctx bkl.1 bkl.2 x hx he1 he2
        · exfalso
          rw [hkey (fun m hm hP => hN ⟨m, hm, hP⟩)
            (fun j hj chk heq => hRr ⟨j, hj, chk, heq⟩)] at hchk
          exact absurd hchk (by decide)


theorem getCastleMoves_empty (board : Board) (wtm : Bool) (enp : Int × Int)
    (cr : CastleRights) (ctx : GenCtx) (row col : Int)
    (hatt : (squareUnderAttack board wtm enp ctx row col).1 = true) :
    (getCastleMoves board wtm enp cr ctx row col).1 = [] := by
  unfold getCastleMoves
  dsimp only
  rw [if_pos hatt]


/-- **C5.**  For every position satisfying the reachable-state invariants
(an 8×8 board holding only legitimate cell values, both cached king
locations coherent with the board, each king standing on its cached
square, and the two kings not adjacent) in which the side to move is in
check, the move list returned by `getValidMoves` contains no move flagged
as a castle move — even though castling generation is still invoked while
in check (its own king-square-under-attack guard returns the empty
list). -/
theorem c5_no_castle_while_in_check (gs : GameState)
    (hBO : BoardOK gs.board) (hcells : BoardCells gs.board)
    (hcohW : KingCoh gs.board wK gs.whiteKingLocation)
    (hcohB : KingCoh gs.board bK gs.blackKingLocation)
    (hkW : getSq gs.board gs.whiteKingLocation.1 gs.whiteKingLocation.2 = wK)
    (hkB : getSq gs.board gs.blackKingLocation.1 gs.blackKingLocation.2 = bK)
    (hadj : ¬(gs.whiteKingLocation.1 - gs.blackKingLocation.1 ≤ 1 ∧
              gs.blackKingLocation.1 - gs.whiteKingLocation.1 ≤ 1 ∧
              gs.whiteKingLocation.2 - gs.blackKingLocation.2 ≤ 1 ∧
              gs.blackKingLocation.2 - gs.whiteKingLocation.2 ≤ 1))
    (hchk : (gs.getValidMoves).2.inCheck = true) :
    ∀ x ∈ (gs.getValidMoves).1, x.isCastleMove = false := by
  have hchk2 : (checkForPinsAndChecks gs.board gs.whiteToMove gs.whiteKingLocation
      gs.blackKingLocation).inCheck = true := hchk
  intro x hx
  unfold GameState.getValidMoves at hx
  dsimp only at hx
  cases hwtm : gs.whiteToMove with
  | true =>
      rw [hwtm] at hx hchk2
      simp only [eq_self_iff_true, if_true] at hx
      rw [if_pos hchk2] at hx
      dsimp only at hx
      by_cases hlen : (checkForPinsAndChecks gs.board true gs.whiteKingLocation
          gs.blackKingLocation).checks.length = 1
      · rw [if_pos hlen] at hx
        dsimp only at hx
        have hall := getAllPossibleMoves_kings gs.board true gs.enPassantPossible
          gs.whiteKingLocation gs.blackKingLocation hcohW hcohB
          ⟨(checkForPinsAndChecks gs.board true gs.whiteKingLocation
              gs.blackKingLocation).pins,
            gs.whiteKingLocation, gs.blackKingLocation⟩ rfl rfl
        rw [hall.1] at hx
        rcases List.mem_append.mp hx with hb | hc
        · exact AllNC_getAllPossibleMoves gs.board true gs.enPassantPossible _ x
            (List.mem_filter.mp hb).1
        · have hpinsB : ∀ p ∈ (getAllPossibleMoves gs.board true gs.enPassantPossible
              ⟨(checkForPinsAndChecks gs.board true gs.whiteKingLocation
                  gs.blackKingLocation).pins,
                gs.whiteKingLocation, gs.blackKingLocation⟩).2.pins,
              (getSq gs.board p.row p.col).color = (if true then 'w' else 'b') :=
            fun p hp => cfpc_pins_team gs.board true gs.whiteKingLocation
              gs.blackKingLocation p
              (getAllPossibleMoves_pins gs.board true gs.enPassantPossible _ p hp)
          have hatt := kingSquare_attacked gs.board true gs.enPassantPossible _
            gs.whiteKingLocation gs.blackKingLocation hBO hcells hcohW hcohB hkW hkB
            hadj hpinsB hchk2
          have hatt2 : (squareUnderAttack gs.board true gs.enPassantPossible
              (getAllPossibleMoves gs.board true gs.enPassantPossible
                ⟨(checkForPinsAndChecks gs.board true gs.whiteKingLocation
                    gs.blackKingLocation).pins,
                  gs.whiteKingLocation, gs.blackKingLocation⟩).2
              gs.whiteKingLocation.1 gs.whiteKingLocation.2).1 = true := hatt
          rw [getCastleMoves_empty gs.board true gs.enPassantPossible
            gs.castlingRights _ gs.whiteKingLocation.1 gs.whiteKingLocation.2
            hatt2] at hc
          exact absurd hc (List.not_mem_nil x)
      · rw [if_neg hlen] at hx
        have hkm := getKingMoves_kings gs.board true
          ⟨(checkForPinsAndChecks gs.board true gs.whiteKingLocation
              gs.blackKingLocation).pins,
            gs.whiteKingLocation, gs.blackKingLocation⟩
          gs.whiteKingLocation.1 gs.whiteKingLocation.2
        have hW : (getKingMoves gs.board true
            ⟨(checkForPinsAndChecks gs.board true gs.whiteKingLocation
                gs.blackKingLocation).pins,
              gs.whiteKingLocation, gs.blackKingLocation⟩
            gs.whiteKingLocation.1 gs.whiteKingLocation.2).2.wkl =
            gs.whiteKingLocation :=
          hkm.1.elim (fun h => h) (fun h => h.trans Prod.mk.eta)
        rw [hW] at hx
        rcases List.mem_append.mp hx with hb | hc
        · exact AllNC_getKingMoves gs.board true _ _ _ x hb
        · have hpinsB : ∀ p ∈ (getKingMoves gs.board true
              ⟨(checkForPinsAndChecks gs.board true gs.whiteKingLocation
                  gs.blackKingLocation).pins,
                gs.whiteKingLocation, gs.blackKingLocation⟩
              gs.whiteKingLocation.1 gs.whiteKingLocation.2).2.pins,
              (getSq gs.board p.row p.col).color = (if true then 'w' else 'b') := by
            intro p hp
            rw [getKingMoves_pins gs.board true _ _ _] at hp
            exact cfpc_pins_team gs.board true gs.whiteKingLocation
              gs.blackKingLocation p hp
          have hatt := kingSquare_attacked gs.board true gs.enPassantPossible _
            gs.whiteKingLocation gs.blackKingLocation hBO hcells hcohW hcohB hkW hkB
            hadj hpinsB hchk2
          have hatt2 : (squareUnderAttack gs.board true gs.enPassantPossible
              (getKingMoves gs.board true
                ⟨(checkForPinsAndChecks gs.board true gs.whiteKingLocation
                    gs.blackKingLocation).pins,
                  gs.whiteKingLocation, gs.blackKingLocation⟩
                gs.whiteKingLocation.1 gs.whiteKingLocation.2).2
              gs.whiteKingLocation.1 gs.whiteKingLocation.2).1 = true := hatt
          rw [getCastleMoves_empty gs.board true gs.enPassantPossible
            gs.castlingRights _ gs.whiteKingLocation.1 gs.whiteKingLocation.2
            hatt2] at hc
          exact absurd hc (List.not_mem_nil x)
  | false =>
      rw [hwtm] at hx hchk2
      simp only [eq_self_iff_true, Bool.false_eq_true, if_true, if_false] at hx
      rw [if_pos hchk2] at hx
      dsimp only at hx
      by_cases hlen : (checkForPinsAndChecks gs.board false gs.whiteKingLocation
          gs.blackKingLocation).checks.length = 1
      · rw [if_pos hlen] at hx
        dsimp only at hx
        have hall := getAllPossibleMoves_kings gs.board false gs.enPassantPossible
          gs.whiteKingLocation gs.blackKingLocation hcohW hcohB
          ⟨(checkForPinsAndChecks gs.board false gs.whiteKingLocation
              gs.blackKingLocation).pins,
            gs.whiteKingLocation, gs.blackKingLocation⟩ rfl rfl
        rw [hall.2] at hx
        rcases List.mem_append.mp hx with hb | hc
        · exact AllNC_getAllPossibleMoves gs.board false gs.enPassantPossible _ x
            (List.mem_filter.mp hb).1
        · have hpinsB : ∀ p ∈ (getAllPossibleMoves gs.board false gs.enPassantPossible
              ⟨(checkForPinsAndChecks gs.board false gs.whiteKingLocation
                  gs.blackKingLocation).pins,
                gs.whiteKingLocation, gs.blackKingLocation⟩).2.pins,
              (getSq gs.board p.row p.col).color = (if false then 'w' else 'b') :=
            fun p hp => cfpc_pins_team gs.board false gs.whiteKingLocation
              gs.blackKingLocation p
              (getAllPossibleMoves_pins gs.board false gs.enPassantPossible _ p hp)
          have hatt := kingSquare_attacked gs.board false gs.enPassantPossible _
            gs.whiteKingLocation gs.blackKingLocation hBO hcells hcohW hcohB hkW hkB
            hadj hpinsB hchk2
          have hatt2 : (squareUnderAttack gs.board false gs.enPassantPossible
              (getAllPossibleMoves gs.board false gs.enPassantPossible
                ⟨(checkForPinsAndChecks gs.board false gs.whiteKingLocation
                    gs.blackKingLocation).pins,
                  gs.whiteKingLocation, gs.blackKingLocation⟩).2
              gs.blackKingLocation.1 gs.blackKingLocation.2).1 = true := hatt
          rw [getCastleMoves_empty gs.board false gs.enPassantPossible
            gs.castlingRights _ gs.blackKingLocation.1 gs.blackKingLocation.2
            hatt2] at hc
          exact absurd hc (List.not_mem_nil x)
      · rw [if_neg hlen] at hx
        have hkm := getKingMoves_kings gs.board false
          ⟨(checkForPinsAndChecks gs.board false gs.whiteKingLocation
              gs.blackKingLocation).pins,
            gs.whiteKingLocation, gs.blackKingLocation⟩
          gs.blackKingLocation.1 gs.blackKingLocation.2
        have hB : (getKingMoves gs.board false
            ⟨(checkForPinsAndChecks gs.board false gs.whiteKingLocation
                gs.blackKingLocation).pins,
              gs.whiteKingLocation, gs.blackKingLocation⟩
            gs.blackKingLocation.1 gs.blackKingLocation.2).2.bkl =
            gs.blackKingLocation :=
          hkm.2.1.elim (fun h => h) (fun h => h.trans Prod.mk.eta)
        rw [hB] at hx
        rcases List.mem_append.mp hx with hb | hc
        · exact AllNC_getKingMoves gs.board false _ _ _ x hb
        · have hpinsB : ∀ p ∈ (getKingMoves gs.board false
              ⟨(checkForPinsAndChecks gs.board false gs.whiteKingLocation
                  gs.blackKingLocation).pins,
                gs.whiteKingLocation, gs.blackKingLocation⟩
              gs.blackKingLocation.1 gs.blackKingLocation.2).2.pins,
              (getSq gs.board p.row p.col).color = (if false then 'w' else 'b') := by
            intro p hp
            rw [getKingMoves_pins gs.board false _ _ _] at hp
            exact cfpc_pins_team gs.board false gs.whiteKingLocation
              gs.blackKingLocation p hp
          have hatt := kingSquare_attacked gs.board false gs.enPassantPossible _
            gs.whiteKingLocation gs.blackKingLocation hBO hcells hcohW hcohB hkW hkB
            hadj hpinsB hchk2
          have hatt2 : (squareUnderAttack gs.board false gs.enPassantPossible
              (getKingMoves gs.board false
                ⟨(checkForPinsAndChecks gs.board false gs.whiteKingLocation
                    gs.blackKingLocation).pins,
                  gs.whiteKingLocation, gs.blackKingLocation⟩
                gs.blackKingLocation.1 gs.blackKingLocation.2).2
              gs.blackKingLocation.1 gs.blackKingLocation.2).1 = true := hatt
          rw [getCastleMoves_empty gs.board false gs.enPassantPossible
            gs.castlingRights _ gs.blackKingLocation.1 gs.blackKingLocation.2
            hatt2] at hc
          exact absurd hc (List.not_mem_nil x)


/-- A concrete position for exercising `c5_no_castle_while_in_check`:
Black to move, Black king on e8 checked by a white rook on a8, White king
on e1. -/
def c5state : GameState :=
  { board := setSq (setSq (setSq emptyBoard 0 0 wR) 0 4 bK) 7 4 wK,
    whiteToMove := false,
    moveLog := [],
    whiteKingLocation := (7, 4),
    blackKingLocation := (0, 4),
    checkmate := false,
    stalemate := false,
    inCheck := false,
    pins := [],
    checks := [],
    enPassantPossible := (-1, -1),
    enPassantPossibleLog := [(-1, -1)],
    castlingRights := ⟨true, true, true, true⟩,
    castlingRightsLog := [⟨true, true, true, true⟩] }

/-- Witness for C5: on `c5state` the returned state reports check and the
returned move list is castle-free. -/
theorem c5_witness :
    (c5state.getValidMoves).2.inCheck = true ∧
    ∀ x ∈ (c5state.getValidMoves).1, x.isCastleMove = false := by
  have h : (c5state.getValidMoves).2.inCheck = true := by decide
  exact ⟨h, c5_no_castle_while_in_check c5state (by decide) (by decide) (by decide)
    (by decide) (by decide) (by decide) (by decide) h⟩

end MittensOS
